import Mathlib

/-!
# Verification of the jsonschema-llm Python bindings and engine orchestration

This development embeds, as Lean functions, the parts of the jsonschema-llm
repository that its specification makes claims about:

* the JSON value model shared by all Python modules (parsed JSON documents,
  Python `dict` access, Python truthiness);
* `ConvertOptions.to_dict` and the snake-case → kebab-case option-key
  normalisation of `Engine.convert` (src/bindings/python);
* the typed result constructors `ConvertResult.from_dict`,
  `RehydrateResult.from_dict`, `ProviderCompatError.from_dict`,
  `RehydrateWarning.from_dict` (src/bindings/python/json_schema_llm_wasi/types.py);
* the four provider formatters' `extract_content` methods
  (src/engine/python/jsonschema_llm_engine/formatters);
* the WASI call protocol `_call_jsl` / `_call_wasi` of the three bindings,
  modelled as a function of an abstract module behaviour that records an
  event trace (handshake, allocation, dispatch, envelope decoding, cleanup);
* a spec-modelled converter/rehydrator pair (the real engine is a WASM
  binary whose Rust source is not part of this tree) used for the
  round-trip soundness property.

Machine integers that cross the ABI are modelled as `Nat` (Python integers
are unbounded; the u32 fields are decoded from four explicit bytes).
Python exceptions are modelled by an explicit `PyExc` error type carried
in `Except`.
-/

set_option autoImplicit false
set_option maxRecDepth 8192

namespace JsonSchemaLlm

/-! ## JSON value model

Parsed JSON documents as produced by Python's `json.loads`.  Python maps
JSON `null` to `None`; since `dict.get` also returns `None` for a missing
key, the embedding uses `Json.null` for both, exactly as the Python code
cannot distinguish them.  Numbers are modelled as integers (no claim under
verification depends on float payloads). -/

inductive Json where
  | null
  | bool (b : Bool)
  | num (n : Int)
  | str (s : String)
  | arr (items : List Json)
  | obj (fields : List (String × Json))

namespace Json

/-- Python truthiness (`bool(x)`) of a parsed JSON value: `None`, `False`,
`0`, `""`, `[]`, and `.obj []` are falsy, everything else truthy. -/
def truthy : Json → Bool
  | .null => false
  | .bool b => b
  | .num n => n != 0
  | .str s => !s.isEmpty
  | .arr items => !items.isEmpty
  | .obj fields => !fields.isEmpty

/-- `isinstance(x, list)`. -/
def isList : Json → Bool
  | .arr _ => true
  | _ => false

/-- `isinstance(x, str)`. -/
def isStr : Json → Bool
  | .str _ => true
  | _ => false

/-- `isinstance(x, dict)`. -/
def isDict : Json → Bool
  | .obj _ => true
  | _ => false

/-- `x is None`. -/
def isNull : Json → Bool
  | .null => true
  | _ => false

/-- `x == "lit"`: Python equality of a parsed value against a string
literal is true exactly when the value is that string. -/
def eqStr : Json → String → Bool
  | .str t, s => t = s
  | _, _ => false

end Json

/-- Python exceptions that an embedded code path can raise. -/
inductive PyExc where
  | keyError (key : String)
  | attributeError
  | typeError (msg : String)
  | indexError
  | valueError (msg : String)
  | runtimeError (msg : String)
  | responseParsingError (msg : String)
  | schemaConversionError (msg : String)
  | rehydrationError (msg : String)
  | jslError (code message path : Json)
  | trap

/-! ## Python dict primitives over `Json` -/

/-- First-match association lookup (a Python dict never holds duplicate
keys, and every dict in the embedding is built key-by-key). -/
def dictLookup (fields : List (String × Json)) (k : String) : Option Json :=
  match fields with
  | [] => none
  | (k', v) :: rest => if k' = k then some v else dictLookup rest k

/-- `d.get(k)`: `None` (here `Json.null`) when the key is missing. -/
def dictGet (fields : List (String × Json)) (k : String) : Json :=
  (dictLookup fields k).getD .null

/-- `d.get(k, default)`. -/
def dictGetD (fields : List (String × Json)) (k : String) (default : Json) : Json :=
  (dictLookup fields k).getD default

/-- `d[k]`: raises `KeyError` when the key is missing. -/
def dictItem (fields : List (String × Json)) (k : String) : Except PyExc Json :=
  match dictLookup fields k with
  | some v => .ok v
  | none => .error (.keyError k)

/-- `x.get(k)` on an arbitrary value: `AttributeError` when `x` is not a
dict (this is what Python raises for `.get` on lists, strings, numbers,
booleans and `None`). -/
def Json.pyGet : Json → String → Except PyExc Json
  | .obj fields, k => .ok (dictGet fields k)
  | _, _ => .error .attributeError

/-- `x[k]` on an arbitrary value where `k` is a string key. -/
def Json.pyItem : Json → String → Except PyExc Json
  | .obj fields, k => dictItem fields k
  | _, _ => .error (.typeError "not subscriptable by str")

/-- `d[k] = v` on a Python dict: overwrite in place when the key exists
(keeping its position), append otherwise. -/
def dictSet (fields : List (String × Json)) (k : String) (v : Json) :
    List (String × Json) :=
  match fields with
  | [] => [(k, v)]
  | (k', v') :: rest =>
    if k' = k then (k, v) :: rest else (k', v') :: dictSet rest k v

/-- `xs[0]` on an arbitrary value (`IndexError` on an empty list,
`TypeError` elsewhere; string indexing does not occur on any embedded
path that reaches it). -/
def Json.pyFirst : Json → Except PyExc Json
  | .arr [] => .error .indexError
  | .arr (x :: _) => .ok x
  | _ => .error (.typeError "not indexable")

/-! ## ConvertOptions (src/bindings/python/json_schema_llm_wasi/types.py)
and option-key normalisation (src/bindings/python/jsonschema_llm_wasi.py) -/

/-- `ConvertOptions`: five optional fields, `None` by default. -/
structure ConvertOptions where
  target : Option String := none
  mode : Option String := none
  max_depth : Option Int := none
  recursion_limit : Option Int := none
  polymorphism : Option String := none
  deriving DecidableEq, Repr

/-- `ConvertOptions.to_dict`: serialize to kebab-case wire keys, skipping
every field that is `None`, in declaration order. -/
def ConvertOptions.to_dict (o : ConvertOptions) : List (String × Json) :=
  (match o.target with | some t => [("target", Json.str t)] | none => []) ++
  (match o.mode with | some m => [("mode", Json.str m)] | none => []) ++
  (match o.max_depth with | some d => [("max-depth", Json.num d)] | none => []) ++
  (match o.recursion_limit with | some r => [("recursion-limit", Json.num r)] | none => []) ++
  (match o.polymorphism with | some p => [("polymorphism", Json.str p)] | none => [])

/-- `key.replace("_", "-")` for the one-character pattern used by
`Engine.convert`: replace every underscore character by a hyphen. -/
def kebabKey (k : String) : String :=
  ⟨k.data.map (fun c => if c = '_' then '-' else c)⟩

/-- The normalisation loop of `Engine.convert`
(src/bindings/python/jsonschema_llm_wasi.py): build a fresh dict whose
keys have every `"_"` replaced by `"-"`. -/
def normalizeOptions (options : List (String × Json)) : List (String × Json) :=
  options.foldl (fun acc kv => dictSet acc (kebabKey kv.1) kv.2) []

/-! ## Typed result constructors
(src/bindings/python/json_schema_llm_wasi/types.py)

Python raises the first exception encountered while evaluating the
constructor arguments left to right; the embeddings sequence the same
lookups in the same order and propagate the first error. -/

/-- `for x in v`: Python iteration over a parsed JSON value.  Lists yield
their elements.  Iterating any other value either raises `TypeError`
(numbers, booleans, `None`) or yields strings/keys that make the
per-element `raw["..."]` lookup raise `TypeError` immediately (strings,
dicts); the embedding reports `TypeError` for all of them. -/
def pyIterList : Json → Except PyExc (List Json)
  | .arr items => .ok items
  | _ => .error (.typeError "not iterable")

/-- A Python list comprehension `[f(x) for x in xs]`: left to right,
first exception propagates. -/
def mapFromDict {α : Type} (f : Json → Except PyExc α) :
    List Json → Except PyExc (List α)
  | [] => .ok []
  | x :: rest =>
    match f x with
    | .error e => .error e
    | .ok y =>
      match mapFromDict f rest with
      | .error e => .error e
      | .ok ys => .ok (y :: ys)

/-- `ProviderCompatError`: `error` mandatory, `pointer` and `message`
default to `None` (`Json.null`). -/
structure ProviderCompatError where
  error : Json
  pointer : Json
  message : Json

/-- `ProviderCompatError.from_dict`: `raw["error"]`, `raw.get("pointer")`,
`raw.get("message")`. -/
def ProviderCompatError.from_dict (raw : Json) : Except PyExc ProviderCompatError :=
  match raw.pyItem "error" with
  | .error e => .error e
  | .ok err =>
    match raw.pyGet "pointer" with
    | .error e => .error e
    | .ok p =>
      match raw.pyGet "message" with
      | .error e => .error e
      | .ok m => .ok ⟨err, p, m⟩

/-- `ConvertResult`: apiVersion, schema, codec mandatory;
`provider_compat_errors` is `None` or a list. -/
structure ConvertResult where
  api_version : Json
  schema : Json
  codec : Json
  provider_compat_errors : Option (List ProviderCompatError)

/-- `ConvertResult.from_dict`: `raw.get("providerCompatErrors")` is read
first, then `raw["apiVersion"]`, `raw["schema"]`, `raw["codec"]`, and the
compat-error list is built only when `errors` is truthy (`if errors else
None` — so a present-but-empty list also yields `None`). -/
def ConvertResult.from_dict (raw : List (String × Json)) : Except PyExc ConvertResult :=
  let errors := dictGet raw "providerCompatErrors"
  match dictItem raw "apiVersion" with
  | .error e => .error e
  | .ok apiVersion =>
    match dictItem raw "schema" with
    | .error e => .error e
    | .ok schema =>
      match dictItem raw "codec" with
      | .error e => .error e
      | .ok codec =>
        if errors.truthy then
          match pyIterList errors with
          | .error e => .error e
          | .ok items =>
            match mapFromDict ProviderCompatError.from_dict items with
            | .error e => .error e
            | .ok l => .ok ⟨apiVersion, schema, codec, some l⟩
        else .ok ⟨apiVersion, schema, codec, none⟩

/-- `RehydrateWarning`: a single mandatory `msg`. -/
structure RehydrateWarning where
  msg : Json

/-- `RehydrateWarning.from_dict`: `raw["msg"]`. -/
def RehydrateWarning.from_dict (raw : Json) : Except PyExc RehydrateWarning :=
  match raw.pyItem "msg" with
  | .error e => .error e
  | .ok m => .ok ⟨m⟩

/-- `RehydrateResult`: apiVersion and data mandatory, warnings defaulted
to the empty list. -/
structure RehydrateResult where
  api_version : Json
  data : Json
  warnings : List RehydrateWarning

/-- `RehydrateResult.from_dict`: `raw["apiVersion"]`, `raw["data"]`,
then a comprehension over `raw.get("warnings", [])`. -/
def RehydrateResult.from_dict (raw : List (String × Json)) : Except PyExc RehydrateResult :=
  match dictItem raw "apiVersion" with
  | .error e => .error e
  | .ok apiVersion =>
    match dictItem raw "data" with
    | .error e => .error e
    | .ok data =>
      match pyIterList (dictGetD raw "warnings" (.arr [])) with
      | .error e => .error e
      | .ok items =>
        match mapFromDict RehydrateWarning.from_dict items with
        | .error e => .error e
        | .ok ws => .ok ⟨apiVersion, data, ws⟩

/-! ## Provider formatters
(src/engine/python/jsonschema_llm_engine/formatters)

Each `extract_content` takes the provider's raw response string; the
embedding additionally takes the outcome of `json.loads` on it (`none`
models a parse failure raising `ValueError`), since the JSON grammar
itself is a library concern.  The body of each method is embedded as an
`extractBody` function that can raise any `PyExc`; `extract_content`
wraps it exactly as the `try/except ResponseParsingError: raise /
except Exception: raise ResponseParsingError(...)` blocks do. -/

/-- `_truncate(s, 200)`. -/
def truncate (s : String) : String :=
  if s.data.length ≤ 200 then s else ⟨s.data.take 200⟩ ++ "..."

mutual

/-- Compact JSON rendering standing in for Python's `json.dumps`; the
formatters treat its output as an opaque string. -/
def Json.dumps : Json → String
  | .null => "null"
  | .bool b => if b then "true" else "false"
  | .num n => toString n
  | .str s => "\"" ++ s ++ "\""
  | .arr items => "[" ++ Json.dumpsArr items ++ "]"
  | .obj fields => "\x7b" ++ Json.dumpsObj fields ++ "\x7d"

/-- Render a JSON array body. -/
def Json.dumpsArr : List Json → String
  | [] => ""
  | [x] => Json.dumps x
  | x :: y :: rest => Json.dumps x ++ ", " ++ Json.dumpsArr (y :: rest)

/-- Render a JSON object body. -/
def Json.dumpsObj : List (String × Json) → String
  | [] => ""
  | [(k, v)] => "\"" ++ k ++ "\": " ++ Json.dumps v
  | (k, v) :: kv :: rest =>
    "\"" ++ k ++ "\": " ++ Json.dumps v ++ ", " ++ Json.dumpsObj (kv :: rest)

end

/-- The shared `try/except` shape of every formatter:
`ResponseParsingError` is re-raised as is, any other exception raised
while parsing becomes `ResponseParsingError(failMsg)`. -/
def wrapExtract (failMsg : String) : Except PyExc String → Except PyExc String
  | .ok s => .ok s
  | .error (.responseParsingError m) => .error (.responseParsingError m)
  | .error _ => .error (.responseParsingError failMsg)

namespace ChatCompletionsFormatter

/-- Body of `ChatCompletionsFormatter.extract_content`
(formatters/chat_completions.py): `choices[0].message.content` with the
four guarded `ResponseParsingError` cases. -/
def extractBody (raw : String) (parsed : Option Json) : Except PyExc String :=
  match parsed with
  | none => .error (.valueError "invalid json")
  | some root =>
    match root.pyGet "choices" with
    | .error e => .error e
    | .ok choices =>
      if !choices.truthy || !choices.isList then
        .error (.responseParsingError
          ("Chat Completions response missing 'choices' array: " ++ truncate raw))
      else
        match choices.pyFirst with
        | .error e => .error e
        | .ok first =>
          match first.pyGet "message" with
          | .error e => .error e
          | .ok message =>
            if message.isNull then
              .error (.responseParsingError
                ("Chat Completions response missing 'choices[0].message': " ++
                  truncate raw))
            else
              match message.pyGet "content" with
              | .error e => .error e
              | .ok content =>
                match content with
                | .null => .error (.responseParsingError
                    ("Chat Completions response has null 'content': " ++ truncate raw))
                | .str s => .ok s
                | _ => .error (.responseParsingError
                    ("Chat Completions 'content' is not a string: " ++ truncate raw))

/-- `ChatCompletionsFormatter.extract_content`. -/
def extract_content (raw : String) (parsed : Option Json) : Except PyExc String :=
  wrapExtract ("Failed to parse Chat Completions response: " ++ truncate raw)
    (extractBody raw parsed)

end ChatCompletionsFormatter

namespace ClaudeFormatter

/-- The `for block in content` loop of `ClaudeFormatter.extract_content`:
return `json.dumps(input)` of the first `tool_use` block whose `input`
is not `None`; raise `ResponseParsingError` when none is found. -/
def findToolUse (raw : String) : List Json → Except PyExc String
  | [] => .error (.responseParsingError
      ("Claude response contains no 'tool_use' content block: " ++ truncate raw))
  | block :: rest =>
    match block.pyGet "type" with
    | .error e => .error e
    | .ok ty =>
      if ty.eqStr "tool_use" then
        match block.pyGet "input" with
        | .error e => .error e
        | .ok input =>
          if !input.isNull then .ok input.dumps else findToolUse raw rest
      else findToolUse raw rest

/-- Body of `ClaudeFormatter.extract_content` (formatters/claude.py). -/
def extractBody (raw : String) (parsed : Option Json) : Except PyExc String :=
  match parsed with
  | none => .error (.valueError "invalid json")
  | some root =>
    match root.pyGet "content" with
    | .error e => .error e
    | .ok content =>
      match content with
      | .arr [] => .error (.responseParsingError
          ("Claude response missing 'content' array: " ++ truncate raw))
      | .arr blocks => findToolUse raw blocks
      | _ => .error (.responseParsingError
          ("Claude response missing 'content' array: " ++ truncate raw))

/-- `ClaudeFormatter.extract_content`. -/
def extract_content (raw : String) (parsed : Option Json) : Except PyExc String :=
  wrapExtract ("Failed to parse Claude response: " ++ truncate raw)
    (extractBody raw parsed)

end ClaudeFormatter

namespace GeminiFormatter

/-- Body of `GeminiFormatter.extract_content` (formatters/gemini.py):
`candidates[0].content.parts[0].text`, with the SAFETY finish-reason
check. -/
def extractBody (raw : String) (parsed : Option Json) : Except PyExc String :=
  match parsed with
  | none => .error (.valueError "invalid json")
  | some root =>
    match root.pyGet "candidates" with
    | .error e => .error e
    | .ok candidates =>
      match candidates with
      | .arr (first :: _) =>
        match first.pyGet "finishReason" with
        | .error e => .error e
        | .ok finishReason =>
          if finishReason.eqStr "SAFETY" then
            .error (.responseParsingError
              ("Gemini response blocked by SAFETY filter: " ++ truncate raw))
          else
            match first.pyGet "content" with
            | .error e => .error e
            | .ok content =>
              if content.isNull then
                .error (.responseParsingError
                  ("Gemini response missing 'candidates[0].content': " ++ truncate raw))
              else
                match content.pyGet "parts" with
                | .error e => .error e
                | .ok parts =>
                  match parts with
                  | .arr (p0 :: _) =>
                    match p0.pyGet "text" with
                    | .error e => .error e
                    | .ok text =>
                      match text with
                      | .str s => .ok s
                      | _ => .error (.responseParsingError
                          ("Gemini 'parts[0].text' is missing or not text: " ++
                            truncate raw))
                  | _ => .error (.responseParsingError
                      ("Gemini response missing 'candidates[0].content.parts': " ++
                        truncate raw))
      | _ => .error (.responseParsingError
          ("Gemini response missing 'candidates' array: " ++ truncate raw))

/-- `GeminiFormatter.extract_content`. -/
def extract_content (raw : String) (parsed : Option Json) : Except PyExc String :=
  wrapExtract ("Failed to parse Gemini response: " ++ truncate raw)
    (extractBody raw parsed)

end GeminiFormatter

namespace OpenResponsesFormatter

/-- The inner `for part in content` loop: a found `output_text` part with
a truthy string `text` is returned (`ok (some s)`); exhaustion yields
`ok none` so the outer loop continues. -/
def scanParts : List Json → Except PyExc (Option String)
  | [] => .ok none
  | part :: ps =>
    match part.pyGet "type" with
    | .error e => .error e
    | .ok pty =>
      if pty.eqStr "output_text" then
        match part.pyGet "text" with
        | .error e => .error e
        | .ok text =>
          match text with
          | .str s => if !s.isEmpty then .ok (some s) else scanParts ps
          | _ => scanParts ps
      else scanParts ps

/-- The outer `for item in output` loop of
`OpenResponsesFormatter.extract_content`. -/
def scanOutput (raw : String) : List Json → Except PyExc String
  | [] => .error (.responseParsingError
      ("OpenResponses response has no 'output_text': " ++ truncate raw))
  | item :: rest =>
    match item.pyGet "type" with
    | .error e => .error e
    | .ok ty =>
      if ty.eqStr "message" then
        match item.pyGet "content" with
        | .error e => .error e
        | .ok content =>
          match content with
          | .arr [] => scanOutput raw rest
          | .arr parts =>
            match scanParts parts with
            | .error e => .error e
            | .ok (some s) => .ok s
            | .ok none => scanOutput raw rest
          | _ => scanOutput raw rest
      else scanOutput raw rest

/-- Body of `OpenResponsesFormatter.extract_content`
(formatters/open_responses.py). -/
def extractBody (raw : String) (parsed : Option Json) : Except PyExc String :=
  match parsed with
  | none => .error (.valueError "invalid json")
  | some root =>
    match root.pyGet "output" with
    | .error e => .error e
    | .ok output =>
      match output with
      | .arr [] => .error (.responseParsingError
          ("OpenResponses response missing 'output' array: " ++ truncate raw))
      | .arr items => scanOutput raw items
      | _ => .error (.responseParsingError
          ("OpenResponses response missing 'output' array: " ++ truncate raw))

/-- `OpenResponsesFormatter.extract_content`. -/
def extract_content (raw : String) (parsed : Option Json) : Except PyExc String :=
  wrapExtract ("Failed to parse OpenResponses response: " ++ truncate raw)
    (extractBody raw parsed)

end OpenResponsesFormatter

/-- Holds when a formatter outcome is either a returned string or a
`ResponseParsingError` — the only two outcomes C9 allows to escape. -/
def rpeOnly : Except PyExc String → Bool
  | .ok _ => true
  | .error (.responseParsingError _) => true
  | .error _ => false

/-! ## The WASI call protocol

`SchemaLlmEngine._call_jsl` (src/bindings/python/json_schema_llm_wasi/engine.py),
`Engine._call_jsl` (src/bindings/python/jsonschema_llm_wasi.py — its body
is textually identical to the former) and
`LlmRoundtripEngine._call_wasi` (src/engine/python/json_schema_llm_engine/engine.py)
all drive one dispatched export of the WASI module.  The module itself is
an opaque binary; a `ModuleRun` records everything the host can observe
of it during one call: the handshake export and its value, the pointer
returned by each `jsl_alloc`, whether the dispatched export traps and the
result pointer it returns, the linear-memory bytes at result-reading
time, and the outcome of `bytes.decode("utf-8")` + `json.loads` on the
payload bytes.  The embeddings return the call outcome together with the
trace of module-facing events, from which the resource-discipline claims
are stated. -/

/-- Observable behaviour of the WASI module during a single host call. -/
structure ModuleRun where
  /-- Whether `"jsl_abi_version"` is among the instance exports. -/
  hasAbiExport : Bool
  /-- Return value of `jsl_abi_version()`. -/
  abiVersion : Nat
  /-- Pointer returned by the i-th `jsl_alloc` call of this host call. -/
  allocRet : Nat → Nat
  /-- `memory.data_len` while the host writes the arguments. -/
  memSize : Nat
  /-- Whether the dispatched export traps instead of returning. -/
  funcTraps : Bool
  /-- Result pointer returned by the dispatched export (`0` = null). -/
  resultPtr : Nat
  /-- Linear-memory bytes when the host reads the result envelope. -/
  memAfter : List Nat
  /-- `json.loads(bytes.decode("utf-8"))` on the payload bytes
  (`none` models a `UnicodeDecodeError` or `json.JSONDecodeError`). -/
  parsePayload : List Nat → Option Json

/-- Module-facing actions a host call performs, in order. -/
inductive Event where
  | abiCheck (version : Nat)
  | alloc (size ret : Nat)
  | dispatch (name : String) (ret : Option Nat)
  | readPayload (lo hi : Nat)
  | resultFree (ptr : Nat)
  | free (ptr size : Nat)
  deriving DecidableEq, Repr

/-- `struct.unpack("<I", mem[p:p+4])`: little-endian u32 at offset `p`. -/
def readU32 (mem : List Nat) (p : Nat) : Nat :=
  mem.getD p 0 + 256 * mem.getD (p + 1) 0 + 65536 * mem.getD (p + 2) 0 +
    16777216 * mem.getD (p + 3) 0

/-- `memory.read(store, lo, lo + len)` as a byte list. -/
def sliceBytes (mem : List Nat) (lo len : Nat) : List Nat :=
  (mem.drop lo).take len

/-- State of the argument-allocation loop when it finishes or raises:
the first exception (if any), the Python `allocs` list as accumulated,
and the `jsl_alloc` events performed. -/
structure AllocPhase where
  failure : Option PyExc
  allocs : List (Nat × Nat)
  events : List Event

/-- The argument-allocation loop shared by all three bindings: for each
encoded argument, `jsl_alloc`, null-pointer check (raising via
`nullAllocErr` — `RuntimeError` in the bindings, `SchemaConversionError`
in the engine), `memory.write` (raising `IndexError` when the returned
pointer does not fit in linear memory), then append to `allocs`.  A
buffer whose write fails was allocated but never appended. -/
def allocArgs (m : ModuleRun) (nullAllocErr : String → PyExc) :
    List (List Nat) → Nat → AllocPhase
  | [], _ => ⟨none, [], []⟩
  | data :: rest, i =>
    let ptr := m.allocRet i
    if ptr = 0 ∧ 0 < data.length then
      ⟨some (nullAllocErr ("jsl_alloc returned null for " ++
          toString data.length ++ " bytes")), [], [.alloc data.length ptr]⟩
    else if m.memSize < ptr + data.length then
      ⟨some .indexError, [], [.alloc data.length ptr]⟩
    else
      let next := allocArgs m nullAllocErr rest (i + 1)
      ⟨next.failure, (ptr, data.length) :: next.allocs,
        .alloc data.length ptr :: next.events⟩

/-- Success condition of the allocation loop: every `jsl_alloc` returns
a pointer that is non-null (when the buffer is non-empty) and in bounds
for the following `memory.write`. -/
def allocsOk (m : ModuleRun) : List (List Nat) → Nat → Bool
  | [], _ => true
  | data :: rest, i =>
    let ptr := m.allocRet i
    !(decide (ptr = 0 ∧ 0 < data.length)) &&
      decide (ptr + data.length ≤ m.memSize) && allocsOk m rest (i + 1)

/-- The `finally` block: `jsl_result_free` on a non-zero result pointer,
then `jsl_free` of every `allocs` entry, in order. -/
def finallyEvents (resultPtr : Nat) (allocs : List (Nat × Nat)) : List Event :=
  (if resultPtr ≠ 0 then [Event.resultFree resultPtr] else []) ++
    allocs.map (fun a => Event.free a.1 a.2)

/-- Python `str()` of a parsed JSON value as interpolated into error
messages (`f"[{error_code}] {error_msg}"`).  A string renders as itself;
the rendering of other values is a library detail modelled by the JSON
dump. -/
def pyStr : Json → String
  | .str s => s
  | j => j.dumps

/-- ASCII lowering standing in for `str.lower()` on export names. -/
def lowerAscii (s : String) : String :=
  ⟨s.data.map Char.toLower⟩

/-- Whether `pat` is a prefix of `l` (character lists). -/
def startsWithRun : List Char → List Char → Bool
  | [], _ => true
  | _ :: _, [] => false
  | p :: ps, c :: cs => p = c && startsWithRun ps cs

/-- Whether `pat` occurs as a contiguous run in `l`. -/
def hasRun (pat : List Char) : List Char → Bool
  | [] => pat.isEmpty
  | c :: rest => startsWithRun pat (c :: rest) || hasRun pat rest

/-- Python `pat in s` on strings. -/
def strContains (s pat : String) : Bool :=
  hasRun pat.data s.data

/-- UTF-8 encoding of one Unicode code point. -/
def encodeUtf8Char (n : Nat) : List Nat :=
  if n < 128 then [n]
  else if n < 2048 then [192 + n / 64, 128 + n % 64]
  else if n < 65536 then [224 + n / 4096, 128 + (n / 64) % 64, 128 + n % 64]
  else [240 + n / 262144, 128 + (n / 4096) % 64, 128 + (n / 64) % 64, 128 + n % 64]

/-- `s.encode("utf-8")` as a byte list. -/
def encodeUtf8 (s : String) : List Nat :=
  (s.data.map (fun c => encodeUtf8Char c.toNat)).flatten

namespace SchemaLlmEngine

/-- The `try` block of `_call_jsl` after a successful allocation phase:
dispatch the export, null-check the result pointer, read the 12-byte
little-endian `(status, payload_ptr, payload_len)` envelope, bounds-check
`payload_ptr + payload_len` against `memory.data_len`, read and parse
the payload, and on `status == 1` raise `JslError` from the payload's
`code`/`message`/`path` fields (Python's `payload.get` raises
`AttributeError` when the payload is not a dict). -/
def tryDecode (m : ModuleRun) (funcName : String) :
    Except PyExc Json × List Event :=
  if m.funcTraps then (.error .trap, [.dispatch funcName none])
  else
    let rp := m.resultPtr
    let ev0 := [Event.dispatch funcName (some rp)]
    if rp = 0 then
      (.error (.runtimeError (funcName ++ " returned null result pointer")), ev0)
    else if m.memAfter.length < rp + 12 then
      (.error .indexError, ev0)
    else
      let status := readU32 m.memAfter rp
      let pptr := readU32 m.memAfter (rp + 4)
      let plen := readU32 m.memAfter (rp + 8)
      if m.memAfter.length < pptr + plen then
        (.error (.runtimeError ("payload out of bounds: ptr=" ++ toString pptr ++
          " len=" ++ toString plen ++ " memSize=" ++ toString m.memAfter.length)), ev0)
      else
        let ev1 := ev0 ++ [Event.readPayload pptr (pptr + plen)]
        match m.parsePayload (sliceBytes m.memAfter pptr plen) with
        | none => (.error (.valueError "malformed payload"), ev1)
        | some payload =>
          if status = 1 then
            match payload with
            | .obj fs =>
              (.error (.jslError (dictGetD fs "code" (.str "unknown"))
                (dictGetD fs "message" (.str "unknown error"))
                (dictGetD fs "path" (.str ""))), ev1)
            | _ => (.error .attributeError, ev1)
          else (.ok payload, ev1)

/-- `_call_jsl` after the handshake: allocation loop (OUTSIDE the
`try/finally`, so an allocation failure skips all cleanup), then the
`try` block with its `finally`. -/
def callBody (m : ModuleRun) (funcName : String) (args : List (List Nat))
    (flag : Bool) (ev0 : List Event) : Except PyExc Json × List Event × Bool :=
  let ap := allocArgs m (fun msg => .runtimeError msg) args 0
  match ap.failure with
  | some e => (.error e, ev0 ++ ap.events, flag)
  | none =>
    let td := tryDecode m funcName
    let rp := if m.funcTraps then 0 else m.resultPtr
    (td.1, ev0 ++ ap.events ++ td.2 ++ finallyEvents rp ap.allocs, flag)

/-- `SchemaLlmEngine._call_jsl`: the once-per-engine ABI handshake
(guarded by `self._abi_verified`, threaded here as an explicit argument
and returned updated), then the body.  Returns the call outcome, the
event trace, and the new `_abi_verified` flag. -/
def callJsl (m : ModuleRun) (abiVerified : Bool) (funcName : String)
    (args : List (List Nat)) : Except PyExc Json × List Event × Bool :=
  if abiVerified then callBody m funcName args true []
  else if !m.hasAbiExport then
    (.error (.runtimeError
      "Incompatible WASM module: missing required 'jsl_abi_version' export"),
      [], false)
  else if m.abiVersion ≠ 1 then
    (.error (.runtimeError ("ABI version mismatch: binary=" ++
      toString m.abiVersion ++ ", expected=1")), [.abiCheck m.abiVersion], false)
  else callBody m funcName args true [.abiCheck m.abiVersion]

/-- `SchemaLlmEngine.rehydrate`: UTF-8-encode the dumped `data`, `codec`
and `schema` arguments, dispatch `jsl_rehydrate`, and build the typed
result from the returned payload. -/
def rehydrate (m : ModuleRun) (abiVerified : Bool) (data codec schema : Json) :
    Except PyExc RehydrateResult × List Event × Bool :=
  let r := callJsl m abiVerified "jsl_rehydrate"
    [encodeUtf8 data.dumps, encodeUtf8 codec.dumps, encodeUtf8 schema.dumps]
  match r.1 with
  | .error e => (.error e, r.2.1, r.2.2)
  | .ok (.obj fields) => (RehydrateResult.from_dict fields, r.2.1, r.2.2)
  | .ok _ => (.error (.typeError "payload is not a dict"), r.2.1, r.2.2)

end SchemaLlmEngine

namespace Engine

/-- `Engine._call_jsl` (src/bindings/python/jsonschema_llm_wasi.py): its
body is textually identical to `SchemaLlmEngine._call_jsl`, so the
embedding is the same function. -/
def callJsl : ModuleRun → Bool → String → List (List Nat) →
    Except PyExc Json × List Event × Bool :=
  SchemaLlmEngine.callJsl

end Engine

namespace LlmRoundtripEngine

/-- The `try` block of `_call_wasi` after allocation: identical envelope
decoding, but failures raise `SchemaConversionError`, and a `status == 1`
payload raises `RehydrationError` when `"rehydrat"` occurs in the
lowered export name and `SchemaConversionError` otherwise, with message
`"[{code}] {message}"` (falling back to `str(payload)` when the payload
is not a dict). -/
def tryDecode (m : ModuleRun) (funcName : String) :
    Except PyExc Json × List Event :=
  if m.funcTraps then (.error .trap, [.dispatch funcName none])
  else
    let rp := m.resultPtr
    let ev0 := [Event.dispatch funcName (some rp)]
    if rp = 0 then
      (.error (.schemaConversionError (funcName ++ " returned null result pointer")),
        ev0)
    else if m.memAfter.length < rp + 12 then
      (.error .indexError, ev0)
    else
      let status := readU32 m.memAfter rp
      let pptr := readU32 m.memAfter (rp + 4)
      let plen := readU32 m.memAfter (rp + 8)
      if m.memAfter.length < pptr + plen then
        (.error (.schemaConversionError ("payload out of bounds: ptr=" ++
          toString pptr ++ " len=" ++ toString plen ++ " memSize=" ++
          toString m.memAfter.length)), ev0)
      else
        let ev1 := ev0 ++ [Event.readPayload pptr (pptr + plen)]
        match m.parsePayload (sliceBytes m.memAfter pptr plen) with
        | none => (.error (.valueError "malformed payload"), ev1)
        | some payload =>
          if status = 1 then
            let errorMsg := match payload with
              | .obj fs => pyStr (dictGetD fs "message" (.str "unknown error"))
              | other => pyStr other
            let errorCode := match payload with
              | .obj fs => pyStr (dictGetD fs "code" (.str "unknown"))
              | _ => "unknown"
            if strContains (lowerAscii funcName) "rehydrat" then
              (.error (.rehydrationError ("[" ++ errorCode ++ "] " ++ errorMsg)), ev1)
            else
              (.error (.schemaConversionError ("[" ++ errorCode ++ "] " ++ errorMsg)),
                ev1)
          else (.ok payload, ev1)

/-- `LlmRoundtripEngine._call_wasi`: exports are fetched (a module
without the handshake export raises `KeyError`), the ABI handshake runs
on EVERY call, and — unlike the bindings — the allocation loop sits
inside the `try`, so the `finally` frees the accumulated buffers even
when allocation fails mid-way. -/
def callWasi (m : ModuleRun) (funcName : String) (args : List (List Nat)) :
    Except PyExc Json × List Event :=
  if !m.hasAbiExport then (.error (.keyError "jsl_abi_version"), [])
  else if m.abiVersion ≠ 1 then
    (.error (.schemaConversionError ("ABI version mismatch: binary=" ++
      toString m.abiVersion ++ ", expected=1")), [.abiCheck m.abiVersion])
  else
    let ap := allocArgs m (fun msg => .schemaConversionError msg) args 0
    match ap.failure with
    | some e =>
      (.error e, Event.abiCheck m.abiVersion :: (ap.events ++ finallyEvents 0 ap.allocs))
    | none =>
      let td := tryDecode m funcName
      let rp := if m.funcTraps then 0 else m.resultPtr
      (td.1, Event.abiCheck m.abiVersion ::
        (ap.events ++ td.2 ++ finallyEvents rp ap.allocs))

end LlmRoundtripEngine

/-- The `jsl_alloc` events of a trace, as `(returned pointer, size)`. -/
def allocEvents (evs : List Event) : List (Nat × Nat) :=
  evs.filterMap fun e =>
    match e with
    | .alloc size ret => some (ret, size)
    | _ => none

/-- The `jsl_free` events of a trace, as `(pointer, size)`. -/
def freeEvents (evs : List Event) : List (Nat × Nat) :=
  evs.filterMap fun e =>
    match e with
    | .free ptr size => some (ptr, size)
    | _ => none

/-- The `jsl_result_free` events of a trace. -/
def resultFreeEvents (evs : List Event) : List Nat :=
  evs.filterMap fun e =>
    match e with
    | .resultFree p => some p
    | _ => none

/-- The non-null result pointers produced by dispatched exports. -/
def nonNullResults (evs : List Event) : List Nat :=
  evs.filterMap fun e =>
    match e with
    | .dispatch _ (some p) => if p ≠ 0 then some p else none
    | _ => none

/-- Resource discipline of one trace: the buffers released by `jsl_free`
are exactly the successfully allocated-and-written argument buffers, in
order, and `jsl_result_free` is called exactly once on each non-null
result pointer. -/
def cleanupOk (evs : List Event) : Prop :=
  freeEvents evs = allocEvents evs ∧ resultFreeEvents evs = nonNullResults evs

/-! ## Spec-modelled converter and rehydrator

The convert/rehydrate pair itself lives in the WASM binary; its Rust
source is not part of this tree (src/ holds only the Python bindings,
callers and tests).  Following the specification, the pair is modelled
here on its schema fragment of nested object, array, string, integer
and boolean schemas, driven by a declarative target profile (spec
§4.2).  The modelled converter walk applies the spec's §4.3 passes 4-7:
descent into `properties` and `items`; strict-object normalization
(synthesize `additionalProperties: false`, promote optional properties
to required with a null-widened type); constraint filtering through
`supported_constraints` and `string_format_policy` (dropping `pattern`
or `minimum` into `droppedConstraints`, recording `drop_format`);
scalar wrapping (`wrap_scalar_as_string`) for scalar types outside the
profile's supported set; and depth enforcement (at the `max-depth`
limit the subtree is replaced by the permissive schema `{}` and a
truncation is recorded).  The codec is the spec's §3 ordered transform
list carrying schema pointers, plus the dropped-constraint record; the
rehydrator (§4.5) walks the transform list in reverse, applying each
op's documented inverse: `inline_ref`, `expand_any_of_to_one_of`,
`synthesize_additional_properties_false` and `drop_format` are
data-side no-ops, `truncate_recursion` issues a warning,
`wrap_scalar_as_string` parses the string back into the original
scalar type, recording a warning on parse failure and leaving the
value unchanged, and `promote_optional_to_required_with_null` drops
the key if its value is `null` and it was originally optional.
Reference and applicator nodes ($ref, allOf, anyOf/oneOf) are outside
the modelled schema fragment; the spec declares their data-side
inverses no-ops, and the rehydrator here still interprets their codec
entries per §4.5. -/

namespace SpecModel

/-- One schema-pointer segment: a `properties/<key>` step or an
`items` step. -/
inductive Seg where
  | key (k : String)
  | items
  deriving DecidableEq, Repr

/-- Modelled from the spec (§3 data model): a schema node on the
modelled fragment — nested objects, arrays, strings (with optional
`format` and `pattern`), integers (with optional `minimum`), and
booleans. -/
inductive Schema where
  | sbool
  | sint (minimum : Option Int)
  | sstr (format : Option String) (pattern : Option String)
  | sobj (properties : List (String × Schema)) (required : List String)
  | sarr (itemSchema : Schema)

/-- Modelled from the spec (§4.2): the declarative target-profile
capability record consulted by the converter — pure data. -/
structure TargetProfile where
  require_additional_properties_false : Bool
  require_all_properties_in_required : Bool
  supported_constraints : List String
  string_format_policy : List String
  wrap_scalar_types : List String
  deriving DecidableEq, Repr

/-- Modelled from the spec: a converted schema node in the target
dialect — the permissive placeholder `{}`, scalars carrying the
surviving constraints, arrays, and objects whose property entries
carry the null-widening flag of promoted optionals plus the
synthesized `additionalProperties: false` bit. -/
inductive ConvSchema where
  | cany
  | cbool
  | cint (minimum : Option Int)
  | cstr (format : Option String) (pattern : Option String)
  | cobj (properties : List (String × Bool × ConvSchema)) (required : List String)
      (apf : Bool)
  | carr (itemSchema : ConvSchema)

/-- Modelled from the spec (§3 Codec): the transform variants, each a
tagged op with the schema pointer it applies at. -/
inductive Transform where
  | inline_ref (ptr : List Seg) (ref : String)
  | wrap_scalar_as_string (ptr : List Seg) (original_type : String)
  | drop_format (ptr : List Seg) (format : String)
  | expand_any_of_to_one_of (ptr : List Seg)
  | truncate_recursion (ptr : List Seg) (depth : Nat) (ref : String)
  | synthesize_additional_properties_false (ptr : List Seg)
  | promote_optional_to_required_with_null (ptr : List Seg) (key : String)
  deriving DecidableEq, Repr

/-- Modelled from the spec (§3 Codec): one irreversibly dropped
constraint at a schema pointer. -/
structure DroppedEntry where
  ptr : List Seg
  keyword : String
  value : String
  reason : String
  deriving DecidableEq, Repr

/-- Modelled from the spec (§3 Codec): transform log plus
dropped-constraint record. -/
structure Codec where
  transforms : List Transform
  droppedConstraints : List DroppedEntry
  deriving DecidableEq, Repr

/-- Modelled from the spec (§4.5): one advisory rehydration warning,
carrying the schema pointer where it occurred. -/
structure Warning where
  ptr : List Seg
  note : String
  deriving DecidableEq, Repr

/-- Polymorphic first-match association lookup. -/
def assocLookup {α : Type} (l : List (String × α)) (k : String) : Option α :=
  match l with
  | [] => none
  | (k', v) :: rest => if k' = k then some v else assocLookup rest k

/-- Prepend one pointer segment to a transform's pointer (the
converter records child-subtree transforms under the child's pointer). -/
def shiftT (g : Seg) : Transform → Transform
  | .inline_ref p r => .inline_ref (g :: p) r
  | .wrap_scalar_as_string p t => .wrap_scalar_as_string (g :: p) t
  | .drop_format p f => .drop_format (g :: p) f
  | .expand_any_of_to_one_of p => .expand_any_of_to_one_of (g :: p)
  | .truncate_recursion p d r => .truncate_recursion (g :: p) d r
  | .synthesize_additional_properties_false p =>
    .synthesize_additional_properties_false (g :: p)
  | .promote_optional_to_required_with_null p k =>
    .promote_optional_to_required_with_null (g :: p) k

/-- Prepend one pointer segment to a dropped-constraint entry. -/
def shiftD (g : Seg) (e : DroppedEntry) : DroppedEntry :=
  ⟨g :: e.ptr, e.keyword, e.value, e.reason⟩

/-- Prepend one pointer segment to a warning. -/
def shiftW (g : Seg) (w : Warning) : Warning :=
  ⟨g :: w.ptr, w.note⟩

/-- Modelled from the spec (§4.3): convert one schema node, producing
the converted node, the ordered transform list and the dropped
constraints; child-subtree records are shifted under the child's
pointer, so pointers in the result are relative to the converted node.
The fuel argument is the remaining `max-depth` budget (pass 7): at the
limit the subtree is replaced by the permissive schema and a
truncation is recorded. -/
def convert (P : TargetProfile) : Nat → Schema →
    ConvSchema × List Transform × List DroppedEntry
  | 0, _ => (.cany, [.truncate_recursion [] 0 ""], [])
  | d + 1, s =>
    match s with
    | .sbool =>
      if P.wrap_scalar_types.contains "boolean" then
        (.cstr none none, [.wrap_scalar_as_string [] "boolean"], [])
      else (.cbool, [], [])
    | .sint mn =>
      if P.wrap_scalar_types.contains "integer" then
        (.cstr none none, [.wrap_scalar_as_string [] "integer"],
         match mn with
         | some lo => [⟨[], "minimum", toString lo, "not representable on wrapped scalar"⟩]
         | none => [])
      else
        match mn with
        | some lo =>
          if P.supported_constraints.contains "minimum" then (.cint (some lo), [], [])
          else (.cint none, [], [⟨[], "minimum", toString lo, "unsupported by target"⟩])
        | none => (.cint none, [], [])
    | .sstr fmt pat =>
      let fr : Option String × List Transform :=
        match fmt with
        | some f =>
          if P.string_format_policy.contains f then (some f, [])
          else (none, [.drop_format [] f])
        | none => (none, [])
      let pr : Option String × List DroppedEntry :=
        match pat with
        | some pt =>
          if P.supported_constraints.contains "pattern" then (some pt, [])
          else (none, [⟨[], "pattern", pt, "unsupported by target"⟩])
        | none => (none, [])
      (.cstr fr.1 pr.1, fr.2, pr.2)
    | .sarr it =>
      let r := convert P d it
      (.carr r.1, r.2.1.map (shiftT .items), r.2.2.map (shiftD .items))
    | .sobj props req =>
      let rs := props.map (fun kv => (kv.1, convert P d kv.2))
      let cprops := rs.map (fun kr =>
        (kr.1, (P.require_all_properties_in_required && !(req.contains kr.1), kr.2.1)))
      let childTs := (rs.map (fun kr => kr.2.2.1.map (shiftT (.key kr.1)))).flatten
      let childDs := (rs.map (fun kr => kr.2.2.2.map (shiftD (.key kr.1)))).flatten
      let promotes :=
        if P.require_all_properties_in_required then
          (props.filter (fun kv => !(req.contains kv.1))).map
            (fun kv => Transform.promote_optional_to_required_with_null [] kv.1)
        else []
      let synth :=
        if P.require_additional_properties_false then
          [Transform.synthesize_additional_properties_false []]
        else []
      let req' := if P.require_all_properties_in_required then props.map Prod.fst else req
      (.cobj cprops req' P.require_additional_properties_false,
       childTs ++ promotes ++ synth, childDs)

/-- Navigate a schema by a pointer. -/
def schemaAt : List Seg → Schema → Option Schema
  | [], s => some s
  | .key k :: q, .sobj props _ =>
    (match assocLookup props k with
     | some t => schemaAt q t
     | none => none)
  | .items :: q, .sarr it => schemaAt q it
  | _, _ => none

/-- Whether `key` is an optional property of the object node of the
original schema at `p` (the §4.5 promote inverse consults the
original schema for this). -/
def isOptionalAt (S : Schema) (p : List Seg) (key : String) : Bool :=
  match schemaAt p S with
  | some (.sobj _ req) => !(req.contains key)
  | _ => false

/-- Decimal digit-run value; `none` on a non-digit. -/
def digitsVal (cs : List Char) : Option Nat :=
  cs.foldl (fun acc c =>
    match acc with
    | some n => if c.isDigit then some (n * 10 + (c.toNat - 48)) else none
    | none => none) (some 0)

/-- Parse a decimal integer string with an optional leading minus —
the §4.5 type-coercion table entry for wrapped integers. -/
def parseIntStr (s : String) : Option Int :=
  match s.data with
  | [] => none
  | '-' :: rest =>
    if rest.isEmpty then none
    else (digitsVal rest).map (fun n => -(n : Int))
  | cs => (digitsVal cs).map (fun n => (n : Int))

/-- Modelled from the spec (§4.5): coerce a wrapped scalar string back
into its original type; a failed coercion becomes a warning at the
transform's pointer and preserves the provider's value. -/
def coerceScalar (ty : String) (p : List Seg) (v : Json) : Json × List Warning :=
  match v, ty with
  | .str st, "integer" =>
    (match parseIntStr st with
     | some n => (.num n, [])
     | none => (v, [⟨p, "type_coercion_failed"⟩]))
  | .str st, "boolean" =>
    if st = "true" then (.bool true, [])
    else if st = "false" then (.bool false, [])
    else (v, [⟨p, "type_coercion_failed"⟩])
  | _, _ => (v, [⟨p, "type_coercion_failed"⟩])

/-- Apply an editing function at every data location addressed by a
schema pointer (an `items` segment fans out over all array elements),
collecting warnings; a shape mismatch is a no-op. -/
def editAt (f : Json → Json × List Warning) : List Seg → Json → Json × List Warning
  | [], v => f v
  | .key k :: q, .obj fields =>
    let rs := fields.map (fun kv =>
      if kv.1 = k then
        let r := editAt f q kv.2
        ((kv.1, r.1), r.2)
      else ((kv.1, kv.2), ([] : List Warning)))
    (.obj (rs.map Prod.fst), (rs.map Prod.snd).flatten)
  | .items :: q, .arr xs =>
    let rs := xs.map (fun x => editAt f q x)
    (.arr (rs.map Prod.fst), (rs.map Prod.snd).flatten)
  | _, v => (v, [])

/-- Modelled from the spec (§4.5): the inverse of one transform
applied to a document; the original schema is consulted for the
promote inverse's optionality test. -/
def applyInverse (S : Schema) (v : Json) : Transform → Json × List Warning
  | .inline_ref _ _ => (v, [])
  | .expand_any_of_to_one_of _ => (v, [])
  | .synthesize_additional_properties_false _ => (v, [])
  | .drop_format _ _ => (v, [])
  | .truncate_recursion p _ _ => (v, [⟨p, "truncation"⟩])
  | .wrap_scalar_as_string p ty => editAt (coerceScalar ty p) p v
  | .promote_optional_to_required_with_null p k =>
    editAt (fun w =>
      match w with
      | .obj fields =>
        let isNullVal :=
          match dictLookup fields k with
          | some .null => true
          | _ => false
        if isNullVal && isOptionalAt S p k then
          (.obj (fields.filter (fun f => f.1 != k)), [])
        else (w, [])
      | _ => (w, [])) p v

/-- Modelled from the spec (§4.5): rehydration walks the codec's
transform list in reverse, applying each inverse and accumulating the
advisory warnings. -/
def rehydrate (S : Schema) (ts : List Transform) (v : Json) : Json × List Warning :=
  ts.foldr (fun t acc =>
    let r := applyInverse S acc.1 t
    (r.1, acc.2 ++ r.2)) (v, [])

/-- The data component of the reverse replay (warnings discarded). -/
def replayData (S : Schema) (ts : List Transform) (v : Json) : Json :=
  ts.foldr (fun t w => (applyInverse S w t).1) v

mutual
/-- Conformance of a document to a converted schema, for an abstract
regex interpretation `matcher`: null is allowed at null-widened
property positions, `additionalProperties: false` is enforced when
synthesized, surviving `minimum` and `pattern` are enforced, and
`format` is an annotation. -/
def conformsConv (matcher : String → String → Bool) : ConvSchema → Json → Bool
  | .cany, _ => true
  | .cbool, .bool _ => true
  | .cbool, _ => false
  | .cint mn, .num n =>
    (match mn with
     | some lo => decide (lo ≤ n)
     | none => true)
  | .cint _, _ => false
  | .cstr _ pat, .str st =>
    (match pat with
     | some pt => matcher pt st
     | none => true)
  | .cstr _ _, _ => false
  | .cobj props req apf, .obj fields =>
    req.all (fun k => (dictLookup fields k).isSome) &&
    conformsFields matcher props apf fields
  | .cobj _ _ _, _ => false
  | .carr it, .arr xs => conformsElems matcher it xs
  | .carr _, _ => false

/-- Conformance of an object's fields to the converted property table. -/
def conformsFields (matcher : String → String → Bool)
    (props : List (String × Bool × ConvSchema)) (apf : Bool) :
    List (String × Json) → Bool
  | [] => true
  | (k, v) :: rest =>
    (match assocLookup props k with
     | some bc => (bc.1 && v.isNull) || conformsConv matcher bc.2 v
     | none => !apf) && conformsFields matcher props apf rest

/-- Conformance of array elements to the converted item schema. -/
def conformsElems (matcher : String → String → Bool) (it : ConvSchema) :
    List Json → Bool
  | [] => true
  | v :: rest => conformsConv matcher it v && conformsElems matcher it rest
end

mutual
/-- The validation step of `LlmRoundtripEngine.generate_with_preconverted`
(step 6, `_validate` via the external jsonschema library), modelled as
the list of violated (schema pointer, keyword) pairs of a document
against the original schema, with every constraint enforced (nothing
dropped). -/
def validate (matcher : String → String → Bool) : Schema → Json → List (List Seg × String)
  | .sbool, .bool _ => []
  | .sbool, _ => [([], "type")]
  | .sint mn, .num n =>
    (match mn with
     | some lo => if decide (lo ≤ n) then [] else [([], "minimum")]
     | none => [])
  | .sint _, _ => [([], "type")]
  | .sstr _ pat, .str st =>
    (match pat with
     | some pt => if matcher pt st then [] else [([], "pattern")]
     | none => [])
  | .sstr _ _, _ => [([], "type")]
  | .sobj props req, .obj fields =>
    (req.filter (fun k => (dictLookup fields k).isNone)).map (fun _ => ([], "required")) ++
    validateFields matcher props fields
  | .sobj _ _, _ => [([], "type")]
  | .sarr it, .arr xs => validateElems matcher it xs
  | .sarr _, _ => [([], "type")]

/-- Validation of an object's fields against the original property
table, child errors shifted under the property's pointer. -/
def validateFields (matcher : String → String → Bool)
    (props : List (String × Schema)) : List (String × Json) → List (List Seg × String)
  | [] => []
  | (k, v) :: rest =>
    (match assocLookup props k with
     | some s => (validate matcher s v).map (fun e => (Seg.key k :: e.1, e.2))
     | none => []) ++ validateFields matcher props rest

/-- Validation of array elements, errors shifted under `items`. -/
def validateElems (matcher : String → String → Bool) (it : Schema) :
    List Json → List (List Seg × String)
  | [] => []
  | v :: rest =>
    (validate matcher it v).map (fun e => (Seg.items :: e.1, e.2)) ++
    validateElems matcher it rest
end

/-- Whether the dropped-constraint record lists `kw` at pointer `p`. -/
def droppedHas (dropped : List DroppedEntry) (p : List Seg) (kw : String) : Bool :=
  dropped.any (fun e => e.ptr == p && e.keyword == kw)

/-- Boolean pointer-prefix test. -/
def segPrefix : List Seg → List Seg → Bool
  | [], _ => true
  | _ :: _, [] => false
  | a :: xs, b :: ys => a == b && segPrefix xs ys

/-- Whether some warning's pointer is a prefix of `p` (the warned
subtree contains the location `p`). -/
def coveredBy (ws : List Warning) (p : List Seg) : Bool :=
  ws.any (fun w => segPrefix w.ptr p)

/-- Pairwise-distinct string list. -/
def allDistinct : List String → Bool
  | [] => true
  | k :: rest => !(rest.contains k) && allDistinct rest

/-- The optional property names of an object node — the keys whose
conversion records a `promote_optional_to_required_with_null`. -/
def optKeys (props : List (String × Schema)) (req : List String) : List String :=
  (props.filter (fun kv => !(req.contains kv.1))).map Prod.fst

/-- Whether a document field survives the reverse replay of the promote
transforms for the keys `ps`: it is removed exactly when its value is
`null`, its key is promoted, and the key was optional. -/
def promoteKeep (req : List String) (ps : List String) (f : String × Json) : Bool :=
  !(f.2.isNull && ps.contains f.1 && !(req.contains f.1))

mutual
/-- Schema well-formedness: at every object node the property keys are
pairwise distinct and every required key is a declared property. -/
def schemaWF : Schema → Bool
  | .sbool => true
  | .sint _ => true
  | .sstr _ _ => true
  | .sarr it => schemaWF it
  | .sobj props req =>
    allDistinct (props.map Prod.fst) &&
    req.all (fun k => (props.map Prod.fst).contains k) &&
    propsWF props

/-- Well-formedness of every schema in a property table. -/
def propsWF : List (String × Schema) → Bool
  | [] => true
  | kv :: rest => schemaWF kv.2 && propsWF rest
end

mutual
/-- Every object node of a document has pairwise-distinct keys. -/
def dataKeysDistinct : Json → Bool
  | .obj fields => allDistinct (fields.map Prod.fst) && fieldsKeysDistinct fields
  | .arr xs => elemsKeysDistinct xs
  | _ => true

/-- Key distinctness below an object's fields. -/
def fieldsKeysDistinct : List (String × Json) → Bool
  | [] => true
  | kv :: rest => dataKeysDistinct kv.2 && fieldsKeysDistinct rest

/-- Key distinctness below array elements. -/
def elemsKeysDistinct : List Json → Bool
  | [] => true
  | v :: rest => dataKeysDistinct v && elemsKeysDistinct rest
end

/-- The openai-strict-style profile of the modelled scenarios: strict
objects, `minimum` supported, `pattern` dropped, no formats preserved,
no scalar wrapping. -/
def strictProfile : TargetProfile :=
  ⟨true, true, ["minimum"], [], []⟩

/-- A profile whose target accepts only strings at scalar positions:
integers are wrapped as strings (`wrap_scalar_as_string`). -/
def wrapProfile : TargetProfile :=
  ⟨true, true, ["minimum"], [], ["integer"]⟩

/-- A sample schema exercising nesting, an array, a dropped pattern, a
preserved minimum, a dropped format and an optional property. -/
def sampleS : Schema :=
  .sobj [("name", .sstr (some "uuid") (some "^[A-Z]")),
         ("age", .sint (some 0)),
         ("nick", .sstr none none),
         ("tags", .sarr (.sstr none none)),
         ("addr", .sobj [("city", .sstr none none)] ["city"])]
        ["name", "age", "addr"]

/-- A sample document conforming to the converted sample schema, with
the promoted optional property set to null. -/
def sampleDoc : Json :=
  .obj [("name", .str "Ada"), ("age", .num 36), ("nick", .null),
        ("tags", .arr [.str "x"]), ("addr", .obj [("city", .str "Y")])]

/-- The wrap counterexample schema: a single required integer property
with a minimum. -/
def wrapS : Schema :=
  .sobj [("age", .sint (some 0))] ["age"]

/-- A document conforming to the wrap-converted schema whose wrapped
scalar does not parse back: rehydration preserves the string with a
coercion warning and the result fails type validation. -/
def wrapDoc : Json :=
  .obj [("age", .str "not-a-number")]

end SpecModel

/-! ### Lemmas about the dict primitives -/

theorem dictLookup_eq_none_of_not_mem {fields : List (String × Json)} {k : String}
    (h : k ∉ fields.map Prod.fst) : dictLookup fields k = none := by
  induction fields with
  | nil => rfl
  | cons kv rest ih =>
    obtain ⟨k', v'⟩ := kv
    simp only [List.map_cons, List.mem_cons] at h
    push_neg at h
    simp only [dictLookup, if_neg (Ne.symm h.1), ih h.2]

theorem dictSet_append_of_not_mem {fields : List (String × Json)} {k : String}
    (v : Json) (h : k ∉ fields.map Prod.fst) :
    dictSet fields k v = fields ++ [(k, v)] := by
  induction fields with
  | nil => rfl
  | cons kv rest ih =>
    obtain ⟨k', v'⟩ := kv
    simp only [List.map_cons, List.mem_cons] at h
    push_neg at h
    simp only [dictSet, if_neg (Ne.symm h.1), ih h.2, List.cons_append]

theorem normalizeOptions_go (options acc : List (String × Json))
    (hd : ((acc ++ options.map (fun kv => (kebabKey kv.1, kv.2))).map Prod.fst).Nodup) :
    options.foldl (fun acc kv => dictSet acc (kebabKey kv.1) kv.2) acc =
      acc ++ options.map (fun kv => (kebabKey kv.1, kv.2)) := by
  induction options generalizing acc with
  | nil => simp
  | cons kv rest ih =>
    have hmap : ((acc ++ (kv :: rest).map (fun kv => (kebabKey kv.1, kv.2))).map Prod.fst)
        = acc.map Prod.fst ++
          kebabKey kv.1 :: (rest.map (fun kv => (kebabKey kv.1, kv.2))).map Prod.fst := by
      simp
    rw [hmap] at hd
    have hdisj := (List.nodup_append.mp hd).2.2
    have hfresh : kebabKey kv.1 ∉ acc.map Prod.fst :=
      fun hmem => hdisj hmem (List.mem_cons_self _ _)
    have hd' : (((acc ++ [(kebabKey kv.1, kv.2)]) ++
        rest.map (fun kv => (kebabKey kv.1, kv.2))).map Prod.fst).Nodup := by
      rw [List.append_assoc, List.singleton_append, List.map_append, List.map_cons]
      exact hd
    calc (kv :: rest).foldl (fun acc kv => dictSet acc (kebabKey kv.1) kv.2) acc
        = rest.foldl (fun acc kv => dictSet acc (kebabKey kv.1) kv.2)
            (dictSet acc (kebabKey kv.1) kv.2) := by rw [List.foldl_cons]
      _ = rest.foldl (fun acc kv => dictSet acc (kebabKey kv.1) kv.2)
            (acc ++ [(kebabKey kv.1, kv.2)]) := by
            rw [dictSet_append_of_not_mem _ hfresh]
      _ = (acc ++ [(kebabKey kv.1, kv.2)]) ++
            rest.map (fun kv => (kebabKey kv.1, kv.2)) := ih _ hd'
      _ = acc ++ (kv :: rest).map (fun kv => (kebabKey kv.1, kv.2)) := by
            rw [List.append_assoc, List.singleton_append, List.map_cons]

/-- Characterisation of `Engine.convert`'s option normalisation when the
kebab-cased keys are pairwise distinct (the only situation a caller can
meaningfully rely on, since a Python dict folds colliding keys). -/
theorem normalizeOptions_eq_map (options : List (String × Json))
    (hd : ((options.map (fun kv => (kebabKey kv.1, kv.2))).map Prod.fst).Nodup) :
    normalizeOptions options = options.map (fun kv => (kebabKey kv.1, kv.2)) := by
  have := normalizeOptions_go options [] (by simpa using hd)
  simpa [normalizeOptions] using this

theorem mapFromDict_ok_of_forall {α : Type} (f : Json → Except PyExc α)
    (xs : List Json) (h : ∀ x ∈ xs, ∃ y, f x = .ok y) :
    ∃ ys, mapFromDict f xs = .ok ys ∧ ys.length = xs.length := by
  induction xs with
  | nil => exact ⟨[], rfl, rfl⟩
  | cons x rest ih =>
    obtain ⟨y, hy⟩ := h x (List.mem_cons_self _ _)
    obtain ⟨ys, hys, hlen⟩ := ih (fun z hz => h z (List.mem_cons_of_mem _ hz))
    exact ⟨y :: ys, by simp [mapFromDict, hy, hys], by simp [hlen]⟩

/-! ### Lemmas about the WASI call model -/

theorem allocsOk_cons {m : ModuleRun} {data : List Nat} {rest : List (List Nat)}
    {i : Nat} (h : allocsOk m (data :: rest) i = true) :
    ¬(m.allocRet i = 0 ∧ 0 < data.length) ∧
      m.allocRet i + data.length ≤ m.memSize ∧ allocsOk m rest (i + 1) = true := by
  simp only [allocsOk, Bool.and_eq_true, Bool.not_eq_true', decide_eq_false_iff_not,
    decide_eq_true_eq] at h
  exact ⟨h.1.1, h.1.2, h.2⟩

theorem allocArgs_of_ok {m : ModuleRun} (e : String → PyExc)
    {args : List (List Nat)} {i : Nat} (h : allocsOk m args i = true) :
    (allocArgs m e args i).failure = none ∧
      allocEvents (allocArgs m e args i).events = (allocArgs m e args i).allocs := by
  induction args generalizing i with
  | nil => exact ⟨rfl, rfl⟩
  | cons data rest ih =>
    obtain ⟨h1, h2, h3⟩ := allocsOk_cons h
    have ihr := ih h3
    simp only [allocArgs, if_neg h1, if_neg (Nat.not_lt.mpr h2)]
    refine ⟨ihr.1, ?_⟩
    simp only [allocEvents, List.filterMap_cons] at ihr ⊢
    rw [ihr.2]

theorem freeEvents_freeMap (allocs : List (Nat × Nat)) :
    freeEvents (allocs.map fun a => Event.free a.1 a.2) = allocs := by
  induction allocs with
  | nil => rfl
  | cons a rest ih => simpa [freeEvents, List.filterMap_cons] using ih

theorem resultFreeEvents_freeMap (allocs : List (Nat × Nat)) :
    resultFreeEvents (allocs.map fun a => Event.free a.1 a.2) = [] := by
  induction allocs with
  | nil => rfl
  | cons a rest _ => simp [resultFreeEvents, List.filterMap_cons]

theorem allocEvents_freeMap (allocs : List (Nat × Nat)) :
    allocEvents (allocs.map fun a => Event.free a.1 a.2) = [] := by
  induction allocs with
  | nil => rfl
  | cons a rest _ => simp [allocEvents, List.filterMap_cons]

theorem nonNullResults_freeMap (allocs : List (Nat × Nat)) :
    nonNullResults (allocs.map fun a => Event.free a.1 a.2) = [] := by
  induction allocs with
  | nil => rfl
  | cons a rest _ => simp [nonNullResults, List.filterMap_cons]

theorem freeEvents_finallyEvents (rp : Nat) (allocs : List (Nat × Nat)) :
    freeEvents (finallyEvents rp allocs) = allocs := by
  have hmap := freeEvents_freeMap allocs
  unfold freeEvents at hmap ⊢
  unfold finallyEvents
  by_cases h : rp ≠ 0 <;>
    simp [h, List.filterMap_append, List.filterMap_cons, hmap]

theorem resultFreeEvents_finallyEvents (rp : Nat) (allocs : List (Nat × Nat)) :
    resultFreeEvents (finallyEvents rp allocs) = if rp ≠ 0 then [rp] else [] := by
  have hmap := resultFreeEvents_freeMap allocs
  unfold resultFreeEvents at hmap ⊢
  unfold finallyEvents
  by_cases h : rp ≠ 0 <;>
    simp [h, List.filterMap_append, List.filterMap_cons, hmap]

theorem allocEvents_finallyEvents (rp : Nat) (allocs : List (Nat × Nat)) :
    allocEvents (finallyEvents rp allocs) = [] := by
  have hmap := allocEvents_freeMap allocs
  unfold allocEvents at hmap ⊢
  unfold finallyEvents
  by_cases h : rp ≠ 0 <;>
    simp [h, List.filterMap_append, List.filterMap_cons, hmap]

theorem nonNullResults_finallyEvents (rp : Nat) (allocs : List (Nat × Nat)) :
    nonNullResults (finallyEvents rp allocs) = [] := by
  have hmap := nonNullResults_freeMap allocs
  unfold nonNullResults at hmap ⊢
  unfold finallyEvents
  by_cases h : rp ≠ 0 <;>
    simp [h, List.filterMap_append, List.filterMap_cons, hmap]

theorem allocArgs_events_shape (m : ModuleRun) (e : String → PyExc)
    (args : List (List Nat)) (i : Nat) :
    ∀ ev ∈ (allocArgs m e args i).events, ∃ s r, ev = Event.alloc s r := by
  induction args generalizing i with
  | nil => intro ev hev; simp [allocArgs] at hev
  | cons data rest ih =>
    intro ev hev
    simp only [allocArgs] at hev
    split at hev
    · simp at hev
      exact ⟨_, _, hev⟩
    · split at hev
      · simp at hev
        exact ⟨_, _, hev⟩
      · simp at hev
        rcases hev with hev | hev
        · exact ⟨_, _, hev⟩
        · exact ih (i + 1) ev hev

theorem freeEvents_allocArgs (m : ModuleRun) (e : String → PyExc)
    (args : List (List Nat)) (i : Nat) :
    freeEvents (allocArgs m e args i).events = [] := by
  unfold freeEvents
  rw [List.filterMap_eq_nil_iff]
  intro ev hev
  obtain ⟨s, r, rfl⟩ := allocArgs_events_shape m e args i ev hev
  rfl

theorem resultFreeEvents_allocArgs (m : ModuleRun) (e : String → PyExc)
    (args : List (List Nat)) (i : Nat) :
    resultFreeEvents (allocArgs m e args i).events = [] := by
  unfold resultFreeEvents
  rw [List.filterMap_eq_nil_iff]
  intro ev hev
  obtain ⟨s, r, rfl⟩ := allocArgs_events_shape m e args i ev hev
  rfl

theorem nonNullResults_allocArgs (m : ModuleRun) (e : String → PyExc)
    (args : List (List Nat)) (i : Nat) :
    nonNullResults (allocArgs m e args i).events = [] := by
  unfold nonNullResults
  rw [List.filterMap_eq_nil_iff]
  intro ev hev
  obtain ⟨s, r, rfl⟩ := allocArgs_events_shape m e args i ev hev
  rfl

/-- Event-trace characterisation of the bindings' decode section. -/
theorem tryDecodeA_events (m : ModuleRun) (f : String) :
    (SchemaLlmEngine.tryDecode m f).2 =
      if m.funcTraps then [Event.dispatch f none]
      else if m.resultPtr = 0 then [Event.dispatch f (some m.resultPtr)]
      else if m.memAfter.length < m.resultPtr + 12 then
        [Event.dispatch f (some m.resultPtr)]
      else if m.memAfter.length <
          readU32 m.memAfter (m.resultPtr + 4) + readU32 m.memAfter (m.resultPtr + 8) then
        [Event.dispatch f (some m.resultPtr)]
      else
        [Event.dispatch f (some m.resultPtr),
         Event.readPayload (readU32 m.memAfter (m.resultPtr + 4))
           (readU32 m.memAfter (m.resultPtr + 4) + readU32 m.memAfter (m.resultPtr + 8))] := by
  by_cases h1 : m.funcTraps
  · simp [SchemaLlmEngine.tryDecode, h1]
  · by_cases h2 : m.resultPtr = 0
    · simp [SchemaLlmEngine.tryDecode, h1, h2]
    · by_cases h3 : m.memAfter.length < m.resultPtr + 12
      · simp [SchemaLlmEngine.tryDecode, h1, h2, h3]
      · by_cases h4 : m.memAfter.length <
            readU32 m.memAfter (m.resultPtr + 4) + readU32 m.memAfter (m.resultPtr + 8)
        · simp [SchemaLlmEngine.tryDecode, h1, h2, h3, h4]
        · cases hp : m.parsePayload (sliceBytes m.memAfter
              (readU32 m.memAfter (m.resultPtr + 4))
              (readU32 m.memAfter (m.resultPtr + 8))) with
          | none => simp [SchemaLlmEngine.tryDecode, h1, h2, h3, h4, hp]
          | some payload =>
            by_cases hs : readU32 m.memAfter m.resultPtr = 1
            · cases payload <;>
                simp [SchemaLlmEngine.tryDecode, h1, h2, h3, h4, hp, hs]
            · simp [SchemaLlmEngine.tryDecode, h1, h2, h3, h4, hp, hs]

/-- Event-trace characterisation of the engine's decode section (the
same module-facing actions as the bindings'). -/
theorem tryDecodeC_events (m : ModuleRun) (f : String) :
    (LlmRoundtripEngine.tryDecode m f).2 = (SchemaLlmEngine.tryDecode m f).2 := by
  by_cases h1 : m.funcTraps
  · simp [LlmRoundtripEngine.tryDecode, SchemaLlmEngine.tryDecode, h1]
  · by_cases h2 : m.resultPtr = 0
    · simp [LlmRoundtripEngine.tryDecode, SchemaLlmEngine.tryDecode, h1, h2]
    · by_cases h3 : m.memAfter.length < m.resultPtr + 12
      · simp [LlmRoundtripEngine.tryDecode, SchemaLlmEngine.tryDecode, h1, h2, h3]
      · by_cases h4 : m.memAfter.length <
            readU32 m.memAfter (m.resultPtr + 4) + readU32 m.memAfter (m.resultPtr + 8)
        · simp [LlmRoundtripEngine.tryDecode, SchemaLlmEngine.tryDecode, h1, h2, h3, h4]
        · cases hp : m.parsePayload (sliceBytes m.memAfter
              (readU32 m.memAfter (m.resultPtr + 4))
              (readU32 m.memAfter (m.resultPtr + 8))) with
          | none =>
            simp [LlmRoundtripEngine.tryDecode, SchemaLlmEngine.tryDecode, h1, h2, h3, h4, hp]
          | some payload =>
            by_cases hs : readU32 m.memAfter m.resultPtr = 1
            · by_cases hr : strContains (lowerAscii f) "rehydrat" <;> cases payload <;>
                simp [LlmRoundtripEngine.tryDecode, SchemaLlmEngine.tryDecode,
                  h1, h2, h3, h4, hp, hs, hr]
            · simp [LlmRoundtripEngine.tryDecode, SchemaLlmEngine.tryDecode,
                h1, h2, h3, h4, hp, hs]

theorem freeEvents_append (xs ys : List Event) :
    freeEvents (xs ++ ys) = freeEvents xs ++ freeEvents ys := by
  simp [freeEvents, List.filterMap_append]

theorem allocEvents_append (xs ys : List Event) :
    allocEvents (xs ++ ys) = allocEvents xs ++ allocEvents ys := by
  simp [allocEvents, List.filterMap_append]

theorem resultFreeEvents_append (xs ys : List Event) :
    resultFreeEvents (xs ++ ys) = resultFreeEvents xs ++ resultFreeEvents ys := by
  simp [resultFreeEvents, List.filterMap_append]

theorem nonNullResults_append (xs ys : List Event) :
    nonNullResults (xs ++ ys) = nonNullResults xs ++ nonNullResults ys := by
  simp [nonNullResults, List.filterMap_append]

theorem selectors_tryDecodeA (m : ModuleRun) (f : String) :
    freeEvents (SchemaLlmEngine.tryDecode m f).2 = [] ∧
    allocEvents (SchemaLlmEngine.tryDecode m f).2 = [] ∧
    resultFreeEvents (SchemaLlmEngine.tryDecode m f).2 = [] ∧
    nonNullResults (SchemaLlmEngine.tryDecode m f).2 =
      (if m.funcTraps then [] else if m.resultPtr = 0 then [] else [m.resultPtr]) := by
  have h := tryDecodeA_events m f
  refine ⟨?_, ?_, ?_, ?_⟩ <;> rw [h] <;> split_ifs with h1 h2 h3 h4 <;>
    simp [freeEvents, allocEvents, resultFreeEvents, nonNullResults,
      List.filterMap_cons, *]

theorem allocArgs_abiCheck_not_mem (m : ModuleRun) (e : String → PyExc)
    (args : List (List Nat)) (i : Nat) (v : Nat) :
    Event.abiCheck v ∉ (allocArgs m e args i).events := by
  intro hmem
  obtain ⟨s, r, h⟩ := allocArgs_events_shape m e args i _ hmem
  exact Event.noConfusion h

theorem freeEvents_cons_abiCheck (v : Nat) (rest : List Event) :
    freeEvents (Event.abiCheck v :: rest) = freeEvents rest := by
  simp [freeEvents, List.filterMap_cons]

theorem allocEvents_cons_abiCheck (v : Nat) (rest : List Event) :
    allocEvents (Event.abiCheck v :: rest) = allocEvents rest := by
  simp [allocEvents, List.filterMap_cons]

theorem resultFreeEvents_cons_abiCheck (v : Nat) (rest : List Event) :
    resultFreeEvents (Event.abiCheck v :: rest) = resultFreeEvents rest := by
  simp [resultFreeEvents, List.filterMap_cons]

theorem nonNullResults_cons_abiCheck (v : Nat) (rest : List Event) :
    nonNullResults (Event.abiCheck v :: rest) = nonNullResults rest := by
  simp [nonNullResults, List.filterMap_cons]

theorem cleanupOk_nil : cleanupOk [] := ⟨rfl, rfl⟩

theorem cleanupOk_abiCheck (v : Nat) : cleanupOk [Event.abiCheck v] := ⟨rfl, rfl⟩

/-- Cleanup discipline of the bindings' post-handshake body, provided
the allocation loop completes. -/
theorem callBody_cleanup (m : ModuleRun) (f : String) (args : List (List Nat))
    (flag : Bool) (ev0 : List Event)
    (hev0 : freeEvents ev0 = [] ∧ allocEvents ev0 = [] ∧
      resultFreeEvents ev0 = [] ∧ nonNullResults ev0 = [])
    (h : allocsOk m args 0 = true) :
    cleanupOk (SchemaLlmEngine.callBody m f args flag ev0).2.1 := by
  obtain ⟨hfail, halloc⟩ := allocArgs_of_ok (fun msg => .runtimeError msg) h
  obtain ⟨ht1, ht2, ht3, ht4⟩ := selectors_tryDecodeA m f
  unfold SchemaLlmEngine.callBody
  simp only [hfail]
  constructor
  · simp only [freeEvents_append, allocEvents_append, hev0.1, hev0.2.1,
      freeEvents_allocArgs, halloc, ht1, ht2, freeEvents_finallyEvents,
      allocEvents_finallyEvents, List.nil_append, List.append_nil]
  · simp only [resultFreeEvents_append, nonNullResults_append, hev0.2.2.1,
      hev0.2.2.2, resultFreeEvents_allocArgs, nonNullResults_allocArgs, ht3, ht4,
      resultFreeEvents_finallyEvents, nonNullResults_finallyEvents,
      List.nil_append, List.append_nil]
    by_cases h1 : m.funcTraps <;> by_cases h2 : m.resultPtr = 0 <;> simp [h1, h2]

/-- Cleanup discipline of `_call_jsl` (both bindings), provided the
allocation loop completes. -/
theorem callJsl_cleanup (m : ModuleRun) (v : Bool) (f : String)
    (args : List (List Nat)) (h : allocsOk m args 0 = true) :
    cleanupOk (SchemaLlmEngine.callJsl m v f args).2.1 := by
  unfold SchemaLlmEngine.callJsl
  by_cases hv : v
  · simpa [hv] using callBody_cleanup m f args true [] ⟨rfl, rfl, rfl, rfl⟩ h
  · by_cases he : m.hasAbiExport
    · by_cases hver : m.abiVersion ≠ 1
      · simpa [hv, he, hver] using cleanupOk_abiCheck m.abiVersion
      · simpa [hv, he, hver] using
          callBody_cleanup m f args true [Event.abiCheck m.abiVersion]
            ⟨rfl, rfl, rfl, rfl⟩ h
    · simpa [hv, he] using cleanupOk_nil

/-- Cleanup discipline of `_call_wasi`, provided the allocation loop
completes (here the loop sits inside the `try`, so this hypothesis is
needed only to identify the freed buffers with the allocated ones). -/
theorem callWasi_cleanup (m : ModuleRun) (f : String)
    (args : List (List Nat)) (h : allocsOk m args 0 = true) :
    cleanupOk (LlmRoundtripEngine.callWasi m f args).2 := by
  obtain ⟨hfail, halloc⟩ := allocArgs_of_ok (fun msg => .schemaConversionError msg) h
  obtain ⟨ht1, ht2, ht3, ht4⟩ := selectors_tryDecodeA m f
  have hteq := tryDecodeC_events m f
  unfold LlmRoundtripEngine.callWasi
  by_cases he : m.hasAbiExport
  · by_cases hver : m.abiVersion ≠ 1
    · simpa [he, hver] using cleanupOk_abiCheck m.abiVersion
    · have hver1 : m.abiVersion = 1 := not_not.mp hver
      simp only [he, hver1, Bool.not_true, Bool.false_eq_true, if_false, ne_eq,
        not_true_eq_false, reduceIte, hfail]
      constructor
      · simp only [freeEvents_cons_abiCheck, allocEvents_cons_abiCheck,
          freeEvents_append, allocEvents_append, freeEvents_allocArgs, hteq, ht1,
          ht2, halloc, freeEvents_finallyEvents, allocEvents_finallyEvents,
          List.nil_append, List.append_nil]
      · simp only [resultFreeEvents_cons_abiCheck, nonNullResults_cons_abiCheck,
          resultFreeEvents_append, nonNullResults_append,
          resultFreeEvents_allocArgs, nonNullResults_allocArgs, hteq, ht3, ht4,
          resultFreeEvents_finallyEvents, nonNullResults_finallyEvents,
          List.nil_append, List.append_nil]
        by_cases h1 : m.funcTraps <;> by_cases h2 : m.resultPtr = 0 <;> simp [h1, h2]
  · simpa [he] using cleanupOk_nil

theorem abiCheck_not_mem_tryDecodeA (m : ModuleRun) (f : String) (v : Nat) :
    Event.abiCheck v ∉ (SchemaLlmEngine.tryDecode m f).2 := by
  rw [tryDecodeA_events]
  split_ifs <;> simp

theorem abiCheck_not_mem_finally (rp : Nat) (allocs : List (Nat × Nat)) (v : Nat) :
    Event.abiCheck v ∉ finallyEvents rp allocs := by
  intro hmem
  unfold finallyEvents at hmem
  rcases List.mem_append.mp hmem with hm | hm
  · by_cases hrp : rp ≠ 0 <;> simp [hrp] at hm
  · obtain ⟨a, _, ha⟩ := List.mem_map.mp hm
    exact Event.noConfusion ha

theorem callBody_no_abiCheck (m : ModuleRun) (f : String) (args : List (List Nat))
    (flag : Bool) (v : Nat) :
    Event.abiCheck v ∉ (SchemaLlmEngine.callBody m f args flag []).2.1 := by
  unfold SchemaLlmEngine.callBody
  cases hf : (allocArgs m (fun msg => .runtimeError msg) args 0).failure with
  | some e =>
    simp only [hf, List.nil_append]
    exact allocArgs_abiCheck_not_mem m _ args 0 v
  | none =>
    simp only [hf, List.nil_append]
    intro hmem
    rcases List.mem_append.mp hmem with hm | hm
    · rcases List.mem_append.mp hm with hm2 | hm2
      · exact allocArgs_abiCheck_not_mem m _ args 0 v hm2
      · exact abiCheck_not_mem_tryDecodeA m f v hm2
    · exact abiCheck_not_mem_finally _ _ v hm

theorem callBody_events_prefixed (m : ModuleRun) (f : String)
    (args : List (List Nat)) (flag : Bool) (ev0 : List Event) :
    ∃ tail, (SchemaLlmEngine.callBody m f args flag ev0).2.1 = ev0 ++ tail := by
  unfold SchemaLlmEngine.callBody
  cases hf : (allocArgs m (fun msg => .runtimeError msg) args 0).failure with
  | some e =>
    refine ⟨(allocArgs m (fun msg => .runtimeError msg) args 0).events, ?_⟩
    simp [hf]
  | none =>
    refine ⟨(allocArgs m (fun msg => .runtimeError msg) args 0).events ++
      ((SchemaLlmEngine.tryDecode m f).2 ++
        finallyEvents (if m.funcTraps then 0 else m.resultPtr)
          (allocArgs m (fun msg => .runtimeError msg) args 0).allocs), ?_⟩
    simp [hf, List.append_assoc]

theorem readPayload_not_mem_allocArgs (m : ModuleRun) (e : String → PyExc)
    (args : List (List Nat)) (i lo hi : Nat) :
    Event.readPayload lo hi ∉ (allocArgs m e args i).events := by
  intro hmem
  obtain ⟨s, r, h⟩ := allocArgs_events_shape m e args i _ hmem
  exact Event.noConfusion h

theorem readPayload_not_mem_finally (rp : Nat) (allocs : List (Nat × Nat))
    (lo hi : Nat) : Event.readPayload lo hi ∉ finallyEvents rp allocs := by
  intro hmem
  unfold finallyEvents at hmem
  rcases List.mem_append.mp hmem with hm | hm
  · by_cases hrp : rp ≠ 0 <;> simp [hrp] at hm
  · obtain ⟨a, _, ha⟩ := List.mem_map.mp hm
    exact Event.noConfusion ha

/-- Every payload read performed by the decode section lies within the
module's linear memory: the host checked
`payload_ptr + payload_len ≤ memory.data_len` first. -/
theorem tryDecodeA_readPayload_bounds (m : ModuleRun) (f : String) (lo hi : Nat)
    (h : Event.readPayload lo hi ∈ (SchemaLlmEngine.tryDecode m f).2) :
    lo ≤ hi ∧ hi ≤ m.memAfter.length := by
  rw [tryDecodeA_events] at h
  split_ifs at h with h1 h2 h3 h4 <;> simp_all

theorem callBody_readPayload_bounds (m : ModuleRun) (f : String)
    (args : List (List Nat)) (flag : Bool) (ev0 : List Event)
    (hev0 : ∀ lo hi, Event.readPayload lo hi ∉ ev0) (lo hi : Nat)
    (h : Event.readPayload lo hi ∈ (SchemaLlmEngine.callBody m f args flag ev0).2.1) :
    lo ≤ hi ∧ hi ≤ m.memAfter.length := by
  unfold SchemaLlmEngine.callBody at h
  cases hf : (allocArgs m (fun msg => .runtimeError msg) args 0).failure with
  | some e =>
    simp only [hf] at h
    rcases List.mem_append.mp h with hm | hm
    · exact absurd hm (hev0 lo hi)
    · exact absurd hm (readPayload_not_mem_allocArgs m _ args 0 lo hi)
  | none =>
    simp only [hf] at h
    rcases List.mem_append.mp h with hm | hm
    · rcases List.mem_append.mp hm with hm2 | hm2
      · rcases List.mem_append.mp hm2 with hm3 | hm3
        · exact absurd hm3 (hev0 lo hi)
        · exact absurd hm3 (readPayload_not_mem_allocArgs m _ args 0 lo hi)
      · exact tryDecodeA_readPayload_bounds m f lo hi hm2
    · exact absurd hm (readPayload_not_mem_finally _ _ lo hi)

theorem callJsl_readPayload_bounds (m : ModuleRun) (v : Bool) (f : String)
    (args : List (List Nat)) (lo hi : Nat)
    (h : Event.readPayload lo hi ∈ (SchemaLlmEngine.callJsl m v f args).2.1) :
    lo ≤ hi ∧ hi ≤ m.memAfter.length := by
  unfold SchemaLlmEngine.callJsl at h
  by_cases hv : v
  · simp only [hv, if_true, reduceIte] at h
    exact callBody_readPayload_bounds m f args true [] (by simp) lo hi h
  · by_cases he : m.hasAbiExport
    · by_cases hver : m.abiVersion ≠ 1
      · simp [hv, he, hver] at h
      · simp only [hv, he, hver, Bool.not_true, Bool.false_eq_true, if_false,
          reduceIte] at h
        refine callBody_readPayload_bounds m f args true
          [Event.abiCheck m.abiVersion] ?_ lo hi h
        intro lo' hi' hmem
        simp at hmem
    · simp [hv, he] at h

theorem callWasi_readPayload_bounds (m : ModuleRun) (f : String)
    (args : List (List Nat)) (lo hi : Nat)
    (h : Event.readPayload lo hi ∈ (LlmRoundtripEngine.callWasi m f args).2) :
    lo ≤ hi ∧ hi ≤ m.memAfter.length := by
  unfold LlmRoundtripEngine.callWasi at h
  by_cases he : m.hasAbiExport
  · by_cases hver : m.abiVersion ≠ 1
    · simp [he, hver] at h
    · simp only [he, hver, Bool.not_true, Bool.false_eq_true, if_false,
        reduceIte] at h
      cases hf : (allocArgs m (fun msg => .schemaConversionError msg) args 0).failure with
      | some e =>
        simp only [hf] at h
        rcases List.mem_cons.mp h with hm | hm
        · exact Event.noConfusion hm
        · rcases List.mem_append.mp hm with hm2 | hm2
          · exact absurd hm2 (readPayload_not_mem_allocArgs m _ args 0 lo hi)
          · exact absurd hm2 (readPayload_not_mem_finally _ _ lo hi)
      | none =>
        simp only [hf] at h
        rcases List.mem_cons.mp h with hm | hm
        · exact Event.noConfusion hm
        · rcases List.mem_append.mp hm with hm2 | hm2
          · rcases List.mem_append.mp hm2 with hm3 | hm3
            · exact absurd hm3 (readPayload_not_mem_allocArgs m _ args 0 lo hi)
            · rw [tryDecodeC_events] at hm3
              exact tryDecodeA_readPayload_bounds m f lo hi hm3
          · exact absurd hm2 (readPayload_not_mem_finally _ _ lo hi)
  · simp [he] at h

/-- When the allocation phase completes, `_call_jsl` returns the outcome
of its decode section. -/
theorem callBody_result (m : ModuleRun) (f : String) (args : List (List Nat))
    (flag : Bool) (ev0 : List Event)
    (hf : (allocArgs m (fun msg => .runtimeError msg) args 0).failure = none) :
    (SchemaLlmEngine.callBody m f args flag ev0).1 =
      (SchemaLlmEngine.tryDecode m f).1 := by
  unfold SchemaLlmEngine.callBody
  simp only [hf]

/-- A verified `_call_jsl` returns the outcome of its decode section. -/
theorem callJsl_result (m : ModuleRun) (f : String) (args : List (List Nat))
    (hA : allocsOk m args 0 = true) :
    (SchemaLlmEngine.callJsl m true f args).1 = (SchemaLlmEngine.tryDecode m f).1 := by
  unfold SchemaLlmEngine.callJsl
  simp only [if_true, reduceIte]
  exact callBody_result m f args true []
    (allocArgs_of_ok (fun msg => .runtimeError msg) hA).1

/-- After a successful handshake and allocation phase, `_call_wasi`
returns the outcome of its decode section. -/
theorem callWasi_result (m : ModuleRun) (f : String) (args : List (List Nat))
    (he : m.hasAbiExport = true) (hver : m.abiVersion = 1)
    (hA : allocsOk m args 0 = true) :
    (LlmRoundtripEngine.callWasi m f args).1 = (LlmRoundtripEngine.tryDecode m f).1 := by
  unfold LlmRoundtripEngine.callWasi
  simp only [he, hver, Bool.not_true, Bool.false_eq_true, if_false, ne_eq,
    not_true_eq_false, reduceIte,
    (allocArgs_of_ok (fun msg => .schemaConversionError msg) hA).1]

/-- Outcome of the bindings' decode section on a well-formed envelope:
the header is decoded as three little-endian u32 fields at the result
pointer, the payload is the parsed slice, and `status == 1` raises
`JslError` from the payload's fields. -/
theorem tryDecodeA_decoded (m : ModuleRun) (f : String) (payload : Json)
    (ht : m.funcTraps = false) (hrp : m.resultPtr ≠ 0)
    (hhdr : m.resultPtr + 12 ≤ m.memAfter.length)
    (hbounds : readU32 m.memAfter (m.resultPtr + 4) + readU32 m.memAfter (m.resultPtr + 8) ≤
      m.memAfter.length)
    (hparse : m.parsePayload (sliceBytes m.memAfter (readU32 m.memAfter (m.resultPtr + 4))
        (readU32 m.memAfter (m.resultPtr + 8))) = some payload) :
    (SchemaLlmEngine.tryDecode m f).1 =
      if readU32 m.memAfter m.resultPtr = 1 then
        match payload with
        | .obj fs => .error (.jslError (dictGetD fs "code" (.str "unknown"))
            (dictGetD fs "message" (.str "unknown error"))
            (dictGetD fs "path" (.str "")))
        | _ => .error .attributeError
      else .ok payload := by
  unfold SchemaLlmEngine.tryDecode
  simp only [ht, Bool.false_eq_true, if_false, hrp, reduceIte, ne_eq,
    Nat.not_lt.mpr hhdr, Nat.not_lt.mpr hbounds, hparse]
  by_cases hs : readU32 m.memAfter m.resultPtr = 1 <;>
    · cases payload <;> simp [hs]

/-- Outcome of the engine's decode section on a well-formed envelope:
`status == 1` raises `RehydrationError` or `SchemaConversionError`
depending on the export name, with message `"[{code}] {message}"`. -/
theorem tryDecodeC_decoded (m : ModuleRun) (f : String) (payload : Json)
    (ht : m.funcTraps = false) (hrp : m.resultPtr ≠ 0)
    (hhdr : m.resultPtr + 12 ≤ m.memAfter.length)
    (hbounds : readU32 m.memAfter (m.resultPtr + 4) + readU32 m.memAfter (m.resultPtr + 8) ≤
      m.memAfter.length)
    (hparse : m.parsePayload (sliceBytes m.memAfter (readU32 m.memAfter (m.resultPtr + 4))
        (readU32 m.memAfter (m.resultPtr + 8))) = some payload) :
    (LlmRoundtripEngine.tryDecode m f).1 =
      if readU32 m.memAfter m.resultPtr = 1 then
        .error ((if strContains (lowerAscii f) "rehydrat" then
            PyExc.rehydrationError else PyExc.schemaConversionError)
          ("[" ++ (match payload with
              | .obj fs => pyStr (dictGetD fs "code" (.str "unknown"))
              | _ => "unknown") ++ "] " ++
            (match payload with
              | .obj fs => pyStr (dictGetD fs "message" (.str "unknown error"))
              | other => pyStr other)))
      else .ok payload := by
  unfold LlmRoundtripEngine.tryDecode
  simp only [ht, Bool.false_eq_true, if_false, hrp, reduceIte, ne_eq,
    Nat.not_lt.mpr hhdr, Nat.not_lt.mpr hbounds, hparse]
  by_cases hb : strContains (lowerAscii f) "rehydrat" <;>
    by_cases hs : readU32 m.memAfter m.resultPtr = 1 <;>
      · cases payload <;> simp [hs, hb]

/-! ## Claim theorems -/

/-- C3: `ConvertOptions.to_dict` serializes `max_depth` and
`recursion_limit` under the wire keys `"max-depth"` and
`"recursion-limit"`, omits every `None`-valued field (so all-default
options serialize to the empty object), and `Engine.convert` kebab-cases
every supplied snake_case option key before sending the options. -/
theorem options_kebab_canonicalisation :
    (ConvertOptions.to_dict {} = []) ∧
    (∀ o : ConvertOptions, ∀ d : Int, o.max_depth = some d →
        ("max-depth", Json.num d) ∈ o.to_dict) ∧
    (∀ o : ConvertOptions, ∀ r : Int, o.recursion_limit = some r →
        ("recursion-limit", Json.num r) ∈ o.to_dict) ∧
    (∀ o : ConvertOptions, o.target = none → "target" ∉ o.to_dict.map Prod.fst) ∧
    (∀ o : ConvertOptions, o.mode = none → "mode" ∉ o.to_dict.map Prod.fst) ∧
    (∀ o : ConvertOptions, o.max_depth = none → "max-depth" ∉ o.to_dict.map Prod.fst) ∧
    (∀ o : ConvertOptions, o.recursion_limit = none →
        "recursion-limit" ∉ o.to_dict.map Prod.fst) ∧
    (∀ o : ConvertOptions, o.polymorphism = none →
        "polymorphism" ∉ o.to_dict.map Prod.fst) ∧
    (∀ options : List (String × Json),
        ((options.map (fun kv => (kebabKey kv.1, kv.2))).map Prod.fst).Nodup →
        normalizeOptions options = options.map (fun kv => (kebabKey kv.1, kv.2))) := by
  refine ⟨rfl, ?_, ?_, ?_, ?_, ?_, ?_, ?_, normalizeOptions_eq_map⟩ <;>
    · rintro ⟨t, m, md, rl, p⟩
      cases t <;> cases m <;> cases md <;> cases rl <;> cases p <;>
        simp_all [ConvertOptions.to_dict]

/-- Witness for C3: a snake_case `max_depth` key is canonicalised to
`max-depth` by `Engine.convert`'s boundary normalisation. -/
theorem options_kebab_canonicalisation_witness :
    ((([("max_depth", Json.num 5), ("recursion_limit", Json.num 3)]).map
        (fun kv => (kebabKey kv.1, kv.2))).map Prod.fst).Nodup ∧
    normalizeOptions [("max_depth", Json.num 5), ("recursion_limit", Json.num 3)] =
      [("max_depth", Json.num 5), ("recursion_limit", Json.num 3)].map
        (fun kv => (kebabKey kv.1, kv.2)) :=
  ⟨by decide, options_kebab_canonicalisation.2.2.2.2.2.2.2.2 _ (by decide)⟩

/-- C7 counterexample: with `providerCompatErrors` present but equal to
the empty list, `ConvertResult.from_dict` yields
`provider_compat_errors = None` rather than a list (the code guards the
comprehension with Python truthiness, `... if errors else None`),
refuting the claim that a present key always yields a list. -/
theorem convert_envelope_empty_list_counterexample :
    ConvertResult.from_dict
      [("apiVersion", Json.str "1.0"), ("schema", Json.obj []),
       ("codec", Json.obj []), ("providerCompatErrors", Json.arr [])] =
      .ok ⟨Json.str "1.0", Json.obj [], Json.obj [], none⟩ := rfl

/-- C7 amended: `ConvertResult.from_dict` raises `KeyError` when
`apiVersion`, `schema` or `codec` is missing; it yields
`provider_compat_errors = None` whenever `providerCompatErrors` is absent
or falsy (in particular when it is the empty list), and a list of
`ProviderCompatError` values when it is a nonempty list;
`ProviderCompatError.from_dict` requires `error` and treats `pointer` and
`message` as optional. -/
theorem convert_envelope_fields :
    (∀ raw, dictLookup raw "apiVersion" = none →
        ConvertResult.from_dict raw = .error (.keyError "apiVersion")) ∧
    (∀ raw a, dictLookup raw "apiVersion" = some a →
        dictLookup raw "schema" = none →
        ConvertResult.from_dict raw = .error (.keyError "schema")) ∧
    (∀ raw a s, dictLookup raw "apiVersion" = some a →
        dictLookup raw "schema" = some s →
        dictLookup raw "codec" = none →
        ConvertResult.from_dict raw = .error (.keyError "codec")) ∧
    (∀ raw r, (dictGet raw "providerCompatErrors").truthy = false →
        ConvertResult.from_dict raw = .ok r → r.provider_compat_errors = none) ∧
    (∀ raw items r, dictLookup raw "providerCompatErrors" = some (Json.arr items) →
        items ≠ [] →
        ConvertResult.from_dict raw = .ok r →
        ∃ l, r.provider_compat_errors = some l ∧
          mapFromDict ProviderCompatError.from_dict items = .ok l) ∧
    (∀ fs, dictLookup fs "error" = none →
        ProviderCompatError.from_dict (Json.obj fs) = .error (.keyError "error")) ∧
    (∀ fs e, dictLookup fs "error" = some e →
        ProviderCompatError.from_dict (Json.obj fs) =
          .ok ⟨e, dictGet fs "pointer", dictGet fs "message"⟩) := by
  refine ⟨?_, ?_, ?_, ?_, ?_, ?_, ?_⟩
  · intro raw h
    simp [ConvertResult.from_dict, dictItem, h]
  · intro raw a h1 h2
    simp [ConvertResult.from_dict, dictItem, h1, h2]
  · intro raw a s h1 h2 h3
    simp [ConvertResult.from_dict, dictItem, h1, h2, h3]
  · intro raw r hfalsy hok
    obtain ⟨ra, rs, rc, rp⟩ := r
    cases h1 : dictLookup raw "apiVersion" with
    | none => simp [ConvertResult.from_dict, dictItem, h1] at hok
    | some a =>
      cases h2 : dictLookup raw "schema" with
      | none => simp [ConvertResult.from_dict, dictItem, h1, h2] at hok
      | some s =>
        cases h3 : dictLookup raw "codec" with
        | none => simp [ConvertResult.from_dict, dictItem, h1, h2, h3] at hok
        | some c =>
          simp [ConvertResult.from_dict, dictItem, h1, h2, h3, hfalsy] at hok
          simp [hok]
  · intro raw items r hpce hne hok
    obtain ⟨ra, rs, rc, rp⟩ := r
    cases h1 : dictLookup raw "apiVersion" with
    | none => simp [ConvertResult.from_dict, dictItem, h1] at hok
    | some a =>
      cases h2 : dictLookup raw "schema" with
      | none => simp [ConvertResult.from_dict, dictItem, h1, h2] at hok
      | some s =>
        cases h3 : dictLookup raw "codec" with
        | none => simp [ConvertResult.from_dict, dictItem, h1, h2, h3] at hok
        | some c =>
          have htru : (dictGet raw "providerCompatErrors").truthy = true := by
            simp [dictGet, hpce, Json.truthy, hne]
          cases h4 : mapFromDict ProviderCompatError.from_dict items with
          | error e =>
            simp [ConvertResult.from_dict, dictItem, dictGet, h1, h2, h3, hpce,
              Json.truthy, hne, pyIterList, h4] at hok
          | ok l =>
            simp [ConvertResult.from_dict, dictItem, dictGet, h1, h2, h3, hpce,
              Json.truthy, hne, pyIterList, h4] at hok
            exact ⟨l, by simp [hok], rfl⟩
  · intro fs h
    simp [ProviderCompatError.from_dict, Json.pyItem, dictItem, h]
  · intro fs e h
    simp [ProviderCompatError.from_dict, Json.pyItem, dictItem, h, Json.pyGet]

/-- Witness for C7 (amended): a dict with no `apiVersion` key raises
`KeyError("apiVersion")`. -/
theorem convert_envelope_fields_witness :
    dictLookup ([] : List (String × Json)) "apiVersion" = none ∧
    ConvertResult.from_dict [] = .error (.keyError "apiVersion") :=
  ⟨rfl, convert_envelope_fields.1 [] rfl⟩

/-- C8 counterexample: a malformed warning entry (an object without
`msg`) makes `RehydrateResult.from_dict` raise `KeyError("msg")`, while
the same envelope without the `warnings` key succeeds — so the presence
of warnings can make the operation fail, refuting the claim. -/
theorem rehydrate_warning_msg_counterexample :
    RehydrateResult.from_dict
      [("apiVersion", Json.str "1.0"), ("data", Json.null),
       ("warnings", Json.arr [Json.obj []])] = .error (.keyError "msg") ∧
    RehydrateResult.from_dict
      [("apiVersion", Json.str "1.0"), ("data", Json.null)] =
      .ok ⟨Json.str "1.0", Json.null, []⟩ :=
  ⟨rfl, rfl⟩

/-- C8 amended: `RehydrateResult.from_dict` raises `KeyError` when
`apiVersion` or `data` is missing, defaults `warnings` to the empty list
when the key is absent, and succeeds whenever every warning entry is an
object carrying `msg` (well-formed warnings are advisory and never cause
failure; a malformed entry raises `KeyError("msg")`). -/
theorem rehydrate_envelope_fields :
    (∀ raw, dictLookup raw "apiVersion" = none →
        RehydrateResult.from_dict raw = .error (.keyError "apiVersion")) ∧
    (∀ raw a, dictLookup raw "apiVersion" = some a →
        dictLookup raw "data" = none →
        RehydrateResult.from_dict raw = .error (.keyError "data")) ∧
    (∀ raw a d, dictLookup raw "apiVersion" = some a →
        dictLookup raw "data" = some d →
        dictLookup raw "warnings" = none →
        RehydrateResult.from_dict raw = .ok ⟨a, d, []⟩) ∧
    (∀ raw a d items, dictLookup raw "apiVersion" = some a →
        dictLookup raw "data" = some d →
        dictLookup raw "warnings" = some (Json.arr items) →
        (∀ w ∈ items, ∃ fs m, w = Json.obj fs ∧ dictLookup fs "msg" = some m) →
        ∃ ws, RehydrateResult.from_dict raw = .ok ⟨a, d, ws⟩ ∧
          ws.length = items.length) := by
  refine ⟨?_, ?_, ?_, ?_⟩
  · intro raw h
    simp [RehydrateResult.from_dict, dictItem, h]
  · intro raw a h1 h2
    simp [RehydrateResult.from_dict, dictItem, h1, h2]
  · intro raw a d h1 h2 h3
    simp [RehydrateResult.from_dict, dictItem, dictGetD, h1, h2, h3, pyIterList,
      mapFromDict]
  · intro raw a d items h1 h2 h3 hwf
    have hall : ∀ w ∈ items, ∃ y, RehydrateWarning.from_dict w = .ok y := by
      intro w hw
      obtain ⟨fs, m, rfl, hm⟩ := hwf w hw
      exact ⟨⟨m⟩, by simp [RehydrateWarning.from_dict, Json.pyItem, dictItem, hm]⟩
    obtain ⟨ws, hws, hlen⟩ := mapFromDict_ok_of_forall RehydrateWarning.from_dict items hall
    refine ⟨ws, ?_, hlen⟩
    simp [RehydrateResult.from_dict, dictItem, dictGetD, h1, h2, h3, pyIterList, hws]

/-- Witness for C8 (amended): a well-formed warning list is accepted and
kept. -/
theorem rehydrate_envelope_fields_witness :
    dictLookup [("apiVersion", Json.str "1.0"), ("data", Json.null),
        ("warnings", Json.arr [Json.obj [("msg", Json.str "w")]])] "apiVersion" =
      some (Json.str "1.0") ∧
    (∃ ws, RehydrateResult.from_dict
        [("apiVersion", Json.str "1.0"), ("data", Json.null),
         ("warnings", Json.arr [Json.obj [("msg", Json.str "w")]])] =
        .ok ⟨Json.str "1.0", Json.null, ws⟩ ∧
      ws.length = [Json.obj [("msg", Json.str "w")]].length) :=
  ⟨rfl, rehydrate_envelope_fields.2.2.2 _ _ _ _ rfl rfl rfl
    (by
      intro w hw
      simp only [List.mem_singleton] at hw
      exact ⟨[("msg", Json.str "w")], Json.str "w", hw, rfl⟩)⟩

theorem rpeOnly_wrapExtract (failMsg : String) (r : Except PyExc String) :
    rpeOnly (wrapExtract failMsg r) = true := by
  cases r with
  | ok s => rfl
  | error e => cases e <;> rfl

/-- C9: for every provider formatter and every input (any raw string and
any `json.loads` outcome), `extract_content` either returns a string or
fails with `ResponseParsingError`; every other exception arising during
parsing is caught and re-raised as `ResponseParsingError`, so no
exception of another type escapes. -/
theorem extract_content_only_parsing_errors :
    ∀ (raw : String) (parsed : Option Json),
      rpeOnly (ChatCompletionsFormatter.extract_content raw parsed) = true ∧
      rpeOnly (ClaudeFormatter.extract_content raw parsed) = true ∧
      rpeOnly (GeminiFormatter.extract_content raw parsed) = true ∧
      rpeOnly (OpenResponsesFormatter.extract_content raw parsed) = true :=
  fun _ _ =>
    ⟨rpeOnly_wrapExtract _ _, rpeOnly_wrapExtract _ _,
     rpeOnly_wrapExtract _ _, rpeOnly_wrapExtract _ _⟩

/-- C5 counterexample: in `SchemaLlmEngine._call_jsl` the allocation
loop runs BEFORE the `try/finally`, so when the second `jsl_alloc`
returns null the `RuntimeError` propagates without any cleanup: the
trace ends with the two allocation events (the first buffer was
allocated at pointer 100) and contains no `jsl_free` at all — refuting
the claim that each input buffer is released exactly once in every
call. -/
theorem input_buffer_leak_counterexample :
    (SchemaLlmEngine.callJsl
        ⟨true, 1, fun i => if i = 0 then 100 else 0, 200, false, 0, [], fun _ => none⟩
        true "jsl_convert" [[1, 2, 3], [4, 5]]).2.1 =
      [Event.alloc 3 100, Event.alloc 2 0] ∧
    freeEvents [Event.alloc 3 100, Event.alloc 2 0] = [] ∧
    (SchemaLlmEngine.callJsl
        ⟨true, 1, fun i => if i = 0 then 100 else 0, 200, false, 0, [], fun _ => none⟩
        true "jsl_convert" [[1, 2, 3], [4, 5]]).1 =
      .error (.runtimeError "jsl_alloc returned null for 2 bytes") :=
  ⟨rfl, rfl, rfl⟩

/-- C5 amended: provided every `jsl_alloc` succeeds (a non-null pointer
for each non-empty buffer, in bounds for the argument write), each input
buffer is released exactly once via `jsl_free` and `jsl_result_free` is
invoked exactly once on every non-zero result pointer, in all three
bindings — including when payload decoding fails, when the dispatched
export traps, and when the operation raises a structured error, since
the cleanup runs in a `finally` block.  Without that proviso the claim
fails for the two bindings, whose allocation loop precedes the `try`
(see the counterexample); in `LlmRoundtripEngine._call_wasi` the loop is
inside the `try` and the accumulated buffers are freed even then. -/
theorem resource_cleanup (m : ModuleRun) (v : Bool) (funcName : String)
    (args : List (List Nat)) (h : allocsOk m args 0 = true) :
    cleanupOk (SchemaLlmEngine.callJsl m v funcName args).2.1 ∧
    cleanupOk (Engine.callJsl m v funcName args).2.1 ∧
    cleanupOk (LlmRoundtripEngine.callWasi m funcName args).2 :=
  ⟨callJsl_cleanup m v funcName args h, callJsl_cleanup m v funcName args h,
   callWasi_cleanup m funcName args h⟩

/-- Witness for C5 (amended): a call whose single allocation succeeds
satisfies the cleanup discipline. -/
theorem resource_cleanup_witness :
    allocsOk ⟨true, 1, fun _ => 16, 64, false, 0, [], fun _ => none⟩ [[65, 66]] 0 = true ∧
    cleanupOk (SchemaLlmEngine.callJsl
        ⟨true, 1, fun _ => 16, 64, false, 0, [], fun _ => none⟩ true "jsl_convert"
        [[65, 66]]).2.1 :=
  ⟨by decide, (resource_cleanup _ true "jsl_convert" [[65, 66]] (by decide)).1⟩

/-- C4: every binding calls the module's `jsl_abi_version` export before
completing its first operation and raises an error unless it returns 1;
`SchemaLlmEngine` and the flat `Engine` perform the check at most once
per engine lifetime (they set `_abi_verified` on success and skip the
check when it is set), while `LlmRoundtripEngine` re-checks on every
call. -/
theorem abi_handshake :
    (∀ (m : ModuleRun) (funcName : String) (args : List (List Nat)),
        m.hasAbiExport = true → m.abiVersion ≠ 1 →
        (SchemaLlmEngine.callJsl m false funcName args).1 =
          .error (.runtimeError ("ABI version mismatch: binary=" ++
            toString m.abiVersion ++ ", expected=1")) ∧
        (SchemaLlmEngine.callJsl m false funcName args).2.2 = false) ∧
    (∀ (m : ModuleRun) (funcName : String) (args : List (List Nat)),
        m.hasAbiExport = false →
        (SchemaLlmEngine.callJsl m false funcName args).1 =
          .error (.runtimeError
            "Incompatible WASM module: missing required 'jsl_abi_version' export")) ∧
    (∀ (m : ModuleRun) (funcName : String) (args : List (List Nat)),
        m.hasAbiExport = true →
        ∃ rest, (SchemaLlmEngine.callJsl m false funcName args).2.1 =
          Event.abiCheck m.abiVersion :: rest) ∧
    (∀ (m : ModuleRun) (funcName : String) (args : List (List Nat)),
        m.hasAbiExport = true → m.abiVersion = 1 →
        (SchemaLlmEngine.callJsl m false funcName args).2.2 = true) ∧
    (∀ (m : ModuleRun) (funcName : String) (args : List (List Nat)) (v : Nat),
        Event.abiCheck v ∉ (SchemaLlmEngine.callJsl m true funcName args).2.1) ∧
    (Engine.callJsl = SchemaLlmEngine.callJsl) ∧
    (∀ (m : ModuleRun) (funcName : String) (args : List (List Nat)),
        m.hasAbiExport = true → m.abiVersion ≠ 1 →
        (LlmRoundtripEngine.callWasi m funcName args).1 =
          .error (.schemaConversionError ("ABI version mismatch: binary=" ++
            toString m.abiVersion ++ ", expected=1"))) ∧
    (∀ (m : ModuleRun) (funcName : String) (args : List (List Nat)),
        m.hasAbiExport = true →
        ∃ rest, (LlmRoundtripEngine.callWasi m funcName args).2 =
          Event.abiCheck m.abiVersion :: rest) ∧
    (∀ (m : ModuleRun) (funcName : String) (args : List (List Nat)),
        m.hasAbiExport = false →
        (LlmRoundtripEngine.callWasi m funcName args).1 =
          .error (.keyError "jsl_abi_version")) := by
  refine ⟨?_, ?_, ?_, ?_, ?_, rfl, ?_, ?_, ?_⟩
  · intro m funcName args he hver
    constructor <;> simp [SchemaLlmEngine.callJsl, he, hver]
  · intro m funcName args he
    simp [SchemaLlmEngine.callJsl, he]
  · intro m funcName args he
    by_cases hver : m.abiVersion = 1
    · obtain ⟨tail, htail⟩ := callBody_events_prefixed m funcName args true
        [Event.abiCheck m.abiVersion]
      refine ⟨tail, ?_⟩
      simpa [SchemaLlmEngine.callJsl, he, hver] using htail
    · exact ⟨[], by simp [SchemaLlmEngine.callJsl, he, hver]⟩
  · intro m funcName args he hver
    simp only [SchemaLlmEngine.callJsl, he, hver, SchemaLlmEngine.callBody]
    cases hf : (allocArgs m (fun msg => .runtimeError msg) args 0).failure <;>
      simp [hf]
  · intro m funcName args v
    simpa [SchemaLlmEngine.callJsl] using callBody_no_abiCheck m funcName args true v
  · intro m funcName args he hver
    simp [LlmRoundtripEngine.callWasi, he, hver]
  · intro m funcName args he
    by_cases hver : m.abiVersion = 1
    · unfold LlmRoundtripEngine.callWasi
      cases hf : (allocArgs m (fun msg => .schemaConversionError msg) args 0).failure with
      | some e =>
        refine ⟨(allocArgs m (fun msg => .schemaConversionError msg) args 0).events ++
          finallyEvents 0
            (allocArgs m (fun msg => .schemaConversionError msg) args 0).allocs, ?_⟩
        simp [he, hver, hf]
      | none =>
        refine ⟨(allocArgs m (fun msg => .schemaConversionError msg) args 0).events ++
          ((LlmRoundtripEngine.tryDecode m funcName).2 ++
            finallyEvents (if m.funcTraps then 0 else m.resultPtr)
              (allocArgs m (fun msg => .schemaConversionError msg) args 0).allocs), ?_⟩
        simp [he, hver, hf, List.append_assoc]
    · exact ⟨[], by simp [LlmRoundtripEngine.callWasi, he, hver]⟩
  · intro m funcName args he
    simp [LlmRoundtripEngine.callWasi, he]

/-- Witness for C4: a module whose handshake returns 2 makes the first
typed-binding call fail with the mismatch error and leaves the
`_abi_verified` flag unset. -/
theorem abi_handshake_witness :
    (SchemaLlmEngine.callJsl ⟨true, 2, fun _ => 0, 0, false, 0, [], fun _ => none⟩
        false "jsl_convert" []).1 =
      .error (.runtimeError "ABI version mismatch: binary=2, expected=1") ∧
    (SchemaLlmEngine.callJsl ⟨true, 2, fun _ => 0, 0, false, 0, [], fun _ => none⟩
        false "jsl_convert" []).2.2 = false :=
  abi_handshake.1 _ "jsl_convert" [] rfl (by decide)

/-- C10: in every binding, before the payload is read from linear memory
the host checks `payload_ptr + payload_len ≤ memory.data_len` and raises
instead of reading when the check fails; consequently every payload read
performed by the bindings lies entirely within the module's linear
memory. -/
theorem payload_reads_bounded :
    (∀ (m : ModuleRun) (v : Bool) (funcName : String) (args : List (List Nat))
        (lo hi : Nat),
        Event.readPayload lo hi ∈ (SchemaLlmEngine.callJsl m v funcName args).2.1 →
        lo ≤ hi ∧ hi ≤ m.memAfter.length) ∧
    (∀ (m : ModuleRun) (v : Bool) (funcName : String) (args : List (List Nat))
        (lo hi : Nat),
        Event.readPayload lo hi ∈ (Engine.callJsl m v funcName args).2.1 →
        lo ≤ hi ∧ hi ≤ m.memAfter.length) ∧
    (∀ (m : ModuleRun) (funcName : String) (args : List (List Nat)) (lo hi : Nat),
        Event.readPayload lo hi ∈ (LlmRoundtripEngine.callWasi m funcName args).2 →
        lo ≤ hi ∧ hi ≤ m.memAfter.length) ∧
    (∀ (m : ModuleRun) (funcName : String) (args : List (List Nat)),
        allocsOk m args 0 = true → m.funcTraps = false → m.resultPtr ≠ 0 →
        m.resultPtr + 12 ≤ m.memAfter.length →
        m.memAfter.length <
          readU32 m.memAfter (m.resultPtr + 4) + readU32 m.memAfter (m.resultPtr + 8) →
        (SchemaLlmEngine.callJsl m true funcName args).1 =
          .error (.runtimeError ("payload out of bounds: ptr=" ++
            toString (readU32 m.memAfter (m.resultPtr + 4)) ++ " len=" ++
            toString (readU32 m.memAfter (m.resultPtr + 8)) ++ " memSize=" ++
            toString m.memAfter.length)) ∧
        (m.hasAbiExport = true → m.abiVersion = 1 →
          (LlmRoundtripEngine.callWasi m funcName args).1 =
            .error (.schemaConversionError ("payload out of bounds: ptr=" ++
              toString (readU32 m.memAfter (m.resultPtr + 4)) ++ " len=" ++
              toString (readU32 m.memAfter (m.resultPtr + 8)) ++ " memSize=" ++
              toString m.memAfter.length)))) := by
  refine ⟨callJsl_readPayload_bounds, callJsl_readPayload_bounds,
    callWasi_readPayload_bounds, ?_⟩
  intro m funcName args hA ht hrp hhdr hlt
  constructor
  · rw [callJsl_result m funcName args hA]
    unfold SchemaLlmEngine.tryDecode
    simp only [ht, Bool.false_eq_true, if_false, hrp, reduceIte, ne_eq,
      Nat.not_lt.mpr hhdr, hlt, if_true]
  · intro he hver
    rw [callWasi_result m funcName args he hver hA]
    unfold LlmRoundtripEngine.tryDecode
    simp only [ht, Bool.false_eq_true, if_false, hrp, reduceIte, ne_eq,
      Nat.not_lt.mpr hhdr, hlt, if_true]

/-- Witness for C10: a header whose payload record points one byte past
the end of memory makes the call fail with the out-of-bounds error
instead of reading. -/
theorem payload_reads_bounded_witness :
    (SchemaLlmEngine.callJsl
        ⟨true, 1, fun _ => 0, 0, false, 4,
          [0, 0, 0, 0, 0, 0, 0, 0, 16, 0, 0, 0, 1, 0, 0, 0], fun _ => none⟩
        true "jsl_convert" []).1 =
      .error (.runtimeError "payload out of bounds: ptr=16 len=1 memSize=16") :=
  ((payload_reads_bounded.2.2.2 _ "jsl_convert" [] rfl rfl (by decide) (by decide)
    (by decide)).1)

/-- C2: for every call dispatched by any of the three bindings, the
result is decoded as a 12-byte little-endian `(status, payload_ptr,
payload_len)` record followed by `payload_len` bytes of JSON read at
`payload_ptr`; when `status = 0` the parsed payload is returned to the
caller, and when `status = 1` the call raises a structured error
carrying the payload's `code` and `message` fields (and, in the typed
binding's `JslError`, `path`). -/
theorem result_envelope_decoding (m : ModuleRun) (funcName : String)
    (args : List (List Nat)) (payload : Json)
    (hA : allocsOk m args 0 = true)
    (ht : m.funcTraps = false)
    (hrp : m.resultPtr ≠ 0)
    (hhdr : m.resultPtr + 12 ≤ m.memAfter.length)
    (hbounds : readU32 m.memAfter (m.resultPtr + 4) + readU32 m.memAfter (m.resultPtr + 8) ≤
      m.memAfter.length)
    (hparse : m.parsePayload (sliceBytes m.memAfter (readU32 m.memAfter (m.resultPtr + 4))
        (readU32 m.memAfter (m.resultPtr + 8))) = some payload) :
    (readU32 m.memAfter m.resultPtr = 0 →
      (SchemaLlmEngine.callJsl m true funcName args).1 = .ok payload ∧
      (Engine.callJsl m true funcName args).1 = .ok payload ∧
      (m.hasAbiExport = true → m.abiVersion = 1 →
        (LlmRoundtripEngine.callWasi m funcName args).1 = .ok payload)) ∧
    (readU32 m.memAfter m.resultPtr = 1 →
      ∀ fs, payload = .obj fs →
      (SchemaLlmEngine.callJsl m true funcName args).1 =
        .error (.jslError (dictGetD fs "code" (.str "unknown"))
          (dictGetD fs "message" (.str "unknown error"))
          (dictGetD fs "path" (.str ""))) ∧
      (Engine.callJsl m true funcName args).1 =
        .error (.jslError (dictGetD fs "code" (.str "unknown"))
          (dictGetD fs "message" (.str "unknown error"))
          (dictGetD fs "path" (.str ""))) ∧
      (m.hasAbiExport = true → m.abiVersion = 1 →
        (LlmRoundtripEngine.callWasi m funcName args).1 =
          .error ((if strContains (lowerAscii funcName) "rehydrat" then
              PyExc.rehydrationError else PyExc.schemaConversionError)
            ("[" ++ pyStr (dictGetD fs "code" (.str "unknown")) ++ "] " ++
              pyStr (dictGetD fs "message" (.str "unknown error")))))) := by
  have hdecA := tryDecodeA_decoded m funcName payload ht hrp hhdr hbounds hparse
  have hdecC := tryDecodeC_decoded m funcName payload ht hrp hhdr hbounds hparse
  constructor
  · intro h0
    refine ⟨?_, ?_, fun he hver => ?_⟩
    · rw [callJsl_result m funcName args hA, hdecA]
      simp [h0]
    · rw [show Engine.callJsl = SchemaLlmEngine.callJsl from rfl,
        callJsl_result m funcName args hA, hdecA]
      simp [h0]
    · rw [callWasi_result m funcName args he hver hA, hdecC]
      simp [h0]
  · intro h1 fs hfs
    subst hfs
    refine ⟨?_, ?_, fun he hver => ?_⟩
    · rw [callJsl_result m funcName args hA, hdecA]
      simp [h1]
    · rw [show Engine.callJsl = SchemaLlmEngine.callJsl from rfl,
        callJsl_result m funcName args hA, hdecA]
      simp [h1]
    · rw [callWasi_result m funcName args he hver hA, hdecC]
      simp [h1]

/-- Witness for C2: a status-0 envelope returns the parsed payload. -/
theorem result_envelope_decoding_witness :
    (SchemaLlmEngine.callJsl
        ⟨true, 1, fun _ => 0, 0, false, 4,
          [0, 0, 0, 0, 0, 0, 0, 0, 0, 0, 0, 0, 0, 0, 0, 0],
          fun _ => some (.obj [])⟩
        true "jsl_convert" []).1 = .ok (.obj []) :=
  ((result_envelope_decoding
      ⟨true, 1, fun _ => 0, 0, false, 4,
        [0, 0, 0, 0, 0, 0, 0, 0, 0, 0, 0, 0, 0, 0, 0, 0],
        fun _ => some (.obj [])⟩
      "jsl_convert" [] (.obj []) rfl rfl (by decide) (by decide) (by decide)
      rfl).1 rfl).1

/-- C6 counterexample: the engine's `RehydrationError` for a status-1
rehydrate result is built as `f"[{code}] {message}"` and is identical
for two payloads that differ only in their `path` field — so it cannot
carry the JSON Pointer, refuting the part of the claim that says
`LlmRoundtripEngine._call_wasi` raises `RehydrationError` carrying the
pointer. -/
theorem rehydration_error_no_pointer_counterexample :
    (LlmRoundtripEngine.callWasi
        ⟨true, 1, fun _ => 0, 0, false, 4,
          [0, 0, 0, 0, 1, 0, 0, 0, 0, 0, 0, 0, 0, 0, 0, 0],
          fun _ => some (.obj [("code", .str "type_coercion_failed"),
            ("message", .str "boom"), ("path", .str "/items/0")])⟩
        "jsl_rehydrate" []).1 =
      .error (.rehydrationError "[type_coercion_failed] boom") ∧
    (LlmRoundtripEngine.callWasi
        ⟨true, 1, fun _ => 0, 0, false, 4,
          [0, 0, 0, 0, 1, 0, 0, 0, 0, 0, 0, 0, 0, 0, 0, 0],
          fun _ => some (.obj [("code", .str "type_coercion_failed"),
            ("message", .str "boom"), ("path", .str "/other")])⟩
        "jsl_rehydrate" []).1 =
      .error (.rehydrationError "[type_coercion_failed] boom") :=
  ⟨rfl, rfl⟩

/-- C6 amended: every structured rehydration failure surfaces as a
rehydration error: `SchemaLlmEngine.rehydrate` raises `JslError`
populated with the payload's `code`, `message` and `path`, and
`LlmRoundtripEngine._call_wasi` raises `RehydrationError` (never
`SchemaConversionError`) for every status-1 result of a rehydrate call —
carrying the code and message, but NOT the pointer, which the engine's
error string omits. -/
theorem rehydration_error_surfacing :
    (∀ (m : ModuleRun) (data codec schema : Json) (fs : List (String × Json)),
        allocsOk m [encodeUtf8 data.dumps, encodeUtf8 codec.dumps,
          encodeUtf8 schema.dumps] 0 = true →
        m.funcTraps = false → m.resultPtr ≠ 0 →
        m.resultPtr + 12 ≤ m.memAfter.length →
        readU32 m.memAfter (m.resultPtr + 4) + readU32 m.memAfter (m.resultPtr + 8) ≤
          m.memAfter.length →
        m.parsePayload (sliceBytes m.memAfter (readU32 m.memAfter (m.resultPtr + 4))
            (readU32 m.memAfter (m.resultPtr + 8))) = some (.obj fs) →
        readU32 m.memAfter m.resultPtr = 1 →
        (SchemaLlmEngine.rehydrate m true data codec schema).1 =
          .error (.jslError (dictGetD fs "code" (.str "unknown"))
            (dictGetD fs "message" (.str "unknown error"))
            (dictGetD fs "path" (.str "")))) ∧
    (∀ (m : ModuleRun) (args : List (List Nat)) (fs : List (String × Json)),
        m.hasAbiExport = true → m.abiVersion = 1 →
        allocsOk m args 0 = true →
        m.funcTraps = false → m.resultPtr ≠ 0 →
        m.resultPtr + 12 ≤ m.memAfter.length →
        readU32 m.memAfter (m.resultPtr + 4) + readU32 m.memAfter (m.resultPtr + 8) ≤
          m.memAfter.length →
        m.parsePayload (sliceBytes m.memAfter (readU32 m.memAfter (m.resultPtr + 4))
            (readU32 m.memAfter (m.resultPtr + 8))) = some (.obj fs) →
        readU32 m.memAfter m.resultPtr = 1 →
        (LlmRoundtripEngine.callWasi m "jsl_rehydrate" args).1 =
          .error (.rehydrationError ("[" ++ pyStr (dictGetD fs "code" (.str "unknown")) ++
            "] " ++ pyStr (dictGetD fs "message" (.str "unknown error"))))) ∧
    (∀ (m : ModuleRun) (args : List (List Nat)) (payload : Json),
        m.hasAbiExport = true → m.abiVersion = 1 →
        allocsOk m args 0 = true →
        m.funcTraps = false → m.resultPtr ≠ 0 →
        m.resultPtr + 12 ≤ m.memAfter.length →
        readU32 m.memAfter (m.resultPtr + 4) + readU32 m.memAfter (m.resultPtr + 8) ≤
          m.memAfter.length →
        m.parsePayload (sliceBytes m.memAfter (readU32 m.memAfter (m.resultPtr + 4))
            (readU32 m.memAfter (m.resultPtr + 8))) = some payload →
        readU32 m.memAfter m.resultPtr = 1 →
        ∃ s, (LlmRoundtripEngine.callWasi m "jsl_rehydrate" args).1 =
          .error (.rehydrationError s)) := by
  have hre : strContains (lowerAscii "jsl_rehydrate") "rehydrat" = true := by decide
  refine ⟨?_, ?_, ?_⟩
  · intro m data codec schema fs hA ht hrp hhdr hbounds hparse h1
    have hres := callJsl_result m "jsl_rehydrate"
      [encodeUtf8 data.dumps, encodeUtf8 codec.dumps, encodeUtf8 schema.dumps] hA
    have hdec := tryDecodeA_decoded m "jsl_rehydrate" (.obj fs) ht hrp hhdr hbounds hparse
    unfold SchemaLlmEngine.rehydrate
    simp only [hres, hdec, h1, if_true, reduceIte]
  · intro m args fs he hver hA ht hrp hhdr hbounds hparse h1
    have hdec := tryDecodeC_decoded m "jsl_rehydrate" (.obj fs) ht hrp hhdr hbounds hparse
    rw [callWasi_result m "jsl_rehydrate" args he hver hA, hdec]
    simp [h1, hre]
  · intro m args payload he hver hA ht hrp hhdr hbounds hparse h1
    have hdec := tryDecodeC_decoded m "jsl_rehydrate" payload ht hrp hhdr hbounds hparse
    rw [callWasi_result m "jsl_rehydrate" args he hver hA, hdec, if_pos h1, if_pos hre]
    exact ⟨_, rfl⟩

/-- Witness for C6 (amended): a status-1 rehydrate payload with code and
message yields `RehydrationError("[c] m")` from the engine. -/
theorem rehydration_error_surfacing_witness :
    (LlmRoundtripEngine.callWasi
        ⟨true, 1, fun _ => 0, 0, false, 4,
          [0, 0, 0, 0, 1, 0, 0, 0, 0, 0, 0, 0, 0, 0, 0, 0],
          fun _ => some (.obj [("code", .str "c"), ("message", .str "m")])⟩
        "jsl_rehydrate" []).1 =
      .error (.rehydrationError "[c] m") :=
  rehydration_error_surfacing.2.1 _ [] [("code", .str "c"), ("message", .str "m")]
    rfl rfl rfl rfl (by decide) (by decide) (by decide) rfl rfl

/-! ### Lemmas for the spec-modelled round trip -/

theorem contains_iff_mem {l : List String} {a : String} :
    l.contains a = true ↔ a ∈ l := by
  induction l with
  | nil => simp
  | cons b rest ih =>
    simp only [List.contains_cons, Bool.or_eq_true, beq_iff_eq, ih, List.mem_cons]

namespace SpecModel

theorem assocLookup_some_mem {α : Type} {l : List (String × α)} {k : String} {v : α}
    (h : assocLookup l k = some v) : (k, v) ∈ l := by
  induction l with
  | nil => simp [assocLookup] at h
  | cons kv rest ih =>
    obtain ⟨k', v'⟩ := kv
    by_cases hk : k' = k
    · subst hk
      simp only [assocLookup] at h
      simp only [if_pos trivial, reduceIte] at h
      simp only [Option.some.injEq] at h
      subst h
      exact List.mem_cons_self _ _
    · simp only [assocLookup, if_neg hk] at h
      exact List.mem_cons_of_mem _ (ih h)

theorem assocLookup_eq_some_of_mem {α : Type} {l : List (String × α)} {k : String}
    {v : α} (hnd : (l.map Prod.fst).Nodup) (hmem : (k, v) ∈ l) :
    assocLookup l k = some v := by
  induction l with
  | nil => simp at hmem
  | cons kv rest ih =>
    obtain ⟨k', v'⟩ := kv
    simp only [List.map_cons, List.nodup_cons] at hnd
    rcases List.mem_cons.mp hmem with h | h
    · obtain ⟨rfl, rfl⟩ := Prod.mk.injEq .. ▸ h
      simp [assocLookup]
    · have hk : k' ≠ k := by
        intro e
        subst e
        exact hnd.1 (List.mem_map.mpr ⟨(k', v), h, rfl⟩)
      simp only [assocLookup, if_neg hk]
      exact ih hnd.2 h

theorem assocLookup_isSome_of_mem_keys {α : Type} {l : List (String × α)} {k : String}
    (hmem : k ∈ l.map Prod.fst) : (assocLookup l k).isSome = true := by
  induction l with
  | nil => simp at hmem
  | cons kv rest ih =>
    obtain ⟨k', v'⟩ := kv
    by_cases hk : k' = k
    · simp [assocLookup, hk]
    · simp only [List.map_cons, List.mem_cons] at hmem
      rcases hmem with h | h
      · exact absurd h.symm hk
      · simp only [assocLookup, if_neg hk]
        exact ih h

theorem assocLookup_filter_eq {α : Type} (p : String × α → Bool)
    {l : List (String × α)} {k : String}
    (hall : ∀ v, (k, v) ∈ l → p (k, v) = true) :
    assocLookup (l.filter p) k = assocLookup l k := by
  induction l with
  | nil => rfl
  | cons kv rest ih =>
    obtain ⟨k', v'⟩ := kv
    have ihr := ih (fun v hv => hall v (List.mem_cons_of_mem _ hv))
    by_cases hk : k' = k
    · subst hk
      have hp := hall v' (List.mem_cons_self _ _)
      simp [List.filter_cons, hp, assocLookup]
    · by_cases hp : p (k', v') = true
      · simp [List.filter_cons, hp, assocLookup, hk, ihr]
      · simp only [Bool.not_eq_true] at hp
        simp [List.filter_cons, hp, assocLookup, hk, ihr]

theorem assocLookup_filter_none {α : Type} (p : String × α → Bool)
    {l : List (String × α)} {k : String}
    (hall : ∀ v, (k, v) ∈ l → p (k, v) = false) :
    assocLookup (l.filter p) k = none := by
  induction l with
  | nil => rfl
  | cons kv rest ih =>
    obtain ⟨k', v'⟩ := kv
    have ihr := ih (fun v hv => hall v (List.mem_cons_of_mem _ hv))
    by_cases hk : k' = k
    · subst hk
      have hp := hall v' (List.mem_cons_self _ _)
      simp [List.filter_cons, hp, ihr]
    · by_cases hp : p (k', v') = true
      · simp [List.filter_cons, hp, assocLookup, hk, ihr]
      · simp only [Bool.not_eq_true] at hp
        simp [List.filter_cons, hp, ihr]

theorem keys_unique {α : Type} {l : List (String × α)} {k : String} {v w : α}
    (hnd : (l.map Prod.fst).Nodup) (hv : (k, v) ∈ l) (hw : (k, w) ∈ l) : v = w := by
  have h1 := assocLookup_eq_some_of_mem hnd hv
  have h2 := assocLookup_eq_some_of_mem hnd hw
  rw [h1] at h2
  injection h2

end SpecModel

theorem dictLookup_eq_assocLookup (l : List (String × Json)) (k : String) :
    dictLookup l k = SpecModel.assocLookup l k := by
  induction l with
  | nil => rfl
  | cons kv rest ih =>
    obtain ⟨k', v'⟩ := kv
    by_cases hk : k' = k <;> simp [dictLookup, SpecModel.assocLookup, hk, ih]


/-! ### Lemmas for the spec-modelled converter and rehydrator -/

namespace SpecModel

theorem allDistinct_iff_nodup {l : List String} :
    allDistinct l = true ↔ l.Nodup := by
  induction l with
  | nil => simp [allDistinct]
  | cons k rest ih =>
    simp only [allDistinct, Bool.and_eq_true, List.nodup_cons, ih]
    constructor
    · rintro ⟨h1, h2⟩
      refine ⟨fun hm => ?_, h2⟩
      rw [contains_iff_mem.mpr hm] at h1
      exact Bool.noConfusion h1
    · rintro ⟨h1, h2⟩
      refine ⟨?_, h2⟩
      cases hc : rest.contains k with
      | false => rfl
      | true => exact absurd (contains_iff_mem.mp hc) h1

theorem assocLookup_map_keyfun {α β : Type} (g : String → α → β)
    (l : List (String × α)) (k : String) :
    assocLookup (l.map (fun kv => (kv.1, g kv.1 kv.2))) k =
      (assocLookup l k).map (g k) := by
  induction l with
  | nil => rfl
  | cons kv rest ih =>
    obtain ⟨k', v⟩ := kv
    by_cases hk : k' = k
    · subst hk
      simp [assocLookup]
    · simp only [List.map_cons, assocLookup, if_neg hk]
      exact ih

theorem assocLookup_eq_none_of_not_mem {α : Type} {l : List (String × α)} {k : String}
    (h : k ∉ l.map Prod.fst) : assocLookup l k = none := by
  induction l with
  | nil => rfl
  | cons kv rest ih =>
    simp only [List.map_cons, List.mem_cons, not_or] at h
    simp only [assocLookup, if_neg (Ne.symm h.1)]
    exact ih h.2

theorem segPrefix_nil (p : List Seg) : segPrefix [] p = true := rfl

theorem segPrefix_cons (g : Seg) (a b : List Seg) :
    segPrefix (g :: a) (g :: b) = segPrefix a b := by
  simp [segPrefix]

theorem coveredBy_of_mem {ws : List Warning} {w : Warning} {p : List Seg}
    (hw : w ∈ ws) (hp : segPrefix w.ptr p = true) : coveredBy ws p = true := by
  unfold coveredBy
  rw [List.any_eq_true]
  exact ⟨w, hw, hp⟩

theorem droppedHas_of_mem {ds : List DroppedEntry} {e : DroppedEntry} {p : List Seg}
    {kw : String} (he : e ∈ ds) (hp : e.ptr = p) (hk : e.keyword = kw) :
    droppedHas ds p kw = true := by
  unfold droppedHas
  rw [List.any_eq_true]
  refine ⟨e, he, ?_⟩
  simp [hp, hk]

theorem droppedHas_shift {ds : List DroppedEntry} {p : List Seg} {kw : String}
    (g : Seg) (h : droppedHas ds p kw = true) :
    droppedHas (ds.map (shiftD g)) (g :: p) kw = true := by
  unfold droppedHas at h ⊢
  rw [List.any_eq_true] at h ⊢
  obtain ⟨e, he, hm⟩ := h
  rw [Bool.and_eq_true, beq_iff_eq, beq_iff_eq] at hm
  refine ⟨shiftD g e, List.mem_map.mpr ⟨e, he, rfl⟩, ?_⟩
  simp [shiftD, hm.1, hm.2]

theorem droppedHas_of_sub {ds Ds : List DroppedEntry} {p : List Seg} {kw : String}
    (hsub : ∀ x ∈ ds, x ∈ Ds) (h : droppedHas ds p kw = true) :
    droppedHas Ds p kw = true := by
  unfold droppedHas at h ⊢
  rw [List.any_eq_true] at h ⊢
  obtain ⟨e, he, hm⟩ := h
  exact ⟨e, hsub e he, hm⟩

theorem flatten_eq_nil_of_forall {α : Type} {L : List (List α)}
    (h : ∀ x ∈ L, x = []) : L.flatten = [] := by
  induction L with
  | nil => rfl
  | cons x rest ih =>
    rw [List.flatten_cons, h x (List.mem_cons_self _ _),
      ih (fun y hy => h y (List.mem_cons_of_mem _ hy)), List.nil_append]

theorem flatten_map_comm {α β : Type} (h : α → β) (L : List (List α)) :
    L.flatten.map h = (L.map (List.map h)).flatten := by
  induction L with
  | nil => rfl
  | cons x rest ih =>
    rw [List.flatten_cons, List.map_append, ih, List.map_cons, List.flatten_cons]

theorem rehydrate_nil (S : Schema) (v : Json) : rehydrate S [] v = (v, []) := rfl

theorem rehydrate_cons (S : Schema) (t : Transform) (ts : List Transform) (v : Json) :
    rehydrate S (t :: ts) v =
      ((applyInverse S (rehydrate S ts v).1 t).1,
       (rehydrate S ts v).2 ++ (applyInverse S (rehydrate S ts v).1 t).2) := rfl

theorem replayData_nil (S : Schema) (v : Json) : replayData S [] v = v := rfl

theorem replayData_cons (S : Schema) (t : Transform) (ts : List Transform) (v : Json) :
    replayData S (t :: ts) v = (applyInverse S (replayData S ts v) t).1 := rfl

theorem rehydrate_fst (S : Schema) (ts : List Transform) (v : Json) :
    (rehydrate S ts v).1 = replayData S ts v := by
  induction ts with
  | nil => rfl
  | cons t ts ih =>
    rw [rehydrate_cons, replayData_cons, ih]

theorem replayData_append (S : Schema) (xs ys : List Transform) (v : Json) :
    replayData S (xs ++ ys) v = replayData S xs (replayData S ys v) := by
  unfold replayData
  rw [List.foldr_append]

theorem rehydrate_append (S : Schema) (xs ys : List Transform) (v : Json) :
    rehydrate S (xs ++ ys) v =
      ((rehydrate S xs (rehydrate S ys v).1).1,
       (rehydrate S ys v).2 ++ (rehydrate S xs (rehydrate S ys v).1).2) := by
  induction xs with
  | nil => simp [rehydrate_nil]
  | cons t xs ih =>
    rw [List.cons_append, rehydrate_cons, ih, rehydrate_cons]
    simp [List.append_assoc]

theorem editAt_key_fst (f : Json → Json × List Warning) (k : String) (q : List Seg)
    (fields : List (String × Json)) :
    (editAt f (Seg.key k :: q) (.obj fields)).1 =
      .obj (fields.map (fun kv => if kv.1 = k then (kv.1, (editAt f q kv.2).1) else kv)) := by
  simp only [editAt, List.map_map]
  congr 1
  apply List.map_congr_left
  intro kv _
  by_cases hk : kv.1 = k <;> simp [hk, Function.comp]

theorem editAt_key_warn (f : Json → Json × List Warning) (k : String) (q : List Seg)
    (fields : List (String × Json)) :
    (editAt f (Seg.key k :: q) (.obj fields)).2 =
      (fields.map (fun kv => if kv.1 = k then (editAt f q kv.2).2 else [])).flatten := by
  simp only [editAt, List.map_map]
  congr 1
  apply List.map_congr_left
  intro kv _
  by_cases hk : kv.1 = k <;> simp [hk, Function.comp]

theorem editAt_items_fst (f : Json → Json × List Warning) (q : List Seg)
    (xs : List Json) :
    (editAt f (Seg.items :: q) (.arr xs)).1 =
      .arr (xs.map (fun x => (editAt f q x).1)) := by
  simp only [editAt, List.map_map]
  rfl

theorem editAt_items_warn (f : Json → Json × List Warning) (q : List Seg)
    (xs : List Json) :
    (editAt f (Seg.items :: q) (.arr xs)).2 =
      (xs.map (fun x => (editAt f q x).2)).flatten := by
  simp only [editAt, List.map_map]
  rfl

end SpecModel

namespace SpecModel

theorem editAt_mismatch_key_null (f : Json → Json × List Warning) (k : String)
    (q : List Seg) : editAt f (Seg.key k :: q) Json.null = (Json.null, []) := rfl

theorem coerceScalar_shift (g : Seg) (ty : String) (p : List Seg) (v : Json) :
    coerceScalar ty (g :: p) v =
      ((coerceScalar ty p v).1, (coerceScalar ty p v).2.map (shiftW g)) := by
  cases v with
  | str st =>
    by_cases hi : ty = "integer"
    · subst hi
      simp only [coerceScalar]
      cases parseIntStr st <;> simp [shiftW]
    · by_cases hb : ty = "boolean"
      · subst hb
        simp only [coerceScalar]
        by_cases h1 : st = "true" <;> by_cases h2 : st = "false" <;>
          simp [h1, h2, shiftW]
      · simp only [coerceScalar]
        split
        · exact absurd rfl hi
        · exact absurd rfl hb
        · simp [shiftW]
  | null => simp [coerceScalar, shiftW]
  | bool b => simp [coerceScalar, shiftW]
  | num n => simp [coerceScalar, shiftW]
  | arr xs => simp [coerceScalar, shiftW]
  | obj fs => simp [coerceScalar, shiftW]

theorem coerceScalar_fst (ty : String) (p p' : List Seg) (v : Json) :
    (coerceScalar ty p v).1 = (coerceScalar ty p' v).1 := by
  cases v with
  | str st =>
    by_cases hi : ty = "integer"
    · subst hi
      simp only [coerceScalar]
      cases parseIntStr st <;> simp
    · by_cases hb : ty = "boolean"
      · subst hb
        simp only [coerceScalar]
        by_cases h1 : st = "true" <;> by_cases h2 : st = "false" <;> simp [h1, h2]
      · simp only [coerceScalar]
        split
        · exact absurd rfl hi
        · exact absurd rfl hb
        · rfl
  | null => rfl
  | bool b => rfl
  | num n => rfl
  | arr xs => rfl
  | obj fs => rfl

theorem editAt_congr {f f' : Json → Json × List Warning}
    (h : ∀ v, f v = f' v) (q : List Seg) (u : Json) :
    editAt f q u = editAt f' q u := by
  have hf : f = f' := funext h
  rw [hf]

theorem editAt_fst_congr {f f' : Json → Json × List Warning}
    (h : ∀ v, (f v).1 = (f' v).1) :
    ∀ (q : List Seg) (u : Json), (editAt f q u).1 = (editAt f' q u).1 := by
  intro q
  induction q with
  | nil => exact h
  | cons g q ih =>
    intro u
    cases g with
    | key k =>
      cases u with
      | obj fields =>
        rw [editAt_key_fst, editAt_key_fst]
        congr 1
        apply List.map_congr_left
        intro kv _
        by_cases hk : kv.1 = k <;> simp [hk, ih]
      | null => rfl
      | bool b => rfl
      | num n => rfl
      | str s => rfl
      | arr xs => rfl
    | items =>
      cases u with
      | arr xs =>
        rw [editAt_items_fst, editAt_items_fst]
        congr 1
        apply List.map_congr_left
        intro x _
        exact ih x
      | null => rfl
      | bool b => rfl
      | num n => rfl
      | str s => rfl
      | obj fields => rfl

theorem editAt_warn_shift {f f' : Json → Json × List Warning} (g : Seg)
    (h : ∀ v, f' v = ((f v).1, (f v).2.map (shiftW g))) :
    ∀ (q : List Seg) (u : Json),
      editAt f' q u = ((editAt f q u).1, (editAt f q u).2.map (shiftW g)) := by
  intro q
  induction q with
  | nil => exact h
  | cons g' q ih =>
    intro u
    cases g' with
    | key k =>
      cases u with
      | obj fields =>
        refine Prod.ext ?_ ?_
        · rw [editAt_key_fst, editAt_key_fst]
          congr 1
          apply List.map_congr_left
          intro kv _
          by_cases hk : kv.1 = k <;> simp [hk, ih]
        · rw [editAt_key_warn, editAt_key_warn, flatten_map_comm]
          congr 1
          rw [List.map_map]
          apply List.map_congr_left
          intro kv _
          by_cases hk : kv.1 = k <;> simp [hk, ih, Function.comp]
      | null => rfl
      | bool b => rfl
      | num n => rfl
      | str s => rfl
      | arr xs => rfl
    | items =>
      cases u with
      | arr xs =>
        refine Prod.ext ?_ ?_
        · rw [editAt_items_fst, editAt_items_fst]
          congr 1
          apply List.map_congr_left
          intro x _
          simp [ih]
        · rw [editAt_items_warn, editAt_items_warn, flatten_map_comm]
          congr 1
          rw [List.map_map]
          apply List.map_congr_left
          intro x _
          simp [ih, Function.comp]
      | null => rfl
      | bool b => rfl
      | num n => rfl
      | str s => rfl
      | obj fields => rfl

theorem editAt_warn_nil {f : Json → Json × List Warning}
    (h : ∀ v, (f v).2 = []) :
    ∀ (q : List Seg) (u : Json), (editAt f q u).2 = [] := by
  intro q
  induction q with
  | nil => exact h
  | cons g q ih =>
    intro u
    cases g with
    | key k =>
      cases u with
      | obj fields =>
        rw [editAt_key_warn]
        apply flatten_eq_nil_of_forall
        intro x hx
        obtain ⟨kv, _, rfl⟩ := List.mem_map.mp hx
        by_cases hk : kv.1 = k <;> simp [hk, ih]
      | null => rfl
      | bool b => rfl
      | num n => rfl
      | str s => rfl
      | arr xs => rfl
    | items =>
      cases u with
      | arr xs =>
        rw [editAt_items_warn]
        apply flatten_eq_nil_of_forall
        intro x hx
        obtain ⟨y, _, rfl⟩ := List.mem_map.mp hx
        exact ih y
      | null => rfl
      | bool b => rfl
      | num n => rfl
      | str s => rfl
      | obj fields => rfl

theorem schemaAt_key_step (props : List (String × Schema)) (req : List String)
    (k : String) (sk : Schema) (q : List Seg)
    (hlk : assocLookup props k = some sk) :
    schemaAt (Seg.key k :: q) (.sobj props req) = schemaAt q sk := by
  simp [schemaAt, hlk]

theorem schemaAt_items_step (it : Schema) (q : List Seg) :
    schemaAt (Seg.items :: q) (.sarr it) = schemaAt q it := rfl

theorem isOptionalAt_key_step (props : List (String × Schema)) (req : List String)
    (k : String) (sk : Schema) (q : List Seg) (k2 : String)
    (hlk : assocLookup props k = some sk) :
    isOptionalAt (.sobj props req) (Seg.key k :: q) k2 = isOptionalAt sk q k2 := by
  unfold isOptionalAt
  rw [schemaAt_key_step props req k sk q hlk]

theorem isOptionalAt_items_step (it : Schema) (q : List Seg) (k2 : String) :
    isOptionalAt (.sarr it) (Seg.items :: q) k2 = isOptionalAt it q k2 := rfl

theorem isOptionalAt_nil (props : List (String × Schema)) (req : List String)
    (k : String) :
    isOptionalAt (.sobj props req) [] k = !(req.contains k) := rfl

theorem applyInverse_warn_promote (S : Schema) (v : Json) (p : List Seg) (k : String) :
    (applyInverse S v (.promote_optional_to_required_with_null p k)).2 = [] := by
  unfold applyInverse
  apply editAt_warn_nil
  intro w
  cases w with
  | obj fields =>
    simp only
    split <;> rfl
  | null => rfl
  | bool b => rfl
  | num n => rfl
  | str s => rfl
  | arr xs => rfl

end SpecModel

namespace SpecModel

theorem replayData_shift_key (props : List (String × Schema)) (req : List String)
    (k : String) (sk : Schema) (hlk : assocLookup props k = some sk)
    (ts : List Transform) (fields : List (String × Json)) :
    replayData (.sobj props req) (ts.map (shiftT (.key k))) (.obj fields) =
      .obj (fields.map (fun kv =>
        if kv.1 = k then (kv.1, replayData sk ts kv.2) else kv)) := by
  induction ts with
  | nil => simp [replayData_nil]
  | cons t ts ih =>
    rw [List.map_cons, replayData_cons, ih]
    cases t with
    | inline_ref p r => simp only [shiftT, applyInverse, replayData_cons]
    | expand_any_of_to_one_of p => simp only [shiftT, applyInverse, replayData_cons]
    | synthesize_additional_properties_false p =>
      simp only [shiftT, applyInverse, replayData_cons]
    | drop_format p f0 => simp only [shiftT, applyInverse, replayData_cons]
    | truncate_recursion p dep r => simp only [shiftT, applyInverse, replayData_cons]
    | wrap_scalar_as_string p ty =>
      simp only [shiftT, applyInverse, replayData_cons]
      rw [editAt_key_fst, List.map_map]
      congr 1
      apply List.map_congr_left
      intro kv _
      by_cases hk : kv.1 = k
      · simp only [Function.comp, hk, reduceIte]
        exact congrArg (fun z => (k, z))
          (editAt_fst_congr (fun v => coerceScalar_fst ty _ _ v) p _)
      · simp [Function.comp, hk]
    | promote_optional_to_required_with_null p k2 =>
      have hopt := isOptionalAt_key_step props req k sk p k2 hlk
      simp only [shiftT, applyInverse, replayData_cons, hopt]
      rw [editAt_key_fst, List.map_map]
      congr 1
      apply List.map_congr_left
      intro kv _
      by_cases hk : kv.1 = k <;> simp [Function.comp, hk]

theorem replayData_shift_items (it : Schema) (ts : List Transform) (xs : List Json) :
    replayData (.sarr it) (ts.map (shiftT .items)) (.arr xs) =
      .arr (xs.map (fun x => replayData it ts x)) := by
  induction ts with
  | nil => simp [replayData_nil]
  | cons t ts ih =>
    rw [List.map_cons, replayData_cons, ih]
    cases t with
    | inline_ref p r => simp only [shiftT, applyInverse, replayData_cons]
    | expand_any_of_to_one_of p => simp only [shiftT, applyInverse, replayData_cons]
    | synthesize_additional_properties_false p =>
      simp only [shiftT, applyInverse, replayData_cons]
    | drop_format p f0 => simp only [shiftT, applyInverse, replayData_cons]
    | truncate_recursion p dep r => simp only [shiftT, applyInverse, replayData_cons]
    | wrap_scalar_as_string p ty =>
      simp only [shiftT, applyInverse, replayData_cons]
      rw [editAt_items_fst, List.map_map]
      congr 1
      apply List.map_congr_left
      intro x _
      simp only [Function.comp]
      exact editAt_fst_congr (fun v => coerceScalar_fst ty _ _ v) p _
    | promote_optional_to_required_with_null p k2 =>
      have hopt := isOptionalAt_items_step it p k2
      simp only [shiftT, applyInverse, replayData_cons, hopt]
      rw [editAt_items_fst, List.map_map]
      congr 1

theorem rehydrate_warn_shift_key (props : List (String × Schema)) (req : List String)
    (k : String) (sk : Schema) (hlk : assocLookup props k = some sk)
    (ts : List Transform) (fields : List (String × Json))
    (kv : String × Json) (hkv : kv ∈ fields) (hk : kv.1 = k) :
    ∀ w ∈ (rehydrate sk ts kv.2).2,
      shiftW (.key k) w ∈
        (rehydrate (.sobj props req) (ts.map (shiftT (.key k))) (.obj fields)).2 := by
  induction ts with
  | nil =>
    intro w hw
    rw [rehydrate_nil] at hw
    exact absurd hw (List.not_mem_nil w)
  | cons t ts ih =>
    intro w hw
    rw [rehydrate_cons, List.mem_append] at hw
    rw [List.map_cons, rehydrate_cons, List.mem_append]
    rcases hw with hw | hw
    · exact Or.inl (ih w hw)
    · right
      rw [rehydrate_fst] at hw ⊢
      rw [replayData_shift_key props req k sk hlk ts fields]
      cases t with
      | inline_ref p r =>
        simp only [applyInverse] at hw
        exact absurd hw (List.not_mem_nil w)
      | expand_any_of_to_one_of p =>
        simp only [applyInverse] at hw
        exact absurd hw (List.not_mem_nil w)
      | synthesize_additional_properties_false p =>
        simp only [applyInverse] at hw
        exact absurd hw (List.not_mem_nil w)
      | drop_format p f0 =>
        simp only [applyInverse] at hw
        exact absurd hw (List.not_mem_nil w)
      | truncate_recursion p dep r =>
        simp only [applyInverse, List.mem_singleton] at hw
        subst hw
        simp [shiftT, applyInverse, shiftW]
      | wrap_scalar_as_string p ty =>
        simp only [applyInverse] at hw
        simp only [shiftT, applyInverse]
        rw [editAt_key_warn, List.mem_flatten]
        refine ⟨(editAt (coerceScalar ty (Seg.key k :: p)) p (replayData sk ts kv.2)).2,
          ?_, ?_⟩
        · rw [List.mem_map]
          refine ⟨(kv.1, replayData sk ts kv.2), ?_, ?_⟩
          · rw [List.mem_map]
            exact ⟨kv, hkv, by rw [if_pos hk]⟩
          · simp [hk]
        · rw [editAt_warn_shift (Seg.key k)
            (fun v => coerceScalar_shift (Seg.key k) ty p v) p (replayData sk ts kv.2)]
          exact List.mem_map.mpr ⟨w, hw, rfl⟩
      | promote_optional_to_required_with_null p k2 =>
        rw [applyInverse_warn_promote] at hw
        exact absurd hw (List.not_mem_nil w)

theorem rehydrate_warn_shift_items (it : Schema) (ts : List Transform)
    (xs : List Json) (x : Json) (hx : x ∈ xs) :
    ∀ w ∈ (rehydrate it ts x).2,
      shiftW .items w ∈ (rehydrate (.sarr it) (ts.map (shiftT .items)) (.arr xs)).2 := by
  induction ts with
  | nil =>
    intro w hw
    rw [rehydrate_nil] at hw
    exact absurd hw (List.not_mem_nil w)
  | cons t ts ih =>
    intro w hw
    rw [rehydrate_cons, List.mem_append] at hw
    rw [List.map_cons, rehydrate_cons, List.mem_append]
    rcases hw with hw | hw
    · exact Or.inl (ih w hw)
    · right
      rw [rehydrate_fst] at hw ⊢
      rw [replayData_shift_items it ts xs]
      cases t with
      | inline_ref p r =>
        simp only [applyInverse] at hw
        exact absurd hw (List.not_mem_nil w)
      | expand_any_of_to_one_of p =>
        simp only [applyInverse] at hw
        exact absurd hw (List.not_mem_nil w)
      | synthesize_additional_properties_false p =>
        simp only [applyInverse] at hw
        exact absurd hw (List.not_mem_nil w)
      | drop_format p f0 =>
        simp only [applyInverse] at hw
        exact absurd hw (List.not_mem_nil w)
      | truncate_recursion p dep r =>
        simp only [applyInverse, List.mem_singleton] at hw
        subst hw
        simp [shiftT, applyInverse, shiftW]
      | wrap_scalar_as_string p ty =>
        simp only [applyInverse] at hw
        simp only [shiftT, applyInverse]
        rw [editAt_items_warn, List.mem_flatten]
        refine ⟨(editAt (coerceScalar ty (Seg.items :: p)) p (replayData it ts x)).2,
          ?_, ?_⟩
        · rw [List.mem_map]
          exact ⟨replayData it ts x, List.mem_map.mpr ⟨x, hx, rfl⟩, rfl⟩
        · rw [editAt_warn_shift Seg.items
            (fun v => coerceScalar_shift Seg.items ty p v) p (replayData it ts x)]
          exact List.mem_map.mpr ⟨w, hw, rfl⟩
      | promote_optional_to_required_with_null p k2 =>
        rw [applyInverse_warn_promote] at hw
        exact absurd hw (List.not_mem_nil w)

end SpecModel

namespace SpecModel

theorem convert_sarr_eq (P : TargetProfile) (d : Nat) (it : Schema) :
    convert P (d + 1) (.sarr it) =
      (.carr (convert P d it).1,
       (convert P d it).2.1.map (shiftT .items),
       (convert P d it).2.2.map (shiftD .items)) := rfl

theorem convert_sobj_eq (P : TargetProfile) (d : Nat)
    (props : List (String × Schema)) (req : List String) :
    convert P (d + 1) (.sobj props req) =
      (.cobj (props.map (fun kv =>
          (kv.1, (P.require_all_properties_in_required && !(req.contains kv.1),
                  (convert P d kv.2).1))))
        (if P.require_all_properties_in_required then props.map Prod.fst else req)
        P.require_additional_properties_false,
       (props.map (fun kv => (convert P d kv.2).2.1.map (shiftT (.key kv.1)))).flatten
         ++ ((if P.require_all_properties_in_required then
              (optKeys props req).map
                (fun k => Transform.promote_optional_to_required_with_null [] k)
            else [])
         ++ (if P.require_additional_properties_false then
              [Transform.synthesize_additional_properties_false []]
            else [])),
       (props.map (fun kv => (convert P d kv.2).2.2.map (shiftD (.key kv.1)))).flatten) := by
  simp only [convert, optKeys, List.map_map, Function.comp_def, List.append_assoc]

theorem promoteKeep_nil (req : List String) (f : String × Json) :
    promoteKeep req [] f = true := by
  simp [promoteKeep]

theorem promoteKeep_cons_ne (req : List String) (k : String) (ps : List String)
    (f : String × Json) (hfk : f.1 ≠ k) :
    promoteKeep req (k :: ps) f = promoteKeep req ps f := by
  simp [promoteKeep, List.contains_cons, hfk]

theorem applyInverse_promote_skip (S : Schema) (k : String)
    (fields : List (String × Json))
    (h : (match dictLookup fields k with
         | some Json.null => true
         | _ => false) = false ∨ isOptionalAt S [] k = false) :
    applyInverse S (.obj fields) (.promote_optional_to_required_with_null [] k) =
      (.obj fields, []) := by
  simp only [applyInverse, editAt]
  rcases h with h | h
  · simp only [h, Bool.false_and, Bool.false_eq_true, if_false, reduceIte]
  · simp only [h, Bool.and_false, Bool.false_eq_true, if_false, reduceIte]

theorem applyInverse_promote_fire (S : Schema) (k : String)
    (fields : List (String × Json))
    (h1 : dictLookup fields k = some Json.null)
    (h2 : isOptionalAt S [] k = true) :
    applyInverse S (.obj fields) (.promote_optional_to_required_with_null [] k) =
      (.obj (fields.filter (fun f => f.1 != k)), []) := by
  simp only [applyInverse, editAt, h1, h2, Bool.and_true, if_true, reduceIte]

theorem replayData_promotes (props : List (String × Schema)) (req : List String)
    (ps : List String) (fields : List (String × Json))
    (hfnd : (fields.map Prod.fst).Nodup) :
    replayData (.sobj props req)
      (ps.map (fun k => Transform.promote_optional_to_required_with_null [] k))
      (.obj fields) =
      .obj (fields.filter (promoteKeep req ps)) := by
  induction ps with
  | nil =>
    simp only [List.map_nil, replayData_nil]
    congr 1
    exact (List.filter_eq_self.mpr (fun f _ => promoteKeep_nil req f)).symm
  | cons k ps ih =>
    simp only [List.map_cons, replayData_cons, ih]
    by_cases hreq : req.contains k = true
    · rw [applyInverse_promote_skip (.sobj props req) k _
        (Or.inr (by rw [isOptionalAt_nil, hreq]; rfl))]
      dsimp only
      congr 1
      refine List.filter_congr ?_
      intro f hf
      by_cases hfk : f.1 = k
      · have hknm : k ∈ req := contains_iff_mem.mp hreq
        simp [promoteKeep, hfk, hreq, List.contains_cons, contains_iff_mem, hknm]
      · exact (promoteKeep_cons_ne req k ps f hfk).symm
    · have hreqf : req.contains k = false := by simpa using hreq
      have hknm : k ∉ req := fun hm => by
        rw [contains_iff_mem.mpr hm] at hreqf
        exact Bool.noConfusion hreqf
      have hopt : isOptionalAt (.sobj props req) [] k = true := by
        rw [isOptionalAt_nil, hreqf]
        rfl
      cases hnl : (match dictLookup (fields.filter (promoteKeep req ps)) k with
        | some Json.null => true
        | _ => false) with
      | true =>
        have hlk : dictLookup (fields.filter (promoteKeep req ps)) k =
            some Json.null := by
          revert hnl
          cases hd : dictLookup (fields.filter (promoteKeep req ps)) k with
          | none => simp
          | some v => cases v <;> simp
        have hmem : (k, Json.null) ∈ fields := by
          have hm := assocLookup_some_mem
            ((dictLookup_eq_assocLookup _ _) ▸ hlk)
          exact (List.mem_filter.mp hm).1
        rw [applyInverse_promote_fire (.sobj props req) k _ hlk hopt]
        dsimp only
        congr 1
        rw [List.filter_filter]
        refine List.filter_congr ?_
        intro f hf
        obtain ⟨f1, f2⟩ := f
        by_cases hfk : f1 = k
        · subst hfk
          have hf2 : f2 = Json.null := keys_unique hfnd hf hmem
          subst hf2
          simp [promoteKeep, hreqf, List.contains_cons, Json.isNull,
            contains_iff_mem, hknm]
        · have h1 := promoteKeep_cons_ne req k ps (f1, f2) hfk
          simp [h1, hfk]
      | false =>
        have hnot : dictLookup (fields.filter (promoteKeep req ps)) k ≠
            some Json.null := by
          intro heq
          rw [heq] at hnl
          exact Bool.noConfusion hnl
        rw [applyInverse_promote_skip (.sobj props req) k _ (Or.inl hnl)]
        dsimp only
        congr 1
        refine List.filter_congr ?_
        intro f hf
        obtain ⟨f1, f2⟩ := f
        by_cases hfk : f1 = k
        · subst hfk
          by_cases hkps : ps.contains f1 = true
          · have hpm : f1 ∈ ps := contains_iff_mem.mp hkps
            simp [promoteKeep, List.contains_cons, hkps, hreqf,
              contains_iff_mem, hknm, hpm]
          · have hf2 : f2 ≠ Json.null := by
              intro hz
              subst hz
              have hkeep : promoteKeep req ps (f1, Json.null) = true := by
                have hpm : f1 ∉ ps := fun hm => hkps (contains_iff_mem.mpr hm)
                simp [promoteKeep, contains_iff_mem, hpm]
              have hlk2 : dictLookup (fields.filter (promoteKeep req ps)) f1 =
                  some Json.null := by
                rw [dictLookup_eq_assocLookup]
                rw [assocLookup_filter_eq (promoteKeep req ps) (fun v hv => by
                  have hveq : v = Json.null := keys_unique hfnd hv hf
                  subst hveq
                  exact hkeep)]
                exact assocLookup_eq_some_of_mem hfnd hf
              exact hnot hlk2
            cases f2 with
            | null => exact absurd rfl hf2
            | bool b => simp [promoteKeep, List.contains_cons, hkps, hreqf, Json.isNull]
            | num n => simp [promoteKeep, List.contains_cons, hkps, hreqf, Json.isNull]
            | str s => simp [promoteKeep, List.contains_cons, hkps, hreqf, Json.isNull]
            | arr xs => simp [promoteKeep, List.contains_cons, hkps, hreqf, Json.isNull]
            | obj fs => simp [promoteKeep, List.contains_cons, hkps, hreqf, Json.isNull]
        · exact (promoteKeep_cons_ne req k ps (f1, f2) hfk).symm

theorem rehydrate_warn_promotes (props : List (String × Schema)) (req : List String)
    (ps : List String) (v : Json) :
    (rehydrate (.sobj props req)
      (ps.map (fun k => Transform.promote_optional_to_required_with_null [] k))
      v).2 = [] := by
  induction ps with
  | nil => rfl
  | cons k ps ih =>
    rw [List.map_cons, rehydrate_cons, ih, applyInverse_warn_promote]
    rfl

theorem replayData_blocks (P : TargetProfile) (d : Nat)
    (bigProps : List (String × Schema)) (bigReq : List String) :
    ∀ (props : List (String × Schema)),
      (∀ kv ∈ props, assocLookup bigProps kv.1 = some kv.2) →
      (props.map Prod.fst).Nodup →
      ∀ (fields : List (String × Json)),
      replayData (.sobj bigProps bigReq)
        ((props.map (fun kv => (convert P d kv.2).2.1.map (shiftT (.key kv.1)))).flatten)
        (.obj fields) =
      .obj (fields.map (fun kv =>
        match assocLookup props kv.1 with
        | some sk => (kv.1, replayData sk (convert P d sk).2.1 kv.2)
        | none => kv)) := by
  intro props
  induction props with
  | nil =>
    intro _ _ fields
    simp [replayData_nil, assocLookup]
  | cons kv0 rest ih =>
    intro hin hnd fields
    obtain ⟨k0, s0⟩ := kv0
    have hndr : (rest.map Prod.fst).Nodup := by
      simp only [List.map_cons, List.nodup_cons] at hnd
      exact hnd.2
    have hk0nm : k0 ∉ rest.map Prod.fst := by
      simp only [List.map_cons, List.nodup_cons] at hnd
      exact hnd.1
    rw [List.map_cons, List.flatten_cons, replayData_append]
    rw [ih (fun kv hkv => hin kv (List.mem_cons_of_mem _ hkv)) hndr fields]
    rw [replayData_shift_key bigProps bigReq k0 s0
      (hin (k0, s0) (List.mem_cons_self _ _)) _ _]
    rw [List.map_map]
    congr 1
    apply List.map_congr_left
    intro kv _
    by_cases hk : kv.1 = k0
    · have hnone : assocLookup rest k0 = none :=
        assocLookup_eq_none_of_not_mem hk0nm
      simp [Function.comp, hnone, hk, assocLookup]
    · cases hlr : assocLookup rest kv.1 with
      | some sk => simp [Function.comp, hlr, hk, assocLookup, Ne.symm hk]
      | none => simp [Function.comp, hlr, hk, assocLookup, Ne.symm hk]

theorem rehydrate_blocks_warn (P : TargetProfile) (d : Nat)
    (bigProps : List (String × Schema)) (bigReq : List String) :
    ∀ (props : List (String × Schema)),
      (∀ kv ∈ props, assocLookup bigProps kv.1 = some kv.2) →
      (props.map Prod.fst).Nodup →
      ∀ (fields : List (String × Json)) (kv : String × Json), kv ∈ fields →
      ∀ (sk : Schema), assocLookup props kv.1 = some sk →
      ∀ w ∈ (rehydrate sk (convert P d sk).2.1 kv.2).2,
        shiftW (.key kv.1) w ∈
          (rehydrate (.sobj bigProps bigReq)
            ((props.map (fun kv' =>
              (convert P d kv'.2).2.1.map (shiftT (.key kv'.1)))).flatten)
            (.obj fields)).2 := by
  intro props
  induction props with
  | nil =>
    intro _ _ fields kv _ sk hsk w _
    simp [assocLookup] at hsk
  | cons kv0 rest ih =>
    intro hin hnd fields kv hkv sk hsk w hw
    obtain ⟨k0, s0⟩ := kv0
    have hndr : (rest.map Prod.fst).Nodup := by
      simp only [List.map_cons, List.nodup_cons] at hnd
      exact hnd.2
    have hk0nm : k0 ∉ rest.map Prod.fst := by
      simp only [List.map_cons, List.nodup_cons] at hnd
      exact hnd.1
    rw [List.map_cons, List.flatten_cons, rehydrate_append, List.mem_append]
    by_cases hk : kv.1 = k0
    · right
      have hs0 : sk = s0 := by
        rw [hk] at hsk
        simp [assocLookup] at hsk
        exact hsk.symm
      rw [hs0] at hw
      have hnone : assocLookup rest kv.1 = none := by
        apply assocLookup_eq_none_of_not_mem
        rw [hk]
        exact hk0nm
      have hdat : (rehydrate (.sobj bigProps bigReq)
          ((rest.map (fun kv' =>
            (convert P d kv'.2).2.1.map (shiftT (.key kv'.1)))).flatten)
          (.obj fields)).1 =
          .obj (fields.map (fun kv' =>
            match assocLookup rest kv'.1 with
            | some sk' => (kv'.1, replayData sk' (convert P d sk').2.1 kv'.2)
            | none => kv')) := by
        rw [rehydrate_fst]
        exact replayData_blocks P d bigProps bigReq rest
          (fun kv' hkv' => hin kv' (List.mem_cons_of_mem _ hkv')) hndr fields
      rw [hdat, hk]
      have hkvmem : kv ∈ fields.map (fun kv' =>
          match assocLookup rest kv'.1 with
          | some sk' => (kv'.1, replayData sk' (convert P d sk').2.1 kv'.2)
          | none => kv') := by
        refine List.mem_map.mpr ⟨kv, hkv, ?_⟩
        rw [hnone]
      exact rehydrate_warn_shift_key bigProps bigReq k0 s0
        (hin (k0, s0) (List.mem_cons_self _ _)) (convert P d s0).2.1 _ kv hkvmem hk w hw
    · left
      have hsk' : assocLookup rest kv.1 = some sk := by
        rw [show assocLookup ((k0, s0) :: rest) kv.1 =
          assocLookup rest kv.1 from by simp [assocLookup, Ne.symm hk]] at hsk
        exact hsk
      exact ih (fun kv' hkv' => hin kv' (List.mem_cons_of_mem _ hkv')) hndr
        fields kv hkv sk hsk' w hw

end SpecModel

namespace SpecModel

theorem conformsFields_mem (matcher : String → String → Bool)
    (props : List (String × Bool × ConvSchema)) (apf : Bool) :
    ∀ (l : List (String × Json)), conformsFields matcher props apf l = true →
    ∀ kv ∈ l, (match assocLookup props kv.1 with
      | some bc => (bc.1 && kv.2.isNull) || conformsConv matcher bc.2 kv.2
      | none => !apf) = true := by
  intro l
  induction l with
  | nil =>
    intro _ kv hkv
    exact absurd hkv (List.not_mem_nil kv)
  | cons x rest ih =>
    obtain ⟨k, v⟩ := x
    intro h kv hkv
    simp only [conformsFields, Bool.and_eq_true] at h
    rcases List.mem_cons.mp hkv with rfl | hkv
    · exact h.1
    · exact ih h.2 kv hkv

theorem conformsElems_mem (matcher : String → String → Bool) (it : ConvSchema) :
    ∀ (xs : List Json), conformsElems matcher it xs = true →
    ∀ x ∈ xs, conformsConv matcher it x = true := by
  intro xs
  induction xs with
  | nil =>
    intro _ x hx
    exact absurd hx (List.not_mem_nil x)
  | cons y rest ih =>
    intro h x hx
    simp only [conformsElems, Bool.and_eq_true] at h
    rcases List.mem_cons.mp hx with rfl | hx
    · exact h.1
    · exact ih h.2 x hx

theorem propsWF_mem :
    ∀ (props : List (String × Schema)), propsWF props = true →
    ∀ kv ∈ props, schemaWF kv.2 = true := by
  intro props
  induction props with
  | nil =>
    intro _ kv hkv
    exact absurd hkv (List.not_mem_nil kv)
  | cons x rest ih =>
    intro h kv hkv
    simp only [propsWF, Bool.and_eq_true] at h
    rcases List.mem_cons.mp hkv with rfl | hkv
    · exact h.1
    · exact ih h.2 kv hkv

theorem fieldsKeysDistinct_mem :
    ∀ (fields : List (String × Json)), fieldsKeysDistinct fields = true →
    ∀ kv ∈ fields, dataKeysDistinct kv.2 = true := by
  intro fields
  induction fields with
  | nil =>
    intro _ kv hkv
    exact absurd hkv (List.not_mem_nil kv)
  | cons x rest ih =>
    intro h kv hkv
    simp only [fieldsKeysDistinct, Bool.and_eq_true] at h
    rcases List.mem_cons.mp hkv with rfl | hkv
    · exact h.1
    · exact ih h.2 kv hkv

theorem elemsKeysDistinct_mem :
    ∀ (xs : List Json), elemsKeysDistinct xs = true →
    ∀ x ∈ xs, dataKeysDistinct x = true := by
  intro xs
  induction xs with
  | nil =>
    intro _ x hx
    exact absurd hx (List.not_mem_nil x)
  | cons y rest ih =>
    intro h x hx
    simp only [elemsKeysDistinct, Bool.and_eq_true] at h
    rcases List.mem_cons.mp hx with rfl | hx
    · exact h.1
    · exact ih h.2 x hx

theorem validateFields_mem (matcher : String → String → Bool)
    (props : List (String × Schema)) :
    ∀ (l : List (String × Json)) (e : List Seg × String),
      e ∈ validateFields matcher props l →
      ∃ kv ∈ l, ∃ sk, assocLookup props kv.1 = some sk ∧
        ∃ e', e' ∈ validate matcher sk kv.2 ∧ e = (Seg.key kv.1 :: e'.1, e'.2) := by
  intro l
  induction l with
  | nil =>
    intro e he
    simp [validateFields] at he
  | cons x rest ih =>
    obtain ⟨k, v⟩ := x
    intro e he
    simp only [validateFields] at he
    rw [List.mem_append] at he
    rcases he with he | he
    · cases hlk : assocLookup props k with
      | none =>
        rw [hlk] at he
        simp at he
      | some sk =>
        rw [hlk] at he
        obtain ⟨e', he', rfl⟩ := List.mem_map.mp he
        exact ⟨(k, v), List.mem_cons_self _ _, sk, hlk, e', he', rfl⟩
    · obtain ⟨kv, hkv, sk, hsk, e', he', heq⟩ := ih e he
      exact ⟨kv, List.mem_cons_of_mem _ hkv, sk, hsk, e', he', heq⟩

theorem validateElems_mem (matcher : String → String → Bool) (it : Schema) :
    ∀ (xs : List Json) (e : List Seg × String), e ∈ validateElems matcher it xs →
      ∃ x ∈ xs, ∃ e', e' ∈ validate matcher it x ∧ e = (Seg.items :: e'.1, e'.2) := by
  intro xs
  induction xs with
  | nil =>
    intro e he
    simp [validateElems] at he
  | cons y rest ih =>
    intro e he
    simp only [validateElems] at he
    rw [List.mem_append] at he
    rcases he with he | he
    · obtain ⟨e', he', rfl⟩ := List.mem_map.mp he
      exact ⟨y, List.mem_cons_self _ _, e', he', rfl⟩
    · obtain ⟨x, hx, e', he', heq⟩ := ih e he
      exact ⟨x, List.mem_cons_of_mem _ hx, e', he', heq⟩

theorem dictLookup_isSome_map (g : String × Json → String × Json)
    (hg : ∀ kv, (g kv).1 = kv.1) :
    ∀ (l : List (String × Json)) (k : String),
      (dictLookup (l.map g) k).isSome = (dictLookup l k).isSome := by
  intro l
  induction l with
  | nil => intro k; rfl
  | cons kv rest ih =>
    intro k
    by_cases hk : kv.1 = k
    · rw [List.map_cons]
      rw [show dictLookup (g kv :: rest.map g) k = some (g kv).2 from by
        rw [dictLookup_eq_assocLookup]
        show (if (g kv).1 = k then some (g kv).2 else _) = some (g kv).2
        rw [if_pos (by rw [hg kv]; exact hk)]]
      rw [show dictLookup (kv :: rest) k = some kv.2 from by
        rw [dictLookup_eq_assocLookup]
        show (if kv.1 = k then some kv.2 else _) = some kv.2
        rw [if_pos hk]]
      rfl
    · rw [List.map_cons]
      rw [show dictLookup (g kv :: rest.map g) k = dictLookup (rest.map g) k from by
        rw [dictLookup_eq_assocLookup, dictLookup_eq_assocLookup]
        show (if (g kv).1 = k then _ else assocLookup (rest.map g) k) = _
        rw [if_neg (by rw [hg kv]; exact hk)]]
      rw [show dictLookup (kv :: rest) k = dictLookup rest k from by
        rw [dictLookup_eq_assocLookup, dictLookup_eq_assocLookup]
        show (if kv.1 = k then _ else assocLookup rest k) = _
        rw [if_neg hk]]
      exact ih k

end SpecModel

namespace SpecModel

/-- Core round-trip soundness on the modelled fragment, by induction on
the depth budget: every validation error of the rehydrated document is
either recorded in `droppedConstraints` or lies at or below a schema
pointer carrying a rehydration warning. -/
theorem roundtrip_core (matcher : String → String → Bool) (P : TargetProfile) :
    ∀ (d : Nat) (s : Schema) (v : Json),
      schemaWF s = true → dataKeysDistinct v = true →
      conformsConv matcher (convert P d s).1 v = true →
      ∀ e ∈ validate matcher s (rehydrate s (convert P d s).2.1 v).1,
        droppedHas (convert P d s).2.2 e.1 e.2 = true ∨
        coveredBy (rehydrate s (convert P d s).2.1 v).2 e.1 = true := by
  intro d
  induction d with
  | zero =>
    intro s v _ _ _ e _
    right
    show coveredBy (rehydrate s [.truncate_recursion [] 0 ""] v).2 e.1 = true
    simp [rehydrate_cons, rehydrate_nil, applyInverse, coveredBy, segPrefix]
  | succ d ih =>
    intro s v hwf hnd hconf e he
    cases s with
    | sbool =>
      by_cases hwrap : P.wrap_scalar_types.contains "boolean" = true
      · have hwm : "boolean" ∈ P.wrap_scalar_types := contains_iff_mem.mp hwrap
        have hcv : convert P (d + 1) Schema.sbool =
            (.cstr none none, [.wrap_scalar_as_string [] "boolean"], []) := by
          simp [convert, hwm]
        rw [hcv] at hconf he ⊢
        cases v with
        | str st =>
          by_cases h1 : st = "true"
          · subst h1
            have hreh : rehydrate Schema.sbool
                [.wrap_scalar_as_string [] "boolean"] (.str "true") =
                (.bool true, []) := rfl
            rw [hreh] at he
            simp [validate] at he
          · by_cases h2 : st = "false"
            · subst h2
              have hreh : rehydrate Schema.sbool
                  [.wrap_scalar_as_string [] "boolean"] (.str "false") =
                  (.bool false, []) := rfl
              rw [hreh] at he
              simp [validate] at he
            · right
              have hreh : rehydrate Schema.sbool
                  [.wrap_scalar_as_string [] "boolean"] (.str st) =
                  (.str st, [⟨[], "type_coercion_failed"⟩]) := by
                simp [rehydrate_cons, rehydrate_nil, applyInverse, editAt,
                  coerceScalar, h1, h2]
              rw [hreh] at he ⊢
              simp [coveredBy, segPrefix]
        | null => simp [conformsConv] at hconf
        | bool b => simp [conformsConv] at hconf
        | num n => simp [conformsConv] at hconf
        | arr xs => simp [conformsConv] at hconf
        | obj fs => simp [conformsConv] at hconf
      · have hwm : "boolean" ∉ P.wrap_scalar_types :=
          fun hm => hwrap (contains_iff_mem.mpr hm)
        have hcv : convert P (d + 1) Schema.sbool = (.cbool, [], []) := by
          simp [convert, hwm]
        rw [hcv] at hconf he
        cases v with
        | bool b =>
          rw [rehydrate_nil] at he
          simp [validate] at he
        | null => simp [conformsConv] at hconf
        | str st => simp [conformsConv] at hconf
        | num n => simp [conformsConv] at hconf
        | arr xs => simp [conformsConv] at hconf
        | obj fs => simp [conformsConv] at hconf
    | sint mn =>
      by_cases hwrap : P.wrap_scalar_types.contains "integer" = true
      · have hwm : "integer" ∈ P.wrap_scalar_types := contains_iff_mem.mp hwrap
        have hc1 : (convert P (d + 1) (Schema.sint mn)).1 = .cstr none none := by
          cases mn <;> simp [convert, hwm]
        have hts : (convert P (d + 1) (Schema.sint mn)).2.1 =
            [.wrap_scalar_as_string [] "integer"] := by
          cases mn <;> simp [convert, hwm]
        rw [hc1] at hconf
        rw [hts] at he ⊢
        cases v with
        | str st =>
          cases hp : parseIntStr st with
          | some n =>
            have hreh : rehydrate (Schema.sint mn)
                [.wrap_scalar_as_string [] "integer"] (.str st) = (.num n, []) := by
              simp [rehydrate_cons, rehydrate_nil, applyInverse, editAt,
                coerceScalar, hp]
            rw [hreh] at he ⊢
            cases mn with
            | none => simp [validate] at he
            | some lo =>
              by_cases hlo : lo ≤ n
              · simp [validate, hlo] at he
              · left
                simp [validate, hlo] at he
                have hdd : (convert P (d + 1) (Schema.sint (some lo))).2.2 =
                    [⟨[], "minimum", toString lo,
                      "not representable on wrapped scalar"⟩] := by
                  simp [convert, hwm]
                rw [hdd]
                simp [he, droppedHas]
          | none =>
            have hreh : rehydrate (Schema.sint mn)
                [.wrap_scalar_as_string [] "integer"] (.str st) =
                (.str st, [⟨[], "type_coercion_failed"⟩]) := by
              simp [rehydrate_cons, rehydrate_nil, applyInverse, editAt,
                coerceScalar, hp]
            rw [hreh] at he ⊢
            right
            simp [coveredBy, segPrefix]
        | null => simp [conformsConv] at hconf
        | bool b => simp [conformsConv] at hconf
        | num n => simp [conformsConv] at hconf
        | arr xs => simp [conformsConv] at hconf
        | obj fs => simp [conformsConv] at hconf
      · have hwm : "integer" ∉ P.wrap_scalar_types :=
          fun hm => hwrap (contains_iff_mem.mpr hm)
        cases mn with
        | some lo =>
          by_cases hsup : P.supported_constraints.contains "minimum" = true
          · have hsm : "minimum" ∈ P.supported_constraints := contains_iff_mem.mp hsup
            have hcv : convert P (d + 1) (Schema.sint (some lo)) =
                (.cint (some lo), [], []) := by
              simp [convert, hwm, hsm]
            rw [hcv] at hconf he
            cases v with
            | num n =>
              rw [rehydrate_nil] at he
              simp only [conformsConv] at hconf
              simp [validate, hconf] at he
            | null => simp [conformsConv] at hconf
            | bool b => simp [conformsConv] at hconf
            | str st => simp [conformsConv] at hconf
            | arr xs => simp [conformsConv] at hconf
            | obj fs => simp [conformsConv] at hconf
          · have hsm : "minimum" ∉ P.supported_constraints :=
              fun hm => hsup (contains_iff_mem.mpr hm)
            have hcv : convert P (d + 1) (Schema.sint (some lo)) =
                (.cint none, [],
                 [⟨[], "minimum", toString lo, "unsupported by target"⟩]) := by
              simp [convert, hwm, hsm]
            rw [hcv] at hconf he ⊢
            cases v with
            | num n =>
              rw [rehydrate_nil] at he
              by_cases hlo : lo ≤ n
              · simp [validate, hlo] at he
              · left
                simp [validate, hlo] at he
                simp [he, droppedHas]
            | null => simp [conformsConv] at hconf
            | bool b => simp [conformsConv] at hconf
            | str st => simp [conformsConv] at hconf
            | arr xs => simp [conformsConv] at hconf
            | obj fs => simp [conformsConv] at hconf
        | none =>
          have hcv : convert P (d + 1) (Schema.sint none) = (.cint none, [], []) := by
            simp [convert, hwm]
          rw [hcv] at hconf he
          cases v with
          | num n =>
            rw [rehydrate_nil] at he
            simp [validate] at he
          | null => simp [conformsConv] at hconf
          | bool b => simp [conformsConv] at hconf
          | str st => simp [conformsConv] at hconf
          | arr xs => simp [conformsConv] at hconf
          | obj fs => simp [conformsConv] at hconf
    | sstr fmt pat =>
      have hshape : ∃ a b, (convert P (d + 1) (.sstr fmt pat)).1 =
          ConvSchema.cstr a b := ⟨_, _, rfl⟩
      obtain ⟨a, b, hab⟩ := hshape
      cases v with
      | str st =>
        have hreh : rehydrate (.sstr fmt pat)
            (convert P (d + 1) (.sstr fmt pat)).2.1 (.str st) = (.str st, []) := by
          cases fmt with
          | none =>
            rw [show (convert P (d + 1) (.sstr none pat)).2.1 = [] from rfl]
            exact rehydrate_nil _ _
          | some f0 =>
            by_cases hpol : P.string_format_policy.contains f0 = true
            · have hpm : f0 ∈ P.string_format_policy := contains_iff_mem.mp hpol
              rw [show (convert P (d + 1) (.sstr (some f0) pat)).2.1 = [] from by
                simp [convert, hpm]]
              exact rehydrate_nil _ _
            · have hpm : f0 ∉ P.string_format_policy :=
                fun hm => hpol (contains_iff_mem.mpr hm)
              rw [show (convert P (d + 1) (.sstr (some f0) pat)).2.1 =
                  [.drop_format [] f0] from by simp [convert, hpm]]
              rfl
        rw [hreh] at he ⊢
        cases pat with
        | none => simp [validate] at he
        | some pt =>
          by_cases hsup : P.supported_constraints.contains "pattern" = true
          · have hsm : "pattern" ∈ P.supported_constraints := contains_iff_mem.mp hsup
            have hc1 : ∃ a0, (convert P (d + 1) (.sstr fmt (some pt))).1 =
                ConvSchema.cstr a0 (some pt) := by
              cases fmt with
              | none => exact ⟨none, by simp [convert, hsm]⟩
              | some f0 =>
                by_cases hpol : P.string_format_policy.contains f0 = true
                · have hpm : f0 ∈ P.string_format_policy := contains_iff_mem.mp hpol
                  exact ⟨some f0, by simp [convert, hsm, hpm]⟩
                · have hpm : f0 ∉ P.string_format_policy :=
                    fun hm => hpol (contains_iff_mem.mpr hm)
                  exact ⟨none, by simp [convert, hsm, hpm]⟩
            obtain ⟨a0, hc1⟩ := hc1
            rw [hc1] at hconf
            simp only [conformsConv] at hconf
            simp [validate, hconf] at he
          · have hsm : "pattern" ∉ P.supported_constraints :=
              fun hm => hsup (contains_iff_mem.mpr hm)
            left
            have hdrop : (convert P (d + 1) (.sstr fmt (some pt))).2.2 =
                [⟨[], "pattern", pt, "unsupported by target"⟩] := by
              simp [convert, hsm]
            rw [hdrop]
            by_cases hm : matcher pt st = true
            · simp [validate, hm] at he
            · simp [validate, hm] at he
              simp [he, droppedHas]
      | null =>
        rw [hab] at hconf
        simp [conformsConv] at hconf
      | bool b0 =>
        rw [hab] at hconf
        simp [conformsConv] at hconf
      | num n =>
        rw [hab] at hconf
        simp [conformsConv] at hconf
      | arr xs =>
        rw [hab] at hconf
        simp [conformsConv] at hconf
      | obj fs =>
        rw [hab] at hconf
        simp [conformsConv] at hconf
    | sarr it =>
      rw [convert_sarr_eq] at hconf he ⊢
      dsimp only at hconf he ⊢
      cases v with
      | arr xs =>
        simp only [conformsConv] at hconf
        rw [rehydrate_fst, replayData_shift_items] at he
        simp only [validate] at he
        obtain ⟨x', hx', e', he', rfl⟩ := validateElems_mem matcher it _ e he
        obtain ⟨x, hx, rfl⟩ := List.mem_map.mp hx'
        have hcx : conformsConv matcher (convert P d it).1 x :=
          conformsElems_mem matcher _ xs hconf x hx
        have hndx : dataKeysDistinct x = true :=
          elemsKeysDistinct_mem xs (by simpa [dataKeysDistinct] using hnd) x hx
        have hwfi : schemaWF it = true := by simpa [schemaWF] using hwf
        have hihc := ih it x hwfi hndx hcx e' (by rw [rehydrate_fst]; exact he')
        rcases hihc with hdropc | hcovc
        · left
          exact droppedHas_shift Seg.items hdropc
        · right
          unfold coveredBy at hcovc
          rw [List.any_eq_true] at hcovc
          obtain ⟨w, hwmem, hwpre⟩ := hcovc
          refine coveredBy_of_mem
            (rehydrate_warn_shift_items it (convert P d it).2.1 xs x hx w hwmem) ?_
          show segPrefix (Seg.items :: w.ptr) (Seg.items :: e'.1) = true
          rw [segPrefix_cons]
          exact hwpre
      | null => simp [conformsConv] at hconf
      | bool b => simp [conformsConv] at hconf
      | num n => simp [conformsConv] at hconf
      | str st => simp [conformsConv] at hconf
      | obj fs => simp [conformsConv] at hconf
    | sobj props req =>
      rw [convert_sobj_eq] at hconf he ⊢
      dsimp only at hconf he ⊢
      have hpseq : (if P.require_all_properties_in_required = true then
            (optKeys props req).map
              (fun k => Transform.promote_optional_to_required_with_null [] k)
          else []) =
          (if P.require_all_properties_in_required = true then optKeys props req
           else []).map
            (fun k => Transform.promote_optional_to_required_with_null [] k) := by
        by_cases hra : P.require_all_properties_in_required = true <;> simp [hra]
      rw [hpseq] at he ⊢
      simp only [schemaWF, Bool.and_eq_true] at hwf
      obtain ⟨⟨hdk, hreqk⟩, hpwf⟩ := hwf
      rw [List.all_eq_true] at hreqk
      have hpnd : (props.map Prod.fst).Nodup := allDistinct_iff_nodup.mp hdk
      have hin : ∀ kv ∈ props, assocLookup props kv.1 = some kv.2 :=
        fun kv hkv => assocLookup_eq_some_of_mem hpnd hkv
      cases v with
      | obj fields =>
        simp only [dataKeysDistinct, Bool.and_eq_true] at hnd
        obtain ⟨hfk, hfkd⟩ := hnd
        have hfnd : (fields.map Prod.fst).Nodup := allDistinct_iff_nodup.mp hfk
        simp only [conformsConv, Bool.and_eq_true] at hconf
        obtain ⟨hreqp, hcf⟩ := hconf
        rw [List.all_eq_true] at hreqp
        have hcfm := conformsFields_mem matcher _ _ fields hcf
        have hsyn : rehydrate (.sobj props req)
            (if P.require_additional_properties_false = true then
              [Transform.synthesize_additional_properties_false []]
            else []) (.obj fields) = (.obj fields, []) := by
          by_cases hapf : P.require_additional_properties_false = true <;>
            simp [hapf, rehydrate_cons, rehydrate_nil, applyInverse]
        have hprom : rehydrate (.sobj props req)
            ((if P.require_all_properties_in_required = true then optKeys props req
              else []).map
              (fun k => Transform.promote_optional_to_required_with_null [] k))
            (.obj fields) =
            (.obj (fields.filter (promoteKeep req
              (if P.require_all_properties_in_required = true then optKeys props req
               else []))), []) := by
          refine Prod.ext ?_ ?_
          · rw [rehydrate_fst]
            exact replayData_promotes props req _ fields hfnd
          · exact rehydrate_warn_promotes props req _ _
        have hmid : rehydrate (.sobj props req)
            ((if P.require_all_properties_in_required = true then optKeys props req
              else []).map
              (fun k => Transform.promote_optional_to_required_with_null [] k) ++
             (if P.require_additional_properties_false = true then
               [Transform.synthesize_additional_properties_false []]
             else [])) (.obj fields) =
            (.obj (fields.filter (promoteKeep req
              (if P.require_all_properties_in_required = true then optKeys props req
               else []))), []) := by
          rw [rehydrate_append, hsyn]
          dsimp only
          rw [hprom]
          rfl
        have htot : rehydrate (.sobj props req)
            ((props.map (fun kv =>
              (convert P d kv.2).2.1.map (shiftT (Seg.key kv.1)))).flatten ++
             ((if P.require_all_properties_in_required = true then optKeys props req
               else []).map
               (fun k => Transform.promote_optional_to_required_with_null [] k) ++
              (if P.require_additional_properties_false = true then
                [Transform.synthesize_additional_properties_false []]
              else []))) (.obj fields) =
            rehydrate (.sobj props req)
              ((props.map (fun kv =>
                (convert P d kv.2).2.1.map (shiftT (Seg.key kv.1)))).flatten)
              (.obj (fields.filter (promoteKeep req
                (if P.require_all_properties_in_required = true then optKeys props req
                 else [])))) := by
          rw [rehydrate_append, hmid]
          rfl
        have hfnd' : ((fields.filter (promoteKeep req
            (if P.require_all_properties_in_required = true then optKeys props req
             else []))).map Prod.fst).Nodup :=
          List.Nodup.sublist ((List.filter_sublist _).map _) hfnd
        rw [htot] at he ⊢
        rw [rehydrate_fst,
          replayData_blocks P d props req props hin hpnd _] at he
        simp only [validate] at he
        rw [List.mem_append] at he
        rcases he with he | he
        · exfalso
          obtain ⟨k, hk, _⟩ := List.mem_map.mp he
          obtain ⟨hkreq, hknone⟩ := List.mem_filter.mp hk
          have hkpres : (dictLookup fields k).isSome = true := by
            apply hreqp
            by_cases hra : P.require_all_properties_in_required = true
            · rw [if_pos hra]
              exact contains_iff_mem.mp (hreqk k hkreq)
            · rw [if_neg hra]
              exact hkreq
          have hkeepk : ∀ v0, (k, v0) ∈ fields → promoteKeep req
              (if P.require_all_properties_in_required = true then optKeys props req
               else []) (k, v0) = true := by
            intro v0 _
            simp [promoteKeep]
            exact Or.inr hkreq
          have hsome' : (dictLookup (fields.filter (promoteKeep req
              (if P.require_all_properties_in_required = true then optKeys props req
               else []))) k).isSome = true := by
            rw [dictLookup_eq_assocLookup, assocLookup_filter_eq _ hkeepk,
              ← dictLookup_eq_assocLookup]
            exact hkpres
          have hsome'' := hsome'
          rw [← dictLookup_isSome_map (fun kv =>
            match assocLookup props kv.1 with
            | some sk => (kv.1, replayData sk (convert P d sk).2.1 kv.2)
            | none => kv)
            (fun kv => by cases h : assocLookup props kv.1 <;> simp [h]) _ k] at hsome''
          rw [Option.isNone_iff_eq_none] at hknone
          rw [hknone] at hsome''
          exact Bool.noConfusion hsome''
        · obtain ⟨kv', hkv', sk, hsk, e', he', rfl⟩ :=
            validateFields_mem matcher props _ e he
          obtain ⟨kv0, hkv0', himg⟩ := List.mem_map.mp hkv'
          have hkv0f : kv0 ∈ fields := (List.mem_filter.mp hkv0').1
          have hkeep : promoteKeep req
              (if P.require_all_properties_in_required = true then optKeys props req
               else []) kv0 = true := (List.mem_filter.mp hkv0').2
          cases hlk0 : assocLookup props kv0.1 with
          | none =>
            rw [hlk0] at himg
            subst himg
            rw [hlk0] at hsk
            exact Option.noConfusion hsk
          | some sk0 =>
            rw [hlk0] at himg
            subst himg
            try dsimp only at hsk he' ⊢
            rw [hlk0] at hsk
            have hsksk : sk0 = sk := by injection hsk
            subst hsksk
            have hwfc : schemaWF sk0 = true :=
              propsWF_mem props hpwf (kv0.1, sk0) (assocLookup_some_mem hlk0)
            have hndc : dataKeysDistinct kv0.2 = true :=
              fieldsKeysDistinct_mem fields hfkd kv0 hkv0f
            have h1 := assocLookup_map_keyfun
              (fun k0 v0 => (P.require_all_properties_in_required &&
                !(req.contains k0), (convert P d v0).1)) props kv0.1
            try dsimp only at h1
            rw [hlk0, Option.map_some'] at h1
            try dsimp only at h1
            have hcm : (((P.require_all_properties_in_required &&
                !(req.contains kv0.1)) && kv0.2.isNull) ||
                conformsConv matcher (convert P d sk0).1 kv0.2) = true := by
              have h0 := hcfm kv0 hkv0f
              rw [h1] at h0
              exact h0
            rw [Bool.or_eq_true] at hcm
            have hconfc : conformsConv matcher (convert P d sk0).1 kv0.2 = true := by
              rcases hcm with hb | hb
              · exfalso
                rw [Bool.and_eq_true, Bool.and_eq_true] at hb
                obtain ⟨⟨hra, hnreq⟩, hnull⟩ := hb
                rw [Bool.not_eq_true'] at hnreq
                have hknm : kv0.1 ∉ req := fun hm => by
                  rw [contains_iff_mem.mpr hm] at hnreq
                  exact Bool.noConfusion hnreq
                have hmemp : (kv0.1, sk0) ∈ props := assocLookup_some_mem hlk0
                have hopt : kv0.1 ∈ optKeys props req := by
                  unfold optKeys
                  exact List.mem_map.mpr
                    ⟨(kv0.1, sk0), List.mem_filter.mpr ⟨hmemp, by simp [hknm]⟩, rfl⟩
                rw [if_pos hra] at hkeep
                simp [promoteKeep, hnull] at hkeep
                rcases hkeep with h | h
                · exact h hopt
                · exact hknm h
              · exact hb
            have hihc := ih sk0 kv0.2 hwfc hndc hconfc e'
              (by rw [rehydrate_fst]; exact he')
            rcases hihc with hdropc | hcovc
            · left
              refine droppedHas_of_sub ?_ (droppedHas_shift (Seg.key kv0.1) hdropc)
              intro x hx
              rw [List.mem_flatten]
              exact ⟨(convert P d sk0).2.2.map (shiftD (Seg.key kv0.1)),
                List.mem_map.mpr ⟨(kv0.1, sk0), assocLookup_some_mem hlk0, rfl⟩, hx⟩
            · right
              unfold coveredBy at hcovc
              rw [List.any_eq_true] at hcovc
              obtain ⟨w, hwmem, hwpre⟩ := hcovc
              refine coveredBy_of_mem
                (rehydrate_blocks_warn P d props req props hin hpnd _ kv0 hkv0'
                  sk0 hlk0 w hwmem) ?_
              show segPrefix (Seg.key kv0.1 :: w.ptr) (Seg.key kv0.1 :: e'.1) = true
              rw [segPrefix_cons]
              exact hwpre
      | null => simp [conformsConv] at hconf
      | bool b => simp [conformsConv] at hconf
      | num n => simp [conformsConv] at hconf
      | str st => simp [conformsConv] at hconf
      | arr xs => simp [conformsConv] at hconf

end SpecModel

namespace SpecModel

/-- C1 counterexample: the original round-trip claim fails on the
spec's own §4.5 `wrap_scalar_as_string` inverse.  For a target that
wraps integers as strings, the document `{"age": "not-a-number"}`
conforms to the converted schema of `{"age": integer, minimum 0}`, but
the wrapped scalar does not parse back: rehydration records a
type-coercion warning and preserves the provider's string (§4.5), so
the rehydrated data fails type validation against the original schema
at a pointer with no `droppedConstraints` entry — a validation error
beyond the dropped constraints. -/
theorem roundtrip_wrap_coercion_counterexample :
    conformsConv (fun _ _ => false) (convert wrapProfile 4 wrapS).1 wrapDoc = true ∧
    ([Seg.key "age"], "type") ∈
      validate (fun _ _ => false) wrapS
        (rehydrate wrapS (convert wrapProfile 4 wrapS).2.1 wrapDoc).1 ∧
    droppedHas (convert wrapProfile 4 wrapS).2.2 [Seg.key "age"] "type" = false ∧
    coveredBy (rehydrate wrapS (convert wrapProfile 4 wrapS).2.1 wrapDoc).2
      [Seg.key "age"] = true := by
  decide

/-- C1 (amended): Round-trip soundness modulo dropped constraints and
rehydration warnings, on the modelled fragment.  For every target
profile, depth budget, schema `S` (nested objects, arrays, and
string/integer/boolean scalars; object keys distinct, required keys
declared) and document `D` with duplicate-free object keys that
conforms to `convert(S).schema`, every validation error of
`rehydrate(D, convert(S).codec, S).data` against `S` — the validation
step of `generate_with_preconverted` — either matches an entry of the
codec's `droppedConstraints` or lies at or below a schema pointer
carrying a rehydration warning (a failed scalar coercion or a depth
truncation); in particular, when rehydration emits no warnings the
validation step reports no error beyond the dropped constraints. -/
theorem roundtrip_soundness (matcher : String → String → Bool) (P : TargetProfile)
    (d : Nat) (S : Schema) (D : Json)
    (hwf : schemaWF S = true) (hnd : dataKeysDistinct D = true)
    (hconf : conformsConv matcher (convert P d S).1 D = true) :
    ∀ e ∈ validate matcher S (rehydrate S (convert P d S).2.1 D).1,
      droppedHas (convert P d S).2.2 e.1 e.2 = true ∨
      coveredBy (rehydrate S (convert P d S).2.1 D).2 e.1 = true :=
  roundtrip_core matcher P d S D hwf hnd hconf

/-- The hypotheses of the amended round-trip theorem hold at the sample
schema and document under the strict profile, and the conclusion
follows there. -/
theorem roundtrip_soundness_witness :
    (schemaWF sampleS = true ∧ dataKeysDistinct sampleDoc = true ∧
      conformsConv (fun _ _ => false) (convert strictProfile 4 sampleS).1
        sampleDoc = true) ∧
    (∀ e ∈ validate (fun _ _ => false) sampleS
        (rehydrate sampleS (convert strictProfile 4 sampleS).2.1 sampleDoc).1,
      droppedHas (convert strictProfile 4 sampleS).2.2 e.1 e.2 = true ∨
      coveredBy (rehydrate sampleS (convert strictProfile 4 sampleS).2.1
        sampleDoc).2 e.1 = true) :=
  ⟨⟨by decide, by decide, by decide⟩,
   roundtrip_soundness (fun _ _ => false) strictProfile 4 sampleS sampleDoc
     (by decide) (by decide) (by decide)⟩

end SpecModel

end JsonSchemaLlm
